import Mathlib

/-!
Shallow embedding of the SimpleJavaLexer repository (a Java lexer written
in C++): `token.h`, `token_matcher.cpp`, `number_helper.cpp`, `lexer.cpp`.

Conventions of the embedding:
* C++ `int` fields become `Int`; `std::string` becomes `String` (a wrapper
  around `List Char` in this Lean version); `std::vector<Token>` becomes
  `List Token` with `emplace_back` as append at the right end.
* `std::string::operator[]` applied at an index equal to `size()` yields the
  null character in C++; `charAt` mirrors this by defaulting to `'\x00'`.
* The `goto CONSUMER` re-dispatch of `tokenize` is modelled by
  `runConsumer`: a handler that does not consume its character always sets
  the state back to `STATE_NONE`, whose handler always consumes, so the
  re-dispatch loop runs at most twice per character.
* The end-of-input replay (`c = '\n'; goto CONSUMER`) can only fire once,
  in the iteration whose increment pushes the cursor past the end of the
  source, and it is followed by the cursor increment and newline bookkeeping
  of that iteration; `finish` performs exactly this after the main loop.
* The main loop is run on fuel and returns `none` on fuel exhaustion;
  termination is a theorem (`length + 1` fuel always suffices), not an
  assumption.
-/

/-- Null character, the value C++ `std::string::operator[]` returns at `size()`. -/
def nulChar : Char := Char.ofNat 0

/-- Character of a source text at a given index, defaulting to the null
character out of range (mirroring C++ `std::string` indexing at `size()`). -/
def charAt (s : List Char) (i : Nat) : Char := s.getD i nulChar

/-! ## token.h -/

inductive TokenType where
  | KEYWORD
  | LINE_COMMENT
  | BLOCK_COMMENT
  | STRING
  | CHAR
  | IDENTIFIER
  | ANNOTATION
  | NUMBER
  | HEX_NUMBER
  | BINARY_NUMBER
  | OPERATOR
  | SYMBOL
  | WHITESPACE
  | UNKNOWN
deriving DecidableEq, Repr

open TokenType

structure Position where
  index : Int
  line : Int
  column : Int
deriving DecidableEq, Repr

structure Token where
  type : TokenType
  lexeme : String
  position : Position
deriving DecidableEq, Repr

/-- Modelled from the spec: the four-argument `Token` constructor used by
`lexer.cpp` (e.g. `tokens.emplace_back(type, word, position, word.size())`)
is absent from the `token.h` in `src/` (which declares only the
three-argument constructor), so its body is reconstructed from the spec's
data-model contract: "the driver must retroactively compute the start
position from the current cursor position and the accumulated lexeme
length rather than capturing position only at token-open time" and
"always derive the token's start position from (current cursor position,
characters consumed since token open)".  Accordingly the fourth argument
is the number of cursor advances since the token opened and is subtracted
from the cursor index; the column is not adjusted, because the driver only
advances the column when a token is finalized, so at construction time the
column still denotes the token's first character. -/
def Token.mk4 (type : TokenType) (lex : String) (position : Position)
    (consumed : Int) : Token :=
  { type := type, lexeme := lex,
    position := { position with index := position.index - consumed } }

/-! ## number_helper.cpp -/

def isNumber (c : Char) : Bool := decide ('0' ≤ c ∧ c ≤ '9')

def isHexOrBinaryNumber (c : Char) (binary : Bool) : Bool :=
  if binary then decide (c = '0' ∨ c = '1')
  else isNumber c || decide ('a' ≤ c ∧ c ≤ 'f') || decide ('A' ≤ c ∧ c ≤ 'F')

def isNumberTypeIdentifier (c : Char) (supportsLong : Bool) : Bool :=
  decide (c = 'f' ∨ c = 'F' ∨ c = 'd' ∨ c = 'D') ||
    (supportsLong && decide (c = 'l' ∨ c = 'L'))

def isNumberStarter (c next_c : Char) : Bool :=
  isNumber c || (decide (c = '.') && isNumber next_c)

def isNumberInRange (c : Char) (isBinary isHex : Bool) : Bool :=
  if isBinary || isHex then isHexOrBinaryNumber c isBinary else isNumber c

/-- Forward scan of `consumeUnderscoreInNumber`: the `while` loop over
`nextIndex`, with `acc` the `consumedString` accumulated so far. -/
def underscoreScan (isBinary isHex : Bool) : List Char → String → String
  | [], _ => ""
  | ch :: rest, acc =>
    if ch = '_' then underscoreScan isBinary isHex rest (acc.push '_')
    else if isNumberInRange ch isBinary isHex then acc.push ch
    else ""

def consumeUnderscoreInNumber (source : String) (index : Int)
    (isBinary isHex : Bool) : String :=
  if index = 0 ∨ charAt source.data index.toNat ≠ '_' then ""
  else if ¬ isNumberInRange (charAt source.data (index - 1).toNat) isBinary isHex then ""
  else underscoreScan isBinary isHex (source.data.drop (index.toNat + 1)) "_"

/-! ## token_matcher.cpp -/

def java_keywords : List String := [
  "abstract", "assert", "boolean", "break",
  "byte", "case", "catch", "char", "class",
  "continue", "default", "do", "double",
  "else", "enum", "extends", "final", "if",
  "finally", "float", "for", "implements",
  "import", "instanceof", "int", "interface",
  "long", "native", "new", "package", "private",
  "protected", "public", "return", "short",
  "static", "super", "switch", "synchronized",
  "this", "throw", "throws", "transient", "try",
  "void", "volatile", "while", "goto", "@interface",
  "true", "false", "null", "const", "strictfp", "_"]

def java_operators_starter : List Char := [
  '=', '!', '<', '>', '+', '-', '*', '/',
  '&', '~', '|', '%', '^']

def java_operators : List String := [
  "!=", "=", "==", "<", ">", ">=", "<=", "~=",
  "/=", "*=", "+=", "-=", "-", "+", "*", "/",
  "!", "~", "^", "&", "^=", "|", "|=", "&=",
  "%", "%=", "&&", "||", "++", "--", "<<", ">>",
  "<<=", ">>="]

def java_symbols : List String := [
  ";", "->", "\x7b", "\x7d", "[", "]", "(", ")", ",", "@", ".", "?", ":"]

def isKeyword (token : String) : Bool := java_keywords.contains token

def isOperator (token : String) : Bool := java_operators.contains token

def isSymbol (token : String) : Bool := java_symbols.contains token

/-- Character class `[a-zA-Z0-9_$]` of `identifier_letter_regex`. -/
def isIdentifierLetterChar (c : Char) : Bool :=
  decide ('a' ≤ c ∧ c ≤ 'z') || decide ('A' ≤ c ∧ c ≤ 'Z') ||
    decide ('0' ≤ c ∧ c ≤ '9') || decide (c = '_') || decide (c = '$')

/-- Character class `[a-zA-Z_$]`, the first character of `identifier_regex`. -/
def isIdentifierStartChar (c : Char) : Bool :=
  decide ('a' ≤ c ∧ c ≤ 'z') || decide ('A' ≤ c ∧ c ≤ 'Z') ||
    decide (c = '_') || decide (c = '$')

/-- Whitespace characters matched by `\s` of `whitespace_regex` under the
default locale: space, tab, newline, vertical tab, form feed, carriage
return. -/
def isWhitespaceChar (c : Char) : Bool :=
  decide (c = ' ' ∨ c = '\t' ∨ c = '\n' ∨ c = Char.ofNat 11 ∨
    c = Char.ofNat 12 ∨ c = '\x0d')

/-- Full match of `identifier_letter_regex`: exactly one character of the
class. -/
def isIdentifierLetter (token : String) : Bool :=
  match token.data with
  | [c] => isIdentifierLetterChar c
  | _ => false

/-- Full match of `identifier_regex`: `[a-zA-Z_$][a-zA-Z0-9_$]*`. -/
def isIdentifier (token : String) : Bool :=
  match token.data with
  | [] => false
  | c :: rest => isIdentifierStartChar c && rest.all isIdentifierLetterChar

/-- Full match of `whitespace_regex`: `\s+`. -/
def isWhitespace (token : String) : Bool :=
  decide (token.data ≠ []) && token.data.all isWhitespaceChar

/-- C++ `token[0]`; for the empty string this is the null character. -/
def isOperatorStart (token : String) : Bool :=
  java_operators_starter.contains (charAt token.data 0)

def getTokenType (token : String) : TokenType :=
  if isKeyword token then KEYWORD
  else if isOperator token then OPERATOR
  else if isIdentifier token then IDENTIFIER
  else if isWhitespace token then WHITESPACE
  else if isSymbol token then SYMBOL
  else if charAt token.data 0 = '@' then
    let sub : String := ⟨token.data.drop 1⟩
    if isKeyword sub ∨ ¬ isIdentifier sub then UNKNOWN else ANNOTATION
  else UNKNOWN

/-! ## lexer.cpp -/

inductive TokenizerState where
  | STATE_NONE
  | STATE_WORD
  | STATE_LINE_COMMENT
  | STATE_BLOCK_COMMENT
  | STATE_LITERAL_STRING
  | STATE_LITERAL_CHAR
  | STATE_OPERATORS
  | STATE_NUMBERS
  | STATE_HEX
  | STATE_BINARY
deriving DecidableEq, Repr

open TokenizerState

structure NumberInfo where
  hasUsedDot : Bool
  hasUsedE : Bool
deriving DecidableEq, Repr

/-- The mutable locals of `tokenize` threaded through the per-state
handlers: the output vector, the position tracker, the accumulation buffer
`word`, the current state, the number flags, the saved block-comment start
position, and the previous character.  `nextC` mirrors the loop-local
`next_c`, which the end-of-input replay reuses from the last iteration. -/
structure LexState where
  tokens : List Token
  pos : Position
  word : String
  state : TokenizerState
  numberInfo : NumberInfo
  blockCommentPositionSaver : Position
  prevC : Char
  nextC : Char
deriving DecidableEq, Repr

/-- C++ `tokens.back().type != WHITESPACE` guarded by `!tokens.empty()`. -/
def backTypeNotWhitespace (tokens : List Token) : Prop :=
  match tokens.getLast? with
  | some t => t.type ≠ WHITESPACE
  | none => False

instance (tokens : List Token) : Decidable (backTypeNotWhitespace tokens) := by
  unfold backTypeNotWhitespace; exact match tokens.getLast? with
  | some _ => inferInstanceAs (Decidable _)
  | none => inferInstanceAs (Decidable False)

/-- Handler for `STATE_NONE` (function `consume` of `lexer.cpp`).  C++
first assigns the single-character accumulation `word = c`; here that
word, `String.singleton c`, is written inline at each of its uses, and the
two branches that C++ expresses through the locals `isDoubleColon` and a
conditionally updated `tokens` are written as nested conditionals with
the same outcomes. -/
def consume (st : LexState) (c next_c : Char) : LexState :=
  if c = '/' ∧ next_c = '/' then
    { st with word := String.singleton c, state := STATE_LINE_COMMENT }
  else if c = '/' ∧ next_c = '*' then
    { st with word := String.singleton c, state := STATE_BLOCK_COMMENT }
  else if c = '"' then
    { st with word := String.singleton c, state := STATE_LITERAL_STRING }
  else if c = '\'' then
    { st with word := String.singleton c, state := STATE_LITERAL_CHAR }
  else if c = '0' ∧ (next_c = 'x' ∨ next_c = 'X') then
    { st with word := String.singleton c, state := STATE_HEX }
  else if c = '0' ∧ (next_c = 'b' ∨ next_c = 'B') then
    { st with word := String.singleton c, state := STATE_BINARY }
  else if c = '@' ∧ isIdentifierLetter (String.singleton next_c) then
    { st with word := String.singleton c, state := STATE_WORD }
  else if isNumberStarter c next_c then
    { st with word := String.singleton c, state := STATE_NUMBERS }
  else if isOperatorStart (String.singleton c) then
    { st with word := String.singleton c, state := STATE_OPERATORS }
  else if isSymbol (String.singleton c) then
    if c = ':' ∧ next_c = ':' then
      { st with
        tokens := st.tokens ++ [Token.mk4 SYMBOL ((String.singleton c).push next_c)
          { st.pos with index := st.pos.index + 1 } 1],
        pos := { st.pos with
          index := st.pos.index + 1,
          column := st.pos.column + ((String.singleton c).push next_c).length },
        word := "" }
    else
      { st with
        tokens := st.tokens ++ [Token.mk4 SYMBOL (String.singleton c) st.pos 1],
        pos := { st.pos with
          column := st.pos.column + (String.singleton c).length },
        word := "" }
  else if isWhitespace (String.singleton c) then
    if backTypeNotWhitespace st.tokens then
      { st with
        tokens := st.tokens ++ [Token.mk4 WHITESPACE (String.singleton c) st.pos 0],
        pos := { st.pos with
          column := st.pos.column + (String.singleton c).length },
        word := "" }
    else
      { st with
        pos := { st.pos with
          column := st.pos.column + (String.singleton c).length },
        word := "" }
  else if isIdentifier (String.singleton c) then
    { st with word := String.singleton c, state := STATE_WORD }
  else
    { st with
      tokens := st.tokens ++ [Token.mk4 UNKNOWN (String.singleton c) st.pos 0],
      pos := { st.pos with
        column := st.pos.column + (String.singleton c).length },
      word := "" }

/-- Handler for `STATE_WORD`; the `Bool` is the C++ return value
(`true` when the character was consumed). -/
def consumeWord (st : LexState) (c : Char) : LexState × Bool :=
  if isIdentifierLetter (String.singleton c) then
    ({ st with word := st.word.push c }, true)
  else
    ({ st with
       tokens := st.tokens ++
         [Token.mk4 (getTokenType st.word) st.word st.pos st.word.length],
       pos := { st.pos with column := st.pos.column + st.word.length },
       word := "",
       state := STATE_NONE }, false)

/-- Handler for `STATE_LINE_COMMENT`. -/
def consumeLineComment (st : LexState) (c : Char) : LexState :=
  if c = '\n' then
    { st with
      tokens := st.tokens ++
        [Token.mk4 LINE_COMMENT st.word st.pos st.word.length],
      pos := { st.pos with column := st.pos.column + st.word.length },
      word := "",
      state := STATE_NONE }
  else { st with word := st.word.push c }

/-- Handler for `STATE_BLOCK_COMMENT`; the token position is the saved
start position, not the cursor.  C++ first appends `c` to `word` and
increments the column; both branches below carry those effects. -/
def consumeBlockComment (st : LexState) (c prev_c : Char) : LexState :=
  if prev_c = '*' ∧ c = '/' then
    { st with
      tokens := st.tokens ++
        [Token.mk4 BLOCK_COMMENT (st.word.push c) st.blockCommentPositionSaver 0],
      pos := { st.pos with column := st.pos.column + 1 },
      word := "",
      state := STATE_NONE }
  else
    { st with
      word := st.word.push c,
      pos := { st.pos with column := st.pos.column + 1 } }

/-- Handler for `STATE_LITERAL_STRING`.  Past the newline check, C++
appends `c` to `word`; both remaining branches below carry that push. -/
def consumeLiteralString (st : LexState) (c prev_c : Char) : LexState :=
  if c = '\n' then
    { st with
      tokens := st.tokens ++
        [Token.mk4 UNKNOWN st.word st.pos st.word.length],
      word := "",
      state := STATE_NONE }
  else if prev_c ≠ '\\' ∧ c = '"' then
    { st with
      tokens := st.tokens ++
        [Token.mk4 STRING (st.word.push c) st.pos (((st.word.push c).length : Int) - 1)],
      pos := { st.pos with column := st.pos.column + (st.word.push c).length },
      word := "",
      state := STATE_NONE }
  else { st with word := st.word.push c }

/-- Handler for `STATE_LITERAL_CHAR`.  Past the newline check, C++
appends `c` to `word`; both remaining branches below carry that push. -/
def consumeLiteralChar (st : LexState) (c prev_c : Char) : LexState :=
  if c = '\n' then
    { st with
      tokens := st.tokens ++
        [Token.mk4 UNKNOWN st.word st.pos st.word.length],
      word := "",
      state := STATE_NONE }
  else if prev_c ≠ '\\' ∧ c = '\'' then
    { st with
      tokens := st.tokens ++
        [Token.mk4 CHAR (st.word.push c) st.pos (((st.word.push c).length : Int) - 1)],
      pos := { st.pos with column := st.pos.column + (st.word.push c).length },
      word := "",
      state := STATE_NONE }
  else { st with word := st.word.push c }

/-- Handler for `STATE_OPERATORS`. -/
def consumeOperator (st : LexState) (c : Char) : LexState × Bool :=
  if isOperatorStart (String.singleton c) then
    ({ st with word := st.word.push c }, true)
  else
    ({ st with
       tokens := st.tokens ++
         [Token.mk4 (getTokenType st.word) st.word st.pos st.word.length],
       pos := { st.pos with column := st.pos.column + st.word.length },
       word := "",
       state := STATE_NONE }, false)

/-- Handler for `STATE_NUMBERS`.  The C++ local `underscore` is written
inline at each of its uses, and the final branch's local `isType` becomes
one more conditional: when the terminating character is a type suffix it
is included in the lexeme (and the reported length excludes it) and the
character counts as consumed. -/
def consumeNumber (source : String) (st : LexState)
    (prev_c c next_c : Char) : LexState × Bool :=
  if consumeUnderscoreInNumber source st.pos.index false false ≠ "" then
    ({ st with
       word := st.word ++ consumeUnderscoreInNumber source st.pos.index false false,
       pos := { st.pos with
                index := st.pos.index +
                  (((consumeUnderscoreInNumber source st.pos.index false false).length : Int)
                    - 1) } }, true)
  else if isNumber c ∨ (st.numberInfo.hasUsedE ∧ (prev_c = 'e' ∨ prev_c = 'E') ∧
      (c = '-' ∨ c = '+')) then
    ({ st with word := st.word.push c }, true)
  else if ¬ st.numberInfo.hasUsedDot ∧ c = '.' then
    ({ st with word := st.word.push c,
               numberInfo := { st.numberInfo with hasUsedDot := true } }, true)
  else if ¬ st.numberInfo.hasUsedE ∧ (c = 'e' ∨ c = 'E') ∧
      (isNumber next_c ∨ next_c = '+' ∨ next_c = '-') then
    ({ st with word := st.word.push c,
               numberInfo := { st.numberInfo with hasUsedE := true } }, true)
  else if isNumberTypeIdentifier c
      (!st.numberInfo.hasUsedE && !st.numberInfo.hasUsedDot) then
    ({ st with
       tokens := st.tokens ++
         [Token.mk4 NUMBER (st.word.push c) st.pos
           (((st.word.push c).length : Int) - 1)],
       pos := { st.pos with column := st.pos.column + (st.word.push c).length },
       word := "",
       state := STATE_NONE }, true)
  else
    ({ st with
       tokens := st.tokens ++
         [Token.mk4 NUMBER st.word st.pos (st.word.length : Int)],
       pos := { st.pos with column := st.pos.column + st.word.length },
       word := "",
       state := STATE_NONE }, false)

/-- Handler for `STATE_HEX` and `STATE_BINARY`.  The C++ local
`underscore` is written inline at each of its uses, and the final
branch's local `isType` becomes one more conditional: a trailing `l`/`L`
suffix is included in the lexeme (excluded from the reported length) and
counts as consumed; the token kind degrades to Unknown when the lexeme
(suffix excluded) does not reach past the `0x`/`0b` prefix. -/
def consumeHexAndBinary (source : String) (st : LexState) (c : Char)
    (isBinary : Bool) : LexState × Bool :=
  if consumeUnderscoreInNumber source st.pos.index isBinary (!isBinary) ≠ "" then
    ({ st with
       word := st.word ++ consumeUnderscoreInNumber source st.pos.index isBinary (!isBinary),
       pos := { st.pos with
                index := st.pos.index +
                  (((consumeUnderscoreInNumber source st.pos.index isBinary (!isBinary)).length : Int)
                    - 1) } }, true)
  else if st.word.length = 1 ∨ isHexOrBinaryNumber c isBinary then
    ({ st with word := st.word.push c }, true)
  else if c = 'l' ∨ c = 'L' then
    ({ st with
       tokens := st.tokens ++
         [Token.mk4
           (if (st.word.push c).length ≥ 4 then
             (if isBinary then BINARY_NUMBER else HEX_NUMBER) else UNKNOWN)
           (st.word.push c) st.pos (((st.word.push c).length : Int) - 1)],
       pos := { st.pos with column := st.pos.column + (st.word.push c).length },
       word := "",
       state := STATE_NONE }, true)
  else
    ({ st with
       tokens := st.tokens ++
         [Token.mk4
           (if st.word.length ≥ 3 then
             (if isBinary then BINARY_NUMBER else HEX_NUMBER) else UNKNOWN)
           st.word st.pos (st.word.length : Int)],
       pos := { st.pos with column := st.pos.column + st.word.length },
       word := "",
       state := STATE_NONE }, false)

/-- The bookkeeping of the `STATE_NONE` case of the `switch` in
`tokenize`: after `consume` ran, save the block-comment start position
when a block comment was entered, and reset the number flags when a
number literal was entered. -/
def noneTransitionExtras (st' : LexState) (c : Char) : LexState :=
  if st'.state = STATE_BLOCK_COMMENT then
    { st' with blockCommentPositionSaver := st'.pos }
  else if st'.state = STATE_NUMBERS then
    { st' with numberInfo := { hasUsedDot := c = '.', hasUsedE := false } }
  else st'

/-- One pass through the `switch` of `tokenize`, including the
`STATE_NONE` bookkeeping that saves the block-comment start position and
resets the number flags; the `Bool` is `hasConsumed`. -/
def dispatchOnce (source : String) (st : LexState) (c next_c : Char) :
    LexState × Bool :=
  match st.state with
  | STATE_NONE => (noneTransitionExtras (consume st c next_c) c, true)
  | STATE_WORD => consumeWord st c
  | STATE_LINE_COMMENT => (consumeLineComment st c, true)
  | STATE_BLOCK_COMMENT => (consumeBlockComment st c st.prevC, true)
  | STATE_LITERAL_STRING => (consumeLiteralString st c st.prevC, true)
  | STATE_LITERAL_CHAR => (consumeLiteralChar st c st.prevC, true)
  | STATE_OPERATORS => consumeOperator st c
  | STATE_NUMBERS => consumeNumber source st st.prevC c next_c
  | STATE_HEX => consumeHexAndBinary source st c false
  | STATE_BINARY => consumeHexAndBinary source st c true
/-- The `goto CONSUMER` loop: re-dispatch while `hasConsumed` is false.
A handler that does not consume always sets the state to `STATE_NONE`,
whose handler always consumes, so at most one re-dispatch happens. -/
def runConsumer (source : String) (st : LexState) (c next_c : Char) : LexState :=
  let r := dispatchOnce source st c next_c
  if r.2 then r.1 else (dispatchOnce source r.1 c next_c).1

/-- Cursor bookkeeping at the end of a loop iteration: `position.index++`,
newline handling, `prev_c = c`. -/
def advancePos (st : LexState) (c : Char) : LexState :=
  if c = '\n' then
    { st with
      pos := { index := st.pos.index + 1, line := st.pos.line + 1, column := 1 },
      prevC := c }
  else
    { st with pos := { st.pos with index := st.pos.index + 1 }, prevC := c }

/-- One full iteration of the `while` loop of `tokenize`, without the
end-of-input replay (which can only fire on the last iteration and is
performed by `finish`). -/
def stepCore (source : String) (st : LexState) : LexState :=
  let c := charAt source.data st.pos.index.toNat
  let next_c := if (source.length : Int) > st.pos.index + 1 then
      charAt source.data (st.pos.index + 1).toNat else nulChar
  let st := { st with nextC := next_c }
  advancePos (runConsumer source st c next_c) c

/-- The end-of-input replay of `tokenize`: when the input is exhausted
with a pending token and the previous character was not a newline, the
driver re-dispatches a synthesized `'\n'` (reusing the last iteration's
`next_c`) and performs the usual cursor bookkeeping; the replay cannot
fire twice because it sets `prev_c` to `'\n'`. -/
def finish (source : String) (st : LexState) : LexState :=
  if st.pos.index ≥ (source.length : Int) ∧ st.state ≠ STATE_NONE ∧
      st.word ≠ "" ∧ st.prevC ≠ '\n' then
    advancePos (runConsumer source st '\n' st.nextC) '\n'
  else st

/-- The `while (source.length() > position.index)` loop, on fuel. -/
def mainLoop (source : String) : Nat → LexState → Option LexState
  | 0, _ => none
  | fuel + 1, st =>
    if (source.length : Int) > st.pos.index then
      mainLoop source fuel (stepCore source st)
    else some st

/-- Initial values of the locals of `tokenize`. -/
def initState : LexState :=
  { tokens := [],
    pos := { index := 0, line := 1, column := 1 },
    word := "",
    state := STATE_NONE,
    numberInfo := { hasUsedDot := false, hasUsedE := false },
    blockCommentPositionSaver := { index := 0, line := 0, column := 0 },
    prevC := nulChar,
    nextC := nulChar }

/-- State at the exit of the main loop, before the end-of-input replay. -/
def preFinal (source : String) : Option LexState :=
  mainLoop source (source.length + 1) initState

/-- Full run of `tokenize`: main loop, then the end-of-input replay.
`none` only on fuel exhaustion, which never happens (a theorem below). -/
def tokenizeOpt (source : String) : Option LexState :=
  (preFinal source).map (finish source)

/-- The token stream returned by `tokenize`. -/
def tokenize (source : String) : List Token :=
  ((tokenizeOpt source).getD initState).tokens

/-- Pairs of kind and lexeme of a token stream, the data compared by the
repository's own test harness. -/
def tokenKinds (tokens : List Token) : List (TokenType × String) :=
  tokens.map fun t => (t.type, t.lexeme)

/-! ## Specification-side definitions, for comparison with the code -/

/-- Specification-side description of `consumeUnderscoreInNumber`, written
from the spec's words: given the index of a candidate underscore, the
result is the contiguous run of underscores together with the single
following digit-in-range exactly when the character immediately to the
left of the index is a valid digit-in-range and the forward run ends at a
valid digit-in-range; otherwise (index 0, invalid left neighbour, run
ending at a non-digit, or end of input, where the character read past the
end is the null character, which is not a digit) the result is empty. -/
def consumeUnderscoreSpec (source : String) (index : Int)
    (isBinary isHex : Bool) : String :=
  if index = 0 then ""
  else if ¬ isNumberInRange (charAt source.data (index - 1).toNat) isBinary isHex then ""
  else if isNumberInRange
      (charAt (source.data.drop index.toNat)
        (((source.data.drop index.toNat).takeWhile fun c => c = '_').length))
      isBinary isHex then
    ⟨(source.data.drop index.toNat).take
      ((((source.data.drop index.toNat).takeWhile fun c => c = '_').length) + 1)⟩
  else ""

/-- Specification-side description of the classifier, written from the
spec's words: test membership in the fixed order keyword, operator,
identifier, whitespace, symbol, then annotation (an `@` followed by a
valid identifier that is not itself a reserved word), else unknown. -/
def getTokenTypeSpec (token : String) : TokenType :=
  if isKeyword token then KEYWORD
  else if isOperator token then OPERATOR
  else if isIdentifier token then IDENTIFIER
  else if isWhitespace token then WHITESPACE
  else if isSymbol token then SYMBOL
  else if token.data.head? = some '@' ∧ isIdentifier ⟨token.data.drop 1⟩ ∧
      ¬ isKeyword ⟨token.data.drop 1⟩ then ANNOTATION
  else UNKNOWN

/-- Concatenation of the lexemes of a token stream, as characters. -/
def lexData (tokens : List Token) : List Char :=
  (tokens.map fun t => t.lexeme.data).flatten

/-- The characters of a text that are not whitespace, in order. -/
def nonWhitespaceChars (l : List Char) : List Char :=
  l.filter fun c => !(isWhitespaceChar c)

/-- No two consecutive tokens of the stream are both whitespace tokens. -/
def NoAdjacentWhitespace : List Token → Prop
  | [] => True
  | [_] => True
  | a :: b :: rest =>
    ¬(a.type = WHITESPACE ∧ b.type = WHITESPACE) ∧ NoAdjacentWhitespace (b :: rest)

/-- Structural invariant of a running tokenizer: the cursor stays inside
the source (one past the end at most), the buffer is empty exactly in the
neutral state, after a processed newline the state is neutral or block
comment, a hex or binary state with a single buffered character sits on
the `x`/`b` of its prefix, and the buffer of a word or operator state
never matches the whitespace shape. -/
def StInv (source : String) (st : LexState) : Prop :=
  0 ≤ st.pos.index ∧ st.pos.index ≤ (source.length : Int) ∧
  (st.state = STATE_NONE → st.word = "") ∧
  (st.state ≠ STATE_NONE → st.word ≠ "") ∧
  (st.prevC = '\n' → st.state = STATE_NONE ∨ st.state = STATE_BLOCK_COMMENT) ∧
  (st.state = STATE_HEX → st.word.length = 1 →
    st.pos.index < (source.length : Int) ∧
      (charAt source.data st.pos.index.toNat = 'x' ∨
        charAt source.data st.pos.index.toNat = 'X')) ∧
  (st.state = STATE_BINARY → st.word.length = 1 →
    st.pos.index < (source.length : Int) ∧
      (charAt source.data st.pos.index.toNat = 'b' ∨
        charAt source.data st.pos.index.toNat = 'B')) ∧
  (st.state = STATE_WORD → isWhitespace st.word = false) ∧
  (st.state = STATE_OPERATORS → isWhitespace st.word = false)

/-! ## Basic lemmas about strings and characters -/

theorem data_mk (l : List Char) : (String.mk l).data = l := rfl

theorem data_push (s : String) (c : Char) : (s.push c).data = s.data ++ [c] := by
  obtain ⟨l⟩ := s; rfl

theorem data_append (s t : String) : (s ++ t).data = s.data ++ t.data := rfl

theorem data_singleton (c : Char) : (String.singleton c).data = [c] := rfl

theorem length_data (s : String) : s.length = s.data.length := rfl

theorem ne_empty_iff_data (s : String) : s ≠ "" ↔ s.data ≠ [] := by
  obtain ⟨l⟩ := s
  constructor
  · intro h h'
    exact h (congrArg String.mk h')
  · intro h h'
    exact h (congrArg String.data h')

theorem length_pos_of_ne_empty {s : String} (h : s ≠ "") : 0 < s.length := by
  rw [length_data]
  have := (ne_empty_iff_data s).mp h
  exact List.length_pos.mpr this

theorem push_ne_empty (s : String) (c : Char) : s.push c ≠ "" := by
  rw [ne_empty_iff_data, data_push]
  simp

theorem charAt_cons_zero (c : Char) (l : List Char) : charAt (c :: l) 0 = c := rfl

theorem charAt_cons_succ (c : Char) (l : List Char) (i : Nat) :
    charAt (c :: l) (i + 1) = charAt l i := rfl

theorem charAt_of_le {l : List Char} {i : Nat} (h : l.length ≤ i) :
    charAt l i = nulChar := by
  simp [charAt, List.getD, List.getElem?_eq_none h]

theorem lt_length_of_charAt {l : List Char} {i : Nat} (h : charAt l i ≠ nulChar) :
    i < l.length := by
  by_contra h'
  exact h (charAt_of_le (by omega))

theorem drop_eq_charAt_cons {l : List Char} {i : Nat} (h : i < l.length) :
    l.drop i = charAt l i :: l.drop (i + 1) := by
  induction l generalizing i with
  | nil => simp at h
  | cons c rest ih =>
    cases i with
    | zero => simp [charAt_cons_zero]
    | succ j =>
      rw [List.drop_succ_cons, charAt_cons_succ]
      exact ih (by simpa using h)

theorem isNumberInRange_nul (isBinary isHex : Bool) :
    isNumberInRange nulChar isBinary isHex = false := by
  cases isBinary <;> cases isHex <;> decide

/-! ## Claim C6: underscore consumption inside numeric literals -/

theorem underscoreScan_eq (isBinary isHex : Bool) (l : List Char) (acc : String) :
    underscoreScan isBinary isHex l acc =
      (if isNumberInRange (charAt l ((l.takeWhile fun c => c = '_').length))
          isBinary isHex then
        ⟨acc.data ++ l.take ((l.takeWhile fun c => c = '_').length + 1)⟩
      else "") := by
  induction l generalizing acc with
  | nil =>
    simp [underscoreScan, charAt, isNumberInRange_nul]
  | cons c rest ih =>
    by_cases hc : c = '_'
    · subst hc
      rw [underscoreScan, if_pos rfl, ih]
      have ht : (('_' :: rest).takeWhile fun c => c = '_') =
          '_' :: (rest.takeWhile fun c => c = '_') := by
        simp [List.takeWhile_cons]
      rw [ht]
      simp only [List.length_cons, charAt_cons_succ, List.take_succ_cons, data_push]
      split
      · congr 1
        simp
      · rfl
    · rw [underscoreScan, if_neg hc]
      have ht : ((c :: rest).takeWhile fun c => c = '_') = [] := by
        simp [List.takeWhile_cons, hc]
      rw [ht]
      simp only [List.length_nil, charAt_cons_zero, List.take_succ_cons,
        List.take_zero]
      split
      · obtain ⟨la⟩ := acc; rfl
      · rfl

/-- Claim C6: for every source string and every index of a candidate
underscore inside a numeric literal, `consumeUnderscoreInNumber` returns
the contiguous run of underscores plus the single following
digit-in-range exactly when the character immediately to the left of the
index is a valid digit-in-range and the forward run ends at a valid
digit-in-range; otherwise (index 0, invalid left neighbour, run ending at
a non-digit, or end of input) it returns the empty string, producing no
consumption.  Stated as agreement with the specification-side function
`consumeUnderscoreSpec`, which expresses exactly that case split. -/
theorem consumeUnderscore_meets_spec (source : String) (index : Int)
    (isBinary isHex : Bool)
    (hc : charAt source.data index.toNat = '_') :
    consumeUnderscoreInNumber source index isBinary isHex =
      consumeUnderscoreSpec source index isBinary isHex := by
  unfold consumeUnderscoreInNumber consumeUnderscoreSpec
  by_cases hz : index = 0
  · simp [hz]
  · rw [if_neg (by simp [hz, hc]), if_neg hz]
    by_cases hr : isNumberInRange (charAt source.data (index - 1).toNat) isBinary isHex = true
    · rw [if_neg (fun h => h hr), if_neg (fun h => h hr)]
      have hlt : index.toNat < source.data.length :=
        lt_length_of_charAt (by rw [hc]; decide)
      have hdrop : source.data.drop index.toNat =
          '_' :: source.data.drop (index.toNat + 1) := by
        rw [drop_eq_charAt_cons hlt, hc]
      rw [underscoreScan_eq, hdrop]
      have ht : (('_' :: source.data.drop (index.toNat + 1)).takeWhile
          fun c => c = '_') =
          '_' :: ((source.data.drop (index.toNat + 1)).takeWhile
            fun c => c = '_') := by
        simp [List.takeWhile_cons]
      rw [ht]
      simp only [List.length_cons, charAt_cons_succ, List.take_succ_cons]
      rfl
    · rw [if_pos hr, if_pos hr]

/-- Witness for C6 at a concrete input: source `"1_2"`, candidate
underscore at index 1. -/
theorem consumeUnderscore_meets_spec_witness :
    charAt ("1_2" : String).data ((1 : Int)).toNat = '_' ∧
      consumeUnderscoreInNumber "1_2" 1 false false =
        consumeUnderscoreSpec "1_2" 1 false false :=
  ⟨by decide, consumeUnderscore_meets_spec "1_2" 1 false false (by decide)⟩

/-! ## Claim C7: classifier test order -/

/-- Claim C7: for every lexeme string, `getTokenType` tests membership in
the fixed order keyword, operator, identifier, whitespace, symbol, then
annotation (an `@` followed by a valid identifier that is not itself a
reserved word), else Unknown — stated as agreement with the
specification-side classifier `getTokenTypeSpec` — and in particular the
lexeme `"->"` is classified as Symbol, not Operator. -/
theorem getTokenType_meets_spec :
    (∀ token : String, getTokenType token = getTokenTypeSpec token) ∧
      getTokenType "->" = SYMBOL := by
  constructor
  · intro token
    unfold getTokenType getTokenTypeSpec
    obtain ⟨l⟩ := token
    cases l with
    | nil => decide
    | cons c rest =>
      simp only [data_mk, charAt_cons_zero, List.head?_cons, Option.some.injEq,
        List.drop_succ_cons, List.drop_zero]
      split_ifs <;> first | rfl | tauto
  · decide

/-! ## Claim C1: termination and totality of tokenize -/

/-- Elimination principle for `consume`: to establish a property of
`consume st c n`, establish it for every branch under that branch's path
condition.  Proved once, so that later proofs never expand the large
conditional tree of `consume` themselves. -/
theorem consume_elim {motive : LexState → Prop} (st : LexState) (c n : Char)
    (H1 : c = '/' ∧ n = '/' →
      motive { st with word := String.singleton c, state := STATE_LINE_COMMENT })
    (H2 : ¬(c = '/' ∧ n = '/') → c = '/' ∧ n = '*' →
      motive { st with word := String.singleton c, state := STATE_BLOCK_COMMENT })
    (H3 : ¬(c = '/' ∧ n = '/') → ¬(c = '/' ∧ n = '*') → c = '"' →
      motive { st with word := String.singleton c, state := STATE_LITERAL_STRING })
    (H4 : ¬(c = '/' ∧ n = '/') → ¬(c = '/' ∧ n = '*') → ¬(c = '"') → c = '\'' →
      motive { st with word := String.singleton c, state := STATE_LITERAL_CHAR })
    (H5 : ¬(c = '/' ∧ n = '/') → ¬(c = '/' ∧ n = '*') → ¬(c = '"') → ¬(c = '\'') →
      c = '0' ∧ (n = 'x' ∨ n = 'X') →
      motive { st with word := String.singleton c, state := STATE_HEX })
    (H6 : ¬(c = '/' ∧ n = '/') → ¬(c = '/' ∧ n = '*') → ¬(c = '"') → ¬(c = '\'') →
      ¬(c = '0' ∧ (n = 'x' ∨ n = 'X')) → c = '0' ∧ (n = 'b' ∨ n = 'B') →
      motive { st with word := String.singleton c, state := STATE_BINARY })
    (H7 : ¬(c = '/' ∧ n = '/') → ¬(c = '/' ∧ n = '*') → ¬(c = '"') → ¬(c = '\'') →
      ¬(c = '0' ∧ (n = 'x' ∨ n = 'X')) → ¬(c = '0' ∧ (n = 'b' ∨ n = 'B')) →
      c = '@' ∧ isIdentifierLetter (String.singleton n) = true →
      motive { st with word := String.singleton c, state := STATE_WORD })
    (H8 : ¬(c = '/' ∧ n = '/') → ¬(c = '/' ∧ n = '*') → ¬(c = '"') → ¬(c = '\'') →
      ¬(c = '0' ∧ (n = 'x' ∨ n = 'X')) → ¬(c = '0' ∧ (n = 'b' ∨ n = 'B')) →
      ¬(c = '@' ∧ isIdentifierLetter (String.singleton n) = true) →
      isNumberStarter c n = true →
      motive { st with word := String.singleton c, state := STATE_NUMBERS })
    (H9 : ¬(c = '/' ∧ n = '/') → ¬(c = '/' ∧ n = '*') → ¬(c = '"') → ¬(c = '\'') →
      ¬(c = '0' ∧ (n = 'x' ∨ n = 'X')) → ¬(c = '0' ∧ (n = 'b' ∨ n = 'B')) →
      ¬(c = '@' ∧ isIdentifierLetter (String.singleton n) = true) →
      ¬(isNumberStarter c n = true) → isOperatorStart (String.singleton c) = true →
      motive { st with word := String.singleton c, state := STATE_OPERATORS })
    (H10a : ¬(c = '/' ∧ n = '/') → ¬(c = '/' ∧ n = '*') → ¬(c = '"') → ¬(c = '\'') →
      ¬(c = '0' ∧ (n = 'x' ∨ n = 'X')) → ¬(c = '0' ∧ (n = 'b' ∨ n = 'B')) →
      ¬(c = '@' ∧ isIdentifierLetter (String.singleton n) = true) →
      ¬(isNumberStarter c n = true) → ¬(isOperatorStart (String.singleton c) = true) →
      isSymbol (String.singleton c) = true → c = ':' ∧ n = ':' →
      motive { st with
        tokens := st.tokens ++ [Token.mk4 SYMBOL ((String.singleton c).push n)
          { st.pos with index := st.pos.index + 1 } 1],
        pos := { st.pos with
          index := st.pos.index + 1,
          column := st.pos.column + ((String.singleton c).push n).length },
        word := "" })
    (H10b : ¬(c = '/' ∧ n = '/') → ¬(c = '/' ∧ n = '*') → ¬(c = '"') → ¬(c = '\'') →
      ¬(c = '0' ∧ (n = 'x' ∨ n = 'X')) → ¬(c = '0' ∧ (n = 'b' ∨ n = 'B')) →
      ¬(c = '@' ∧ isIdentifierLetter (String.singleton n) = true) →
      ¬(isNumberStarter c n = true) → ¬(isOperatorStart (String.singleton c) = true) →
      isSymbol (String.singleton c) = true → ¬(c = ':' ∧ n = ':') →
      motive { st with
        tokens := st.tokens ++ [Token.mk4 SYMBOL (String.singleton c) st.pos 1],
        pos := { st.pos with
          column := st.pos.column + (String.singleton c).length },
        word := "" })
    (H11a : ¬(c = '/' ∧ n = '/') → ¬(c = '/' ∧ n = '*') → ¬(c = '"') → ¬(c = '\'') →
      ¬(c = '0' ∧ (n = 'x' ∨ n = 'X')) → ¬(c = '0' ∧ (n = 'b' ∨ n = 'B')) →
      ¬(c = '@' ∧ isIdentifierLetter (String.singleton n) = true) →
      ¬(isNumberStarter c n = true) → ¬(isOperatorStart (String.singleton c) = true) →
      ¬(isSymbol (String.singleton c) = true) → isWhitespace (String.singleton c) = true →
      backTypeNotWhitespace st.tokens →
      motive { st with
        tokens := st.tokens ++ [Token.mk4 WHITESPACE (String.singleton c) st.pos 0],
        pos := { st.pos with
          column := st.pos.column + (String.singleton c).length },
        word := "" })
    (H11b : ¬(c = '/' ∧ n = '/') → ¬(c = '/' ∧ n = '*') → ¬(c = '"') → ¬(c = '\'') →
      ¬(c = '0' ∧ (n = 'x' ∨ n = 'X')) → ¬(c = '0' ∧ (n = 'b' ∨ n = 'B')) →
      ¬(c = '@' ∧ isIdentifierLetter (String.singleton n) = true) →
      ¬(isNumberStarter c n = true) → ¬(isOperatorStart (String.singleton c) = true) →
      ¬(isSymbol (String.singleton c) = true) → isWhitespace (String.singleton c) = true →
      ¬ backTypeNotWhitespace st.tokens →
      motive { st with
        pos := { st.pos with
          column := st.pos.column + (String.singleton c).length },
        word := "" })
    (H12 : ¬(c = '/' ∧ n = '/') → ¬(c = '/' ∧ n = '*') → ¬(c = '"') → ¬(c = '\'') →
      ¬(c = '0' ∧ (n = 'x' ∨ n = 'X')) → ¬(c = '0' ∧ (n = 'b' ∨ n = 'B')) →
      ¬(c = '@' ∧ isIdentifierLetter (String.singleton n) = true) →
      ¬(isNumberStarter c n = true) → ¬(isOperatorStart (String.singleton c) = true) →
      ¬(isSymbol (String.singleton c) = true) → ¬(isWhitespace (String.singleton c) = true) →
      isIdentifier (String.singleton c) = true →
      motive { st with word := String.singleton c, state := STATE_WORD })
    (H13 : ¬(c = '/' ∧ n = '/') → ¬(c = '/' ∧ n = '*') → ¬(c = '"') → ¬(c = '\'') →
      ¬(c = '0' ∧ (n = 'x' ∨ n = 'X')) → ¬(c = '0' ∧ (n = 'b' ∨ n = 'B')) →
      ¬(c = '@' ∧ isIdentifierLetter (String.singleton n) = true) →
      ¬(isNumberStarter c n = true) → ¬(isOperatorStart (String.singleton c) = true) →
      ¬(isSymbol (String.singleton c) = true) → ¬(isWhitespace (String.singleton c) = true) →
      ¬(isIdentifier (String.singleton c) = true) →
      motive { st with
        tokens := st.tokens ++ [Token.mk4 UNKNOWN (String.singleton c) st.pos 0],
        pos := { st.pos with
          column := st.pos.column + (String.singleton c).length },
        word := "" }) :
    motive (consume st c n) := by
  delta consume
  by_cases h1 : c = '/' ∧ n = '/'
  · rw [if_pos h1]; exact H1 h1
  rw [if_neg h1]
  by_cases h2 : c = '/' ∧ n = '*'
  · rw [if_pos h2]; exact H2 h1 h2
  rw [if_neg h2]
  by_cases h3 : c = '"'
  · rw [if_pos h3]; exact H3 h1 h2 h3
  rw [if_neg h3]
  by_cases h4 : c = '\''
  · rw [if_pos h4]; exact H4 h1 h2 h3 h4
  rw [if_neg h4]
  by_cases h5 : c = '0' ∧ (n = 'x' ∨ n = 'X')
  · rw [if_pos h5]; exact H5 h1 h2 h3 h4 h5
  rw [if_neg h5]
  by_cases h6 : c = '0' ∧ (n = 'b' ∨ n = 'B')
  · rw [if_pos h6]; exact H6 h1 h2 h3 h4 h5 h6
  rw [if_neg h6]
  by_cases h7 : c = '@' ∧ isIdentifierLetter (String.singleton n) = true
  · rw [if_pos h7]; exact H7 h1 h2 h3 h4 h5 h6 h7
  rw [if_neg h7]
  by_cases h8 : isNumberStarter c n = true
  · rw [if_pos h8]; exact H8 h1 h2 h3 h4 h5 h6 h7 h8
  rw [if_neg h8]
  by_cases h9 : isOperatorStart (String.singleton c) = true
  · rw [if_pos h9]; exact H9 h1 h2 h3 h4 h5 h6 h7 h8 h9
  rw [if_neg h9]
  by_cases h10 : isSymbol (String.singleton c) = true
  · rw [if_pos h10]
    by_cases hdc : c = ':' ∧ n = ':'
    · rw [if_pos hdc]; exact H10a h1 h2 h3 h4 h5 h6 h7 h8 h9 h10 hdc
    · rw [if_neg hdc]; exact H10b h1 h2 h3 h4 h5 h6 h7 h8 h9 h10 hdc
  rw [if_neg h10]
  by_cases h11 : isWhitespace (String.singleton c) = true
  · rw [if_pos h11]
    by_cases hbt : backTypeNotWhitespace st.tokens
    · rw [if_pos hbt]; exact H11a h1 h2 h3 h4 h5 h6 h7 h8 h9 h10 h11 hbt
    · rw [if_neg hbt]; exact H11b h1 h2 h3 h4 h5 h6 h7 h8 h9 h10 h11 hbt
  rw [if_neg h11]
  by_cases h12 : isIdentifier (String.singleton c) = true
  · rw [if_pos h12]; exact H12 h1 h2 h3 h4 h5 h6 h7 h8 h9 h10 h11 h12
  · rw [if_neg h12]; exact H13 h1 h2 h3 h4 h5 h6 h7 h8 h9 h10 h11 h12

theorem consume_index_le (st : LexState) (c n : Char) :
    st.pos.index ≤ (consume st c n).pos.index := by
  refine consume_elim (motive := fun s => st.pos.index ≤ s.pos.index) st c n
    ?_ ?_ ?_ ?_ ?_ ?_ ?_ ?_ ?_ ?_ ?_ ?_ ?_ ?_ ?_ <;>
      intros <;> dsimp only <;> omega

theorem consumeWord_index_le (st : LexState) (c : Char) :
    st.pos.index ≤ (consumeWord st c).1.pos.index := by
  simp only [consumeWord]
  split_ifs <;> simp

theorem consumeLineComment_index_le (st : LexState) (c : Char) :
    st.pos.index ≤ (consumeLineComment st c).pos.index := by
  simp only [consumeLineComment]
  split_ifs <;> simp

theorem consumeBlockComment_index_le (st : LexState) (c p : Char) :
    st.pos.index ≤ (consumeBlockComment st c p).pos.index := by
  simp only [consumeBlockComment]
  split_ifs <;> simp

theorem consumeLiteralString_index_le (st : LexState) (c p : Char) :
    st.pos.index ≤ (consumeLiteralString st c p).pos.index := by
  simp only [consumeLiteralString]
  split_ifs <;> simp

theorem consumeLiteralChar_index_le (st : LexState) (c p : Char) :
    st.pos.index ≤ (consumeLiteralChar st c p).pos.index := by
  simp only [consumeLiteralChar]
  split_ifs <;> simp

theorem consumeOperator_index_le (st : LexState) (c : Char) :
    st.pos.index ≤ (consumeOperator st c).1.pos.index := by
  simp only [consumeOperator]
  split_ifs <;> simp

theorem consumeNumber_index_le (source : String) (st : LexState) (p c n : Char) :
    st.pos.index ≤ (consumeNumber source st p c n).1.pos.index := by
  simp only [consumeNumber]
  split_ifs with h <;> simp
  have := length_pos_of_ne_empty h
  omega

theorem consumeHexAndBinary_index_le (source : String) (st : LexState)
    (c : Char) (b : Bool) :
    st.pos.index ≤ (consumeHexAndBinary source st c b).1.pos.index := by
  simp only [consumeHexAndBinary]
  split_ifs with h <;> simp
  have := length_pos_of_ne_empty h
  omega

theorem noneTransitionExtras_pos (st' : LexState) (c : Char) :
    (noneTransitionExtras st' c).pos = st'.pos := by
  simp only [noneTransitionExtras]
  split_ifs <;> rfl

theorem noneTransitionExtras_tokens (st' : LexState) (c : Char) :
    (noneTransitionExtras st' c).tokens = st'.tokens := by
  simp only [noneTransitionExtras]
  split_ifs <;> rfl

theorem noneTransitionExtras_word (st' : LexState) (c : Char) :
    (noneTransitionExtras st' c).word = st'.word := by
  simp only [noneTransitionExtras]
  split_ifs <;> rfl

theorem noneTransitionExtras_state (st' : LexState) (c : Char) :
    (noneTransitionExtras st' c).state = st'.state := by
  simp only [noneTransitionExtras]
  split_ifs <;> rfl

theorem noneTransitionExtras_prevC (st' : LexState) (c : Char) :
    (noneTransitionExtras st' c).prevC = st'.prevC := by
  simp only [noneTransitionExtras]
  split_ifs <;> rfl

theorem dispatchOnce_index_le (source : String) (st : LexState) (c n : Char) :
    st.pos.index ≤ (dispatchOnce source st c n).1.pos.index := by
  unfold dispatchOnce
  cases hs : st.state
  case STATE_NONE =>
    simp only [noneTransitionExtras_pos]
    exact consume_index_le st c n
  case STATE_WORD => exact consumeWord_index_le st c
  case STATE_LINE_COMMENT => exact consumeLineComment_index_le st c
  case STATE_BLOCK_COMMENT => exact consumeBlockComment_index_le st c st.prevC
  case STATE_LITERAL_STRING => exact consumeLiteralString_index_le st c st.prevC
  case STATE_LITERAL_CHAR => exact consumeLiteralChar_index_le st c st.prevC
  case STATE_OPERATORS => exact consumeOperator_index_le st c
  case STATE_NUMBERS => exact consumeNumber_index_le source st st.prevC c n
  case STATE_HEX => exact consumeHexAndBinary_index_le source st c false
  case STATE_BINARY => exact consumeHexAndBinary_index_le source st c true

theorem runConsumer_index_le (source : String) (st : LexState) (c n : Char) :
    st.pos.index ≤ (runConsumer source st c n).pos.index := by
  simp only [runConsumer]
  split
  · exact dispatchOnce_index_le source st c n
  · exact le_trans (dispatchOnce_index_le source st c n)
      (dispatchOnce_index_le source _ c n)

theorem advancePos_index (st : LexState) (c : Char) :
    (advancePos st c).pos.index = st.pos.index + 1 := by
  simp only [advancePos]
  split <;> rfl

theorem stepCore_index_lt (source : String) (st : LexState) :
    st.pos.index + 1 ≤ (stepCore source st).pos.index := by
  have h : ∀ (st' : LexState) (c n : Char), st'.pos.index = st.pos.index →
      st.pos.index + 1 ≤ (advancePos (runConsumer source st' c n) c).pos.index := by
    intro st' c n he
    rw [advancePos_index]
    have := runConsumer_index_le source st' c n
    omega
  exact h _ _ _ rfl

theorem mainLoop_total (source : String) :
    ∀ (fuel : Nat) (st : LexState),
      ((source.length : Int) - st.pos.index).toNat < fuel →
      ∃ st', mainLoop source fuel st = some st' := by
  intro fuel
  induction fuel with
  | zero => intro st h; omega
  | succ f ih =>
    intro st h
    rw [mainLoop]
    split
    · apply ih
      have := stepCore_index_lt source st
      omega
    · exact ⟨st, rfl⟩

/-- Claim C1: for every finite input string, `tokenize` terminates
(fuel `length + 1` always suffices for the main loop, including the
re-dispatch of unconsumed characters and the end-of-input replay) and
returns a finite token stream without any failure; for the empty input it
returns the empty stream. -/
theorem tokenize_total :
    (∀ source : String, ∃ st, tokenizeOpt source = some st) ∧
      tokenize "" = [] := by
  constructor
  · intro source
    obtain ⟨st', h⟩ := mainLoop_total source (source.length + 1) initState
      (by show ((source.length : Int) - 0).toNat < source.length + 1; omega)
    exact ⟨finish source st', by simp [tokenizeOpt, preFinal, h]⟩
  · rfl

/-! ## Claims C2, C4, C5: concrete runs of the tokenizer -/

/-- Claim C2 evaluated at its own input: the code does not split a run of
operator-starting characters into maximal operators of the operator
table.  `consumeOperator` greedily accumulates every operator-starting
character, so the runs `--+-` and `++-~` are swallowed whole and the
classifier returns Unknown for them; the repository's own test
"Complex operator sequence" expects the maximal-operator split instead. -/
theorem tokenize_operator_run_eval :
    tokenKinds (tokenize "a--+-b++-~a") =
      [(IDENTIFIER, "a"), (UNKNOWN, "--+-"), (IDENTIFIER, "b"),
       (UNKNOWN, "++-~"), (IDENTIFIER, "a"), (WHITESPACE, "\n")] := by
  decide

/-- Claim C4 evaluated at the failing input `";"`: under the
spec-modelled four-argument constructor the single-character Symbol token
receives `position.index = -1` although its lexeme's first (and only)
character sits at index 0 — the symbol branch passes a length of 1 even
though the cursor has not yet advanced past the symbol. -/
theorem tokenize_symbol_position_eval :
    tokenize ";" = [⟨SYMBOL, ";", ⟨-1, 1, 1⟩⟩] ∧ (-1 : Int) ≠ 0 := by
  decide

/-- Claim C5 counterexample: for the input `"/*a"` the input is exhausted
while the block-comment state holds the non-empty buffer `"/*a"`, the
trailing newline is synthesized — yet the handler does not finalize: the
newline is merely appended to the buffer and the returned stream is
empty, so no token holding the pending text is ever emitted. -/
theorem tokenize_blockComment_dropped :
    tokenize "/*a" = [] ∧
      (preFinal "/*a").map (fun st => (st.state, st.word)) =
        some (STATE_BLOCK_COMMENT, "/*a") ∧
      (tokenizeOpt "/*a").map (fun st => (st.state, st.word)) =
        some (STATE_BLOCK_COMMENT, "/*a\n") := by
  decide

/-! ## Character-class and lexeme-classifier lemmas -/

theorem isIdentifierLetter_singleton (c : Char) :
    isIdentifierLetter (String.singleton c) = isIdentifierLetterChar c := rfl

theorem isIdentifier_singleton (c : Char) :
    isIdentifier (String.singleton c) = isIdentifierStartChar c := by
  show (isIdentifierStartChar c && List.all [] isIdentifierLetterChar) =
    isIdentifierStartChar c
  simp

theorem isWhitespace_singleton (c : Char) :
    isWhitespace (String.singleton c) = isWhitespaceChar c := by
  show (decide (([c] : List Char) ≠ []) && List.all [c] isWhitespaceChar) =
    isWhitespaceChar c
  simp

theorem isWhitespaceChar_cases {c : Char} (h : isWhitespaceChar c = true) :
    c = ' ' ∨ c = '\t' ∨ c = '\n' ∨ c = Char.ofNat 11 ∨
      c = Char.ofNat 12 ∨ c = '\x0d' := by
  unfold isWhitespaceChar at h
  exact of_decide_eq_true h

theorem not_ws_of_identifierLetter {c : Char}
    (h : isIdentifierLetterChar c = true) : isWhitespaceChar c = false := by
  by_contra hw
  rw [Bool.not_eq_false] at hw
  rcases isWhitespaceChar_cases hw with rfl | rfl | rfl | rfl | rfl | rfl <;>
    exact absurd h (by decide)

theorem not_ws_of_identifierStart {c : Char}
    (h : isIdentifierStartChar c = true) : isWhitespaceChar c = false := by
  by_contra hw
  rw [Bool.not_eq_false] at hw
  rcases isWhitespaceChar_cases hw with rfl | rfl | rfl | rfl | rfl | rfl <;>
    exact absurd h (by decide)

theorem opStart_singleton_mem {c : Char}
    (h : isOperatorStart (String.singleton c) = true) :
    c ∈ java_operators_starter := by
  have h' : java_operators_starter.contains c = true := h
  simpa using h'

theorem not_ws_of_opStart {c : Char}
    (h : isOperatorStart (String.singleton c) = true) :
    isWhitespaceChar c = false := by
  have hm := opStart_singleton_mem h
  fin_cases hm <;> decide

theorem ne_newline_of_identifierLetter {c : Char}
    (h : isIdentifierLetterChar c = true) : c ≠ '\n' := by
  intro hc
  subst hc
  exact absurd h (by decide)

theorem ne_newline_of_opStart {c : Char}
    (h : isOperatorStart (String.singleton c) = true) : c ≠ '\n' := by
  intro hc
  subst hc
  have := opStart_singleton_mem h
  simp [java_operators_starter] at this

theorem ne_newline_of_isNumber {c : Char} (h : isNumber c = true) : c ≠ '\n' := by
  intro hc
  subst hc
  exact absurd h (by decide)

theorem ne_newline_of_hexOrBinary {c : Char} {b : Bool}
    (h : isHexOrBinaryNumber c b = true) : c ≠ '\n' := by
  intro hc
  subst hc
  cases b <;> exact absurd h (by decide)

theorem isWhitespace_push_false (s : String) {c : Char}
    (h : isWhitespaceChar c = false) : isWhitespace (s.push c) = false := by
  unfold isWhitespace
  rw [data_push]
  simp [h]

theorem getTokenType_ne_whitespace {w : String}
    (h : isWhitespace w = false) : getTokenType w ≠ WHITESPACE := by
  intro heq
  unfold getTokenType at heq
  split_ifs at heq <;> try simp_all
  exact absurd heq (by split <;> simp)

/-! ## Dispatch equations and field lemmas -/

theorem dispatchOnce_none (source : String) (st : LexState) (c n : Char)
    (h : st.state = STATE_NONE) :
    dispatchOnce source st c n = (noneTransitionExtras (consume st c n) c, true) := by
  obtain ⟨t, p, w, s, ni, bs, pc, nc⟩ := st
  subst h
  rfl

theorem dispatchOnce_word (source : String) (st : LexState) (c n : Char)
    (h : st.state = STATE_WORD) :
    dispatchOnce source st c n = consumeWord st c := by
  obtain ⟨t, p, w, s, ni, bs, pc, nc⟩ := st
  subst h
  rfl

theorem dispatchOnce_lineComment (source : String) (st : LexState) (c n : Char)
    (h : st.state = STATE_LINE_COMMENT) :
    dispatchOnce source st c n = (consumeLineComment st c, true) := by
  obtain ⟨t, p, w, s, ni, bs, pc, nc⟩ := st
  subst h
  rfl

theorem dispatchOnce_blockComment (source : String) (st : LexState) (c n : Char)
    (h : st.state = STATE_BLOCK_COMMENT) :
    dispatchOnce source st c n = (consumeBlockComment st c st.prevC, true) := by
  obtain ⟨t, p, w, s, ni, bs, pc, nc⟩ := st
  subst h
  rfl

theorem dispatchOnce_literalString (source : String) (st : LexState) (c n : Char)
    (h : st.state = STATE_LITERAL_STRING) :
    dispatchOnce source st c n = (consumeLiteralString st c st.prevC, true) := by
  obtain ⟨t, p, w, s, ni, bs, pc, nc⟩ := st
  subst h
  rfl

theorem dispatchOnce_literalChar (source : String) (st : LexState) (c n : Char)
    (h : st.state = STATE_LITERAL_CHAR) :
    dispatchOnce source st c n = (consumeLiteralChar st c st.prevC, true) := by
  obtain ⟨t, p, w, s, ni, bs, pc, nc⟩ := st
  subst h
  rfl

theorem dispatchOnce_operators (source : String) (st : LexState) (c n : Char)
    (h : st.state = STATE_OPERATORS) :
    dispatchOnce source st c n = consumeOperator st c := by
  obtain ⟨t, p, w, s, ni, bs, pc, nc⟩ := st
  subst h
  rfl

theorem dispatchOnce_numbers (source : String) (st : LexState) (c n : Char)
    (h : st.state = STATE_NUMBERS) :
    dispatchOnce source st c n = consumeNumber source st st.prevC c n := by
  obtain ⟨t, p, w, s, ni, bs, pc, nc⟩ := st
  subst h
  rfl

theorem dispatchOnce_hex (source : String) (st : LexState) (c n : Char)
    (h : st.state = STATE_HEX) :
    dispatchOnce source st c n = consumeHexAndBinary source st c false := by
  obtain ⟨t, p, w, s, ni, bs, pc, nc⟩ := st
  subst h
  rfl

theorem dispatchOnce_binary (source : String) (st : LexState) (c n : Char)
    (h : st.state = STATE_BINARY) :
    dispatchOnce source st c n = consumeHexAndBinary source st c true := by
  obtain ⟨t, p, w, s, ni, bs, pc, nc⟩ := st
  subst h
  rfl

theorem runConsumer_eq (source : String) (st : LexState) (c n : Char) :
    runConsumer source st c n =
      (if (dispatchOnce source st c n).2 = true then (dispatchOnce source st c n).1
       else (dispatchOnce source (dispatchOnce source st c n).1 c n).1) := rfl

theorem advancePos_tokens (st : LexState) (c : Char) :
    (advancePos st c).tokens = st.tokens := by
  simp only [advancePos]
  split <;> rfl

theorem advancePos_word (st : LexState) (c : Char) :
    (advancePos st c).word = st.word := by
  simp only [advancePos]
  split <;> rfl

theorem advancePos_state (st : LexState) (c : Char) :
    (advancePos st c).state = st.state := by
  simp only [advancePos]
  split <;> rfl

theorem advancePos_prevC (st : LexState) (c : Char) :
    (advancePos st c).prevC = c := by
  simp only [advancePos]
  split <;> rfl

/-! ## Branch equations for the per-state handlers -/

theorem consumeWord_letter (st : LexState) (c : Char)
    (h : isIdentifierLetter (String.singleton c) = true) :
    consumeWord st c = ({ st with word := st.word.push c }, true) := by
  delta consumeWord
  rw [if_pos h]

theorem consumeWord_finalize (st : LexState) (c : Char)
    (h : ¬ isIdentifierLetter (String.singleton c) = true) :
    consumeWord st c =
      ({ st with
         tokens := st.tokens ++
           [Token.mk4 (getTokenType st.word) st.word st.pos st.word.length],
         pos := { st.pos with column := st.pos.column + st.word.length },
         word := "",
         state := STATE_NONE }, false) := by
  delta consumeWord
  rw [if_neg h]

theorem consumeOperator_start (st : LexState) (c : Char)
    (h : isOperatorStart (String.singleton c) = true) :
    consumeOperator st c = ({ st with word := st.word.push c }, true) := by
  delta consumeOperator
  rw [if_pos h]

theorem consumeOperator_finalize (st : LexState) (c : Char)
    (h : ¬ isOperatorStart (String.singleton c) = true) :
    consumeOperator st c =
      ({ st with
         tokens := st.tokens ++
           [Token.mk4 (getTokenType st.word) st.word st.pos st.word.length],
         pos := { st.pos with column := st.pos.column + st.word.length },
         word := "",
         state := STATE_NONE }, false) := by
  delta consumeOperator
  rw [if_neg h]

theorem consumeLineComment_newline (st : LexState) (c : Char) (h : c = '\n') :
    consumeLineComment st c =
      { st with
        tokens := st.tokens ++
          [Token.mk4 LINE_COMMENT st.word st.pos st.word.length],
        pos := { st.pos with column := st.pos.column + st.word.length },
        word := "",
        state := STATE_NONE } := by
  delta consumeLineComment
  rw [if_pos h]

theorem consumeLineComment_accum (st : LexState) (c : Char) (h : ¬ c = '\n') :
    consumeLineComment st c = { st with word := st.word.push c } := by
  delta consumeLineComment
  rw [if_neg h]

theorem consumeBlockComment_close (st : LexState) (c p : Char)
    (h : p = '*' ∧ c = '/') :
    consumeBlockComment st c p =
      { st with
        tokens := st.tokens ++
          [Token.mk4 BLOCK_COMMENT (st.word.push c) st.blockCommentPositionSaver 0],
        pos := { st.pos with column := st.pos.column + 1 },
        word := "",
        state := STATE_NONE } := by
  delta consumeBlockComment
  rw [if_pos h]

theorem consumeBlockComment_accum (st : LexState) (c p : Char)
    (h : ¬(p = '*' ∧ c = '/')) :
    consumeBlockComment st c p =
      { st with
        word := st.word.push c,
        pos := { st.pos with column := st.pos.column + 1 } } := by
  delta consumeBlockComment
  rw [if_neg h]

theorem consumeLiteralString_newline (st : LexState) (c p : Char) (h : c = '\n') :
    consumeLiteralString st c p =
      { st with
        tokens := st.tokens ++
          [Token.mk4 UNKNOWN st.word st.pos st.word.length],
        word := "",
        state := STATE_NONE } := by
  delta consumeLiteralString
  rw [if_pos h]

theorem consumeLiteralString_close (st : LexState) (c p : Char)
    (h1 : ¬ c = '\n') (h2 : p ≠ '\\' ∧ c = '"') :
    consumeLiteralString st c p =
      { st with
        tokens := st.tokens ++
          [Token.mk4 STRING (st.word.push c) st.pos (((st.word.push c).length : Int) - 1)],
        pos := { st.pos with column := st.pos.column + (st.word.push c).length },
        word := "",
        state := STATE_NONE } := by
  delta consumeLiteralString
  rw [if_neg h1, if_pos h2]

theorem consumeLiteralString_accum (st : LexState) (c p : Char)
    (h1 : ¬ c = '\n') (h2 : ¬(p ≠ '\\' ∧ c = '"')) :
    consumeLiteralString st c p = { st with word := st.word.push c } := by
  delta consumeLiteralString
  rw [if_neg h1, if_neg h2]

theorem consumeLiteralChar_newline (st : LexState) (c p : Char) (h : c = '\n') :
    consumeLiteralChar st c p =
      { st with
        tokens := st.tokens ++
          [Token.mk4 UNKNOWN st.word st.pos st.word.length],
        word := "",
        state := STATE_NONE } := by
  delta consumeLiteralChar
  rw [if_pos h]

theorem consumeLiteralChar_close (st : LexState) (c p : Char)
    (h1 : ¬ c = '\n') (h2 : p ≠ '\\' ∧ c = '\'') :
    consumeLiteralChar st c p =
      { st with
        tokens := st.tokens ++
          [Token.mk4 CHAR (st.word.push c) st.pos (((st.word.push c).length : Int) - 1)],
        pos := { st.pos with column := st.pos.column + (st.word.push c).length },
        word := "",
        state := STATE_NONE } := by
  delta consumeLiteralChar
  rw [if_neg h1, if_pos h2]

theorem consumeLiteralChar_accum (st : LexState) (c p : Char)
    (h1 : ¬ c = '\n') (h2 : ¬(p ≠ '\\' ∧ c = '\'')) :
    consumeLiteralChar st c p = { st with word := st.word.push c } := by
  delta consumeLiteralChar
  rw [if_neg h1, if_neg h2]

theorem consumeNumber_underscore (source : String) (st : LexState) (p c n : Char)
    (h : consumeUnderscoreInNumber source st.pos.index false false ≠ "") :
    consumeNumber source st p c n =
      ({ st with
         word := st.word ++ consumeUnderscoreInNumber source st.pos.index false false,
         pos := { st.pos with
                  index := st.pos.index +
                    (((consumeUnderscoreInNumber source st.pos.index false false).length : Int)
                      - 1) } }, true) := by
  delta consumeNumber
  rw [if_pos h]

theorem consumeNumber_digit (source : String) (st : LexState) (p c n : Char)
    (h0 : ¬ consumeUnderscoreInNumber source st.pos.index false false ≠ "")
    (h : isNumber c = true ∨ (st.numberInfo.hasUsedE = true ∧ (p = 'e' ∨ p = 'E') ∧
      (c = '-' ∨ c = '+'))) :
    consumeNumber source st p c n = ({ st with word := st.word.push c }, true) := by
  delta consumeNumber
  rw [if_neg h0, if_pos h]

theorem consumeNumber_dot (source : String) (st : LexState) (p c n : Char)
    (h0 : ¬ consumeUnderscoreInNumber source st.pos.index false false ≠ "")
    (h1 : ¬(isNumber c = true ∨ (st.numberInfo.hasUsedE = true ∧ (p = 'e' ∨ p = 'E') ∧
      (c = '-' ∨ c = '+'))))
    (h : ¬ st.numberInfo.hasUsedDot = true ∧ c = '.') :
    consumeNumber source st p c n =
      ({ st with word := st.word.push c,
                 numberInfo := { st.numberInfo with hasUsedDot := true } }, true) := by
  delta consumeNumber
  rw [if_neg h0, if_neg h1, if_pos h]

theorem consumeNumber_exponent (source : String) (st : LexState) (p c n : Char)
    (h0 : ¬ consumeUnderscoreInNumber source st.pos.index false false ≠ "")
    (h1 : ¬(isNumber c = true ∨ (st.numberInfo.hasUsedE = true ∧ (p = 'e' ∨ p = 'E') ∧
      (c = '-' ∨ c = '+'))))
    (h2 : ¬(¬ st.numberInfo.hasUsedDot = true ∧ c = '.'))
    (h : ¬ st.numberInfo.hasUsedE = true ∧ (c = 'e' ∨ c = 'E') ∧
      (isNumber n = true ∨ n = '+' ∨ n = '-')) :
    consumeNumber source st p c n =
      ({ st with word := st.word.push c,
                 numberInfo := { st.numberInfo with hasUsedE := true } }, true) := by
  delta consumeNumber
  rw [if_neg h0, if_neg h1, if_neg h2, if_pos h]

theorem consumeNumber_finalize_suffix (source : String) (st : LexState) (p c n : Char)
    (h0 : ¬ consumeUnderscoreInNumber source st.pos.index false false ≠ "")
    (h1 : ¬(isNumber c = true ∨ (st.numberInfo.hasUsedE = true ∧ (p = 'e' ∨ p = 'E') ∧
      (c = '-' ∨ c = '+'))))
    (h2 : ¬(¬ st.numberInfo.hasUsedDot = true ∧ c = '.'))
    (h3 : ¬(¬ st.numberInfo.hasUsedE = true ∧ (c = 'e' ∨ c = 'E') ∧
      (isNumber n = true ∨ n = '+' ∨ n = '-')))
    (h : isNumberTypeIdentifier c
      (!st.numberInfo.hasUsedE && !st.numberInfo.hasUsedDot) = true) :
    consumeNumber source st p c n =
      ({ st with
         tokens := st.tokens ++
           [Token.mk4 NUMBER (st.word.push c) st.pos
             (((st.word.push c).length : Int) - 1)],
         pos := { st.pos with column := st.pos.column + (st.word.push c).length },
         word := "",
         state := STATE_NONE }, true) := by
  delta consumeNumber
  rw [if_neg h0, if_neg h1, if_neg h2, if_neg h3, if_pos h]

theorem consumeNumber_finalize (source : String) (st : LexState) (p c n : Char)
    (h0 : ¬ consumeUnderscoreInNumber source st.pos.index false false ≠ "")
    (h1 : ¬(isNumber c = true ∨ (st.numberInfo.hasUsedE = true ∧ (p = 'e' ∨ p = 'E') ∧
      (c = '-' ∨ c = '+'))))
    (h2 : ¬(¬ st.numberInfo.hasUsedDot = true ∧ c = '.'))
    (h3 : ¬(¬ st.numberInfo.hasUsedE = true ∧ (c = 'e' ∨ c = 'E') ∧
      (isNumber n = true ∨ n = '+' ∨ n = '-')))
    (h : ¬ isNumberTypeIdentifier c
      (!st.numberInfo.hasUsedE && !st.numberInfo.hasUsedDot) = true) :
    consumeNumber source st p c n =
      ({ st with
         tokens := st.tokens ++
           [Token.mk4 NUMBER st.word st.pos (st.word.length : Int)],
         pos := { st.pos with column := st.pos.column + st.word.length },
         word := "",
         state := STATE_NONE }, false) := by
  delta consumeNumber
  rw [if_neg h0, if_neg h1, if_neg h2, if_neg h3, if_neg h]

theorem consumeHexAndBinary_underscore (source : String) (st : LexState) (c : Char)
    (b : Bool)
    (h : consumeUnderscoreInNumber source st.pos.index b (!b) ≠ "") :
    consumeHexAndBinary source st c b =
      ({ st with
         word := st.word ++ consumeUnderscoreInNumber source st.pos.index b (!b),
         pos := { st.pos with
                  index := st.pos.index +
                    (((consumeUnderscoreInNumber source st.pos.index b (!b)).length : Int)
                      - 1) } }, true) := by
  delta consumeHexAndBinary
  rw [if_pos h]

theorem consumeHexAndBinary_accum (source : String) (st : LexState) (c : Char)
    (b : Bool)
    (h0 : ¬ consumeUnderscoreInNumber source st.pos.index b (!b) ≠ "")
    (h : st.word.length = 1 ∨ isHexOrBinaryNumber c b = true) :
    consumeHexAndBinary source st c b = ({ st with word := st.word.push c }, true) := by
  delta consumeHexAndBinary
  rw [if_neg h0, if_pos h]

theorem consumeHexAndBinary_finalize_suffix (source : String) (st : LexState)
    (c : Char) (b : Bool)
    (h0 : ¬ consumeUnderscoreInNumber source st.pos.index b (!b) ≠ "")
    (h1 : ¬(st.word.length = 1 ∨ isHexOrBinaryNumber c b = true))
    (h : c = 'l' ∨ c = 'L') :
    consumeHexAndBinary source st c b =
      ({ st with
         tokens := st.tokens ++
           [Token.mk4
             (if (st.word.push c).length ≥ 4 then
               (if b then BINARY_NUMBER else HEX_NUMBER) else UNKNOWN)
             (st.word.push c) st.pos (((st.word.push c).length : Int) - 1)],
         pos := { st.pos with column := st.pos.column + (st.word.push c).length },
         word := "",
         state := STATE_NONE }, true) := by
  delta consumeHexAndBinary
  rw [if_neg h0, if_neg h1, if_pos h]

theorem consumeHexAndBinary_finalize (source : String) (st : LexState)
    (c : Char) (b : Bool)
    (h0 : ¬ consumeUnderscoreInNumber source st.pos.index b (!b) ≠ "")
    (h1 : ¬(st.word.length = 1 ∨ isHexOrBinaryNumber c b = true))
    (h : ¬(c = 'l' ∨ c = 'L')) :
    consumeHexAndBinary source st c b =
      ({ st with
         tokens := st.tokens ++
           [Token.mk4
             (if st.word.length ≥ 3 then
               (if b then BINARY_NUMBER else HEX_NUMBER) else UNKNOWN)
             st.word st.pos (st.word.length : Int)],
         pos := { st.pos with column := st.pos.column + st.word.length },
         word := "",
         state := STATE_NONE }, false) := by
  delta consumeHexAndBinary
  rw [if_neg h0, if_neg h1, if_neg h]

/-! ## Structural facts about the underscore consumption -/

theorem ne_nul_of_inRange {c : Char} {b h : Bool}
    (hr : isNumberInRange c b h = true) : c ≠ nulChar := by
  intro hc
  subst hc
  rw [isNumberInRange_nul] at hr
  exact absurd hr (by decide)

theorem take_length_take (l : List Char) (k : Nat) :
    l.take ((l.take k).length) = l.take k := by
  rw [List.length_take]
  rcases le_total k l.length with h | h
  · rw [Nat.min_eq_left h]
  · rw [Nat.min_eq_right h, List.take_of_length_le h, List.take_length]

theorem singleton_ne_empty (c : Char) : String.singleton c ≠ "" := by
  rw [ne_empty_iff_data, data_singleton]
  simp

theorem append_ne_empty_right (s t : String) (h : t ≠ "") : s ++ t ≠ "" := by
  rw [ne_empty_iff_data, data_append]
  rw [ne_empty_iff_data] at h
  simp [h]

theorem ne_newline_of_identifierStart {c : Char}
    (h : isIdentifierStartChar c = true) : c ≠ '\n' := by
  intro hc
  subst hc
  exact absurd h (by decide)

theorem consumeUnderscore_strong (source : String) (index : Int) (b x : Bool)
    (h : consumeUnderscoreInNumber source index b x ≠ "") :
    charAt source.data index.toNat = '_' ∧
      (consumeUnderscoreInNumber source index b x).data =
        (source.data.drop index.toNat).take
          (consumeUnderscoreInNumber source index b x).data.length ∧
      index.toNat + (consumeUnderscoreInNumber source index b x).data.length ≤
        source.data.length := by
  by_cases h1 : index = 0 ∨ charAt source.data index.toNat ≠ '_'
  · rw [consumeUnderscoreInNumber, if_pos h1] at h
    exact absurd rfl h
  · have hc : charAt source.data index.toNat = '_' := by
      rcases not_or.mp h1 with ⟨_, hx⟩
      exact not_not.mp hx
    by_cases h2 : ¬ isNumberInRange (charAt source.data (index - 1).toNat) b x = true
    · rw [consumeUnderscoreInNumber, if_neg h1, if_pos h2] at h
      exact absurd rfl h
    · have he : consumeUnderscoreInNumber source index b x =
          underscoreScan b x (source.data.drop (index.toNat + 1)) "_" := by
        rw [consumeUnderscoreInNumber, if_neg h1, if_neg h2]
      rw [he] at h ⊢
      rw [underscoreScan_eq] at h ⊢
      set L := source.data.drop (index.toNat + 1) with hL
      set K := (L.takeWhile fun c => c = '_').length with hK
      by_cases h3 : isNumberInRange (charAt L K) b x = true
      · rw [if_pos h3]
        have hlt : index.toNat < source.data.length := lt_length_of_charAt (by
          rw [hc]; decide)
        have hdrop : source.data.drop index.toNat = '_' :: L := by
          rw [drop_eq_charAt_cons hlt, hc, hL]
        set T := L.take (K + 1) with hT
        have hdata : (⟨"_".data ++ T⟩ : String).data = '_' :: T := rfl
        refine ⟨hc, ?_, ?_⟩
        · rw [hdata, List.length_cons, hdrop, List.take_succ_cons]
          rw [hT, hK, take_length_take]
        · rw [hdata, List.length_cons]
          have h5 : T.length ≤ L.length := by
            rw [hT, List.length_take]; omega
          have hdl : L.length = source.data.length - (index.toNat + 1) := by
            rw [hL]; exact List.length_drop _ _
          omega
      · rw [if_neg h3] at h
        exact absurd rfl h

/-! ## The structural invariant: builders and preservation -/

theorem stInv_build0 (source : String) (stR : LexState) (c : Char)
    (hb0 : 0 ≤ stR.pos.index + 1)
    (hb1 : stR.pos.index + 1 ≤ (source.length : Int))
    (hw1 : stR.state = STATE_NONE → stR.word = "")
    (hw2 : stR.state ≠ STATE_NONE → stR.word ≠ "")
    (hn : c = '\n' → stR.state = STATE_NONE ∨ stR.state = STATE_BLOCK_COMMENT)
    (hh1 : stR.state = STATE_HEX → stR.word.length = 1 →
      stR.pos.index + 1 < (source.length : Int) ∧
        (charAt source.data (stR.pos.index + 1).toNat = 'x' ∨
          charAt source.data (stR.pos.index + 1).toNat = 'X'))
    (hh2 : stR.state = STATE_BINARY → stR.word.length = 1 →
      stR.pos.index + 1 < (source.length : Int) ∧
        (charAt source.data (stR.pos.index + 1).toNat = 'b' ∨
          charAt source.data (stR.pos.index + 1).toNat = 'B'))
    (hk1 : stR.state = STATE_WORD → isWhitespace stR.word = false)
    (hk2 : stR.state = STATE_OPERATORS → isWhitespace stR.word = false) :
    StInv source (advancePos stR c) := by
  unfold StInv
  rw [advancePos_index, advancePos_word, advancePos_state, advancePos_prevC]
  exact ⟨hb0, hb1, hw1, hw2, hn, hh1, hh2, hk1, hk2⟩

theorem stInv_build (source : String) (stR : LexState) (c : Char)
    (hb0 : 0 ≤ stR.pos.index + 1)
    (hb1 : stR.pos.index + 1 ≤ (source.length : Int))
    (hw1 : stR.state = STATE_NONE → stR.word = "")
    (hw2 : stR.state ≠ STATE_NONE → stR.word ≠ "")
    (hn : c = '\n' → stR.state = STATE_NONE ∨ stR.state = STATE_BLOCK_COMMENT)
    (hh1 : stR.state = STATE_HEX → stR.word.length = 1 →
      stR.pos.index + 1 < (source.length : Int) ∧
        (charAt source.data (stR.pos.index + 1).toNat = 'x' ∨
          charAt source.data (stR.pos.index + 1).toNat = 'X'))
    (hh2 : stR.state = STATE_BINARY → stR.word.length = 1 →
      stR.pos.index + 1 < (source.length : Int) ∧
        (charAt source.data (stR.pos.index + 1).toNat = 'b' ∨
          charAt source.data (stR.pos.index + 1).toNat = 'B'))
    (hk1 : stR.state = STATE_WORD → isWhitespace stR.word = false)
    (hk2 : stR.state = STATE_OPERATORS → isWhitespace stR.word = false) :
    StInv source (advancePos (noneTransitionExtras stR c) c) := by
  apply stInv_build0 <;>
    simp only [noneTransitionExtras_pos, noneTransitionExtras_word,
      noneTransitionExtras_state] <;>
    assumption

theorem ne_newline_of_numberStarter {c n : Char}
    (h : isNumberStarter c n = true) : c ≠ '\n' := by
  intro hc
  subst hc
  rw [isNumberStarter, show isNumber '\n' = false from by decide,
    show decide ('\n' = '.') = false from by decide] at h
  simp at h

/-- Preservation of the structural invariant by the neutral-state
handler followed by the cursor bookkeeping, for an arbitrary character
`c` (possibly the synthesized end-of-input newline), provided the
lookahead `n` is the one the driver computed at the current cursor. -/
theorem stInv_none_step (source : String) (st0 : LexState) (c n : Char)
    (hst : st0.state = STATE_NONE)
    (h0 : 0 ≤ st0.pos.index) (hlt : st0.pos.index < (source.length : Int))
    (hnA : n = (if (source.length : Int) > st0.pos.index + 1 then
      charAt source.data (st0.pos.index + 1).toNat else nulChar)) :
    StInv source (advancePos (noneTransitionExtras (consume st0 c n) c) c) := by
  refine consume_elim (motive := fun res =>
    StInv source (advancePos (noneTransitionExtras res c) c)) st0 c n
    ?_ ?_ ?_ ?_ ?_ ?_ ?_ ?_ ?_ ?_ ?_ ?_ ?_ ?_ ?_
  · intro h1
    apply stInv_build
    case hb0 => dsimp only; omega
    case hb1 => dsimp only; omega
    case hw1 => dsimp only; intro hx; exact absurd hx (by decide)
    case hw2 => dsimp only; intro _; exact singleton_ne_empty c
    case hn => dsimp only; intro hc'; exact absurd (h1.1.symm.trans hc') (by decide)
    case hh1 => dsimp only; intro hx; exact absurd hx (by decide)
    case hh2 => dsimp only; intro hx; exact absurd hx (by decide)
    case hk1 => dsimp only; intro hx; exact absurd hx (by decide)
    case hk2 => dsimp only; intro hx; exact absurd hx (by decide)
  · intro _ h2
    apply stInv_build
    case hb0 => dsimp only; omega
    case hb1 => dsimp only; omega
    case hw1 => dsimp only; intro hx; exact absurd hx (by decide)
    case hw2 => dsimp only; intro _; exact singleton_ne_empty c
    case hn => dsimp only; intro _; exact Or.inr rfl
    case hh1 => dsimp only; intro hx; exact absurd hx (by decide)
    case hh2 => dsimp only; intro hx; exact absurd hx (by decide)
    case hk1 => dsimp only; intro hx; exact absurd hx (by decide)
    case hk2 => dsimp only; intro hx; exact absurd hx (by decide)
  · intro _ _ h3
    apply stInv_build
    case hb0 => dsimp only; omega
    case hb1 => dsimp only; omega
    case hw1 => dsimp only; intro hx; exact absurd hx (by decide)
    case hw2 => dsimp only; intro _; exact singleton_ne_empty c
    case hn => dsimp only; intro hc'; exact absurd (h3.symm.trans hc') (by decide)
    case hh1 => dsimp only; intro hx; exact absurd hx (by decide)
    case hh2 => dsimp only; intro hx; exact absurd hx (by decide)
    case hk1 => dsimp only; intro hx; exact absurd hx (by decide)
    case hk2 => dsimp only; intro hx; exact absurd hx (by decide)
  · intro _ _ _ h4
    apply stInv_build
    case hb0 => dsimp only; omega
    case hb1 => dsimp only; omega
    case hw1 => dsimp only; intro hx; exact absurd hx (by decide)
    case hw2 => dsimp only; intro _; exact singleton_ne_empty c
    case hn => dsimp only; intro hc'; exact absurd (h4.symm.trans hc') (by decide)
    case hh1 => dsimp only; intro hx; exact absurd hx (by decide)
    case hh2 => dsimp only; intro hx; exact absurd hx (by decide)
    case hk1 => dsimp only; intro hx; exact absurd hx (by decide)
    case hk2 => dsimp only; intro hx; exact absurd hx (by decide)
  · intro _ _ _ _ h5
    apply stInv_build
    case hb0 => dsimp only; omega
    case hb1 => dsimp only; omega
    case hw1 => dsimp only; intro hx; exact absurd hx (by decide)
    case hw2 => dsimp only; intro _; exact singleton_ne_empty c
    case hn => dsimp only; intro hc'; exact absurd (h5.1.symm.trans hc') (by decide)
    case hh1 =>
      dsimp only
      intro _ _
      rcases h5 with ⟨-, hx⟩
      by_cases hcond : (source.length : Int) > st0.pos.index + 1
      · rw [if_pos hcond] at hnA
        subst hnA
        exact ⟨hcond, hx⟩
      · rw [if_neg hcond] at hnA
        subst hnA
        exact absurd hx (by decide)
    case hh2 => dsimp only; intro hx; exact absurd hx (by decide)
    case hk1 => dsimp only; intro hx; exact absurd hx (by decide)
    case hk2 => dsimp only; intro hx; exact absurd hx (by decide)
  · intro _ _ _ _ _ h6
    apply stInv_build
    case hb0 => dsimp only; omega
    case hb1 => dsimp only; omega
    case hw1 => dsimp only; intro hx; exact absurd hx (by decide)
    case hw2 => dsimp only; intro _; exact singleton_ne_empty c
    case hn => dsimp only; intro hc'; exact absurd (h6.1.symm.trans hc') (by decide)
    case hh1 => dsimp only; intro hx; exact absurd hx (by decide)
    case hh2 =>
      dsimp only
      intro _ _
      rcases h6 with ⟨-, hx⟩
      by_cases hcond : (source.length : Int) > st0.pos.index + 1
      · rw [if_pos hcond] at hnA
        subst hnA
        exact ⟨hcond, hx⟩
      · rw [if_neg hcond] at hnA
        subst hnA
        exact absurd hx (by decide)
    case hk1 => dsimp only; intro hx; exact absurd hx (by decide)
    case hk2 => dsimp only; intro hx; exact absurd hx (by decide)
  · intro _ _ _ _ _ _ h7
    apply stInv_build
    case hb0 => dsimp only; omega
    case hb1 => dsimp only; omega
    case hw1 => dsimp only; intro hx; exact absurd hx (by decide)
    case hw2 => dsimp only; intro _; exact singleton_ne_empty c
    case hn => dsimp only; intro hc'; exact absurd (h7.1.symm.trans hc') (by decide)
    case hh1 => dsimp only; intro hx; exact absurd hx (by decide)
    case hh2 => dsimp only; intro hx; exact absurd hx (by decide)
    case hk1 =>
      dsimp only
      intro _
      rw [isWhitespace_singleton, h7.1]
      decide
    case hk2 => dsimp only; intro hx; exact absurd hx (by decide)
  · intro _ _ _ _ _ _ _ h8
    apply stInv_build
    case hb0 => dsimp only; omega
    case hb1 => dsimp only; omega
    case hw1 => dsimp only; intro hx; exact absurd hx (by decide)
    case hw2 => dsimp only; intro _; exact singleton_ne_empty c
    case hn => dsimp only; intro hc'; exact absurd hc' (ne_newline_of_numberStarter h8)
    case hh1 => dsimp only; intro hx; exact absurd hx (by decide)
    case hh2 => dsimp only; intro hx; exact absurd hx (by decide)
    case hk1 => dsimp only; intro hx; exact absurd hx (by decide)
    case hk2 => dsimp only; intro hx; exact absurd hx (by decide)
  · intro _ _ _ _ _ _ _ _ h9
    apply stInv_build
    case hb0 => dsimp only; omega
    case hb1 => dsimp only; omega
    case hw1 => dsimp only; intro hx; exact absurd hx (by decide)
    case hw2 => dsimp only; intro _; exact singleton_ne_empty c
    case hn => dsimp only; intro hc'; exact absurd hc' (ne_newline_of_opStart h9)
    case hh1 => dsimp only; intro hx; exact absurd hx (by decide)
    case hh2 => dsimp only; intro hx; exact absurd hx (by decide)
    case hk1 => dsimp only; intro hx; exact absurd hx (by decide)
    case hk2 =>
      dsimp only
      intro _
      rw [isWhitespace_singleton]
      exact not_ws_of_opStart h9
  · intro _ _ _ _ _ _ _ _ _ _ hdc
    apply stInv_build
    case hb0 => dsimp only; omega
    case hb1 =>
      dsimp only
      by_cases hcond : (source.length : Int) > st0.pos.index + 1
      · omega
      · rw [if_neg hcond] at hnA
        have hne := hdc.2
        rw [hnA] at hne
        exact absurd hne (by decide)
    case hw1 => dsimp only; intro _; rfl
    case hw2 => dsimp only; intro hx; exact absurd hst hx
    case hn => dsimp only; intro _; exact Or.inl hst
    case hh1 => dsimp only; intro hx; rw [hst] at hx; exact absurd hx (by decide)
    case hh2 => dsimp only; intro hx; rw [hst] at hx; exact absurd hx (by decide)
    case hk1 => dsimp only; intro hx; rw [hst] at hx; exact absurd hx (by decide)
    case hk2 => dsimp only; intro hx; rw [hst] at hx; exact absurd hx (by decide)
  · intro _ _ _ _ _ _ _ _ _ _ _
    apply stInv_build
    case hb0 => dsimp only; omega
    case hb1 => dsimp only; omega
    case hw1 => dsimp only; intro _; rfl
    case hw2 => dsimp only; intro hx; exact absurd hst hx
    case hn => dsimp only; intro _; exact Or.inl hst
    case hh1 => dsimp only; intro hx; rw [hst] at hx; exact absurd hx (by decide)
    case hh2 => dsimp only; intro hx; rw [hst] at hx; exact absurd hx (by decide)
    case hk1 => dsimp only; intro hx; rw [hst] at hx; exact absurd hx (by decide)
    case hk2 => dsimp only; intro hx; rw [hst] at hx; exact absurd hx (by decide)
  · intro _ _ _ _ _ _ _ _ _ _ _ _
    apply stInv_build
    case hb0 => dsimp only; omega
    case hb1 => dsimp only; omega
    case hw1 => dsimp only; intro _; rfl
    case hw2 => dsimp only; intro hx; exact absurd hst hx
    case hn => dsimp only; intro _; exact Or.inl hst
    case hh1 => dsimp only; intro hx; rw [hst] at hx; exact absurd hx (by decide)
    case hh2 => dsimp only; intro hx; rw [hst] at hx; exact absurd hx (by decide)
    case hk1 => dsimp only; intro hx; rw [hst] at hx; exact absurd hx (by decide)
    case hk2 => dsimp only; intro hx; rw [hst] at hx; exact absurd hx (by decide)
  · intro _ _ _ _ _ _ _ _ _ _ _ _
    apply stInv_build
    case hb0 => dsimp only; omega
    case hb1 => dsimp only; omega
    case hw1 => dsimp only; intro _; rfl
    case hw2 => dsimp only; intro hx; exact absurd hst hx
    case hn => dsimp only; intro _; exact Or.inl hst
    case hh1 => dsimp only; intro hx; rw [hst] at hx; exact absurd hx (by decide)
    case hh2 => dsimp only; intro hx; rw [hst] at hx; exact absurd hx (by decide)
    case hk1 => dsimp only; intro hx; rw [hst] at hx; exact absurd hx (by decide)
    case hk2 => dsimp only; intro hx; rw [hst] at hx; exact absurd hx (by decide)
  · intro _ _ _ _ _ _ _ _ _ _ _ h12
    apply stInv_build
    case hb0 => dsimp only; omega
    case hb1 => dsimp only; omega
    case hw1 => dsimp only; intro hx; exact absurd hx (by decide)
    case hw2 => dsimp only; intro _; exact singleton_ne_empty c
    case hn =>
      dsimp only
      intro hc'
      rw [isIdentifier_singleton] at h12
      exact absurd hc' (ne_newline_of_identifierStart h12)
    case hh1 => dsimp only; intro hx; exact absurd hx (by decide)
    case hh2 => dsimp only; intro hx; exact absurd hx (by decide)
    case hk1 =>
      dsimp only
      intro _
      rw [isWhitespace_singleton]
      rw [isIdentifier_singleton] at h12
      exact not_ws_of_identifierStart h12
    case hk2 => dsimp only; intro hx; exact absurd hx (by decide)
  · intro _ _ _ _ _ _ _ _ _ _ _ _
    apply stInv_build
    case hb0 => dsimp only; omega
    case hb1 => dsimp only; omega
    case hw1 => dsimp only; intro _; rfl
    case hw2 => dsimp only; intro hx; exact absurd hst hx
    case hn => dsimp only; intro _; exact Or.inl hst
    case hh1 => dsimp only; intro hx; rw [hst] at hx; exact absurd hx (by decide)
    case hh2 => dsimp only; intro hx; rw [hst] at hx; exact absurd hx (by decide)
    case hk1 => dsimp only; intro hx; rw [hst] at hx; exact absurd hx (by decide)
    case hk2 => dsimp only; intro hx; rw [hst] at hx; exact absurd hx (by decide)

theorem length_push (s : String) (c : Char) : (s.push c).length = s.length + 1 := by
  obtain ⟨l⟩ := s
  show (l ++ [c]).length = l.length + 1
  simp

theorem length_append (s t : String) : (s ++ t).length = s.length + t.length := by
  obtain ⟨l⟩ := s
  obtain ⟨m⟩ := t
  show (l ++ m).length = l.length + m.length
  exact List.length_append l m

/-- After a handler declined its character, the state is neutral and the
re-dispatch runs `consume`; the invariant is re-established. -/
theorem stInv_second_dispatch (source : String) (stF : LexState) (c n : Char)
    (hst : stF.state = STATE_NONE)
    (h0 : 0 ≤ stF.pos.index) (hlt : stF.pos.index < (source.length : Int))
    (hnA : n = (if (source.length : Int) > stF.pos.index + 1 then
      charAt source.data (stF.pos.index + 1).toNat else nulChar)) :
    StInv source (advancePos (dispatchOnce source stF c n).1 c) := by
  rw [dispatchOnce_none source stF c n hst]
  exact stInv_none_step source stF c n hst h0 hlt hnA

/-- Preservation of the structural invariant by one full dispatch
(including re-dispatch) and the cursor bookkeeping, for the character and
lookahead that the driver computed at the current cursor position. -/
theorem stInv_run (source : String) (stA : LexState) (c n : Char)
    (hlt : stA.pos.index < (source.length : Int))
    (hcA : c = charAt source.data stA.pos.index.toNat)
    (hnA : n = (if (source.length : Int) > stA.pos.index + 1 then
      charAt source.data (stA.pos.index + 1).toNat else nulChar))
    (h : StInv source stA) :
    StInv source (advancePos (runConsumer source stA c n) c) := by
  obtain ⟨hB1, hB2, hW1, hW2, hN1, hH1, hH2, hK1, hK2⟩ := h
  rw [runConsumer_eq]
  cases hs : stA.state
  case STATE_NONE =>
    rw [dispatchOnce_none source stA c n hs]
    dsimp only
    rw [if_pos rfl]
    exact stInv_none_step source stA c n hs hB1 hlt hnA
  case STATE_WORD =>
    rw [dispatchOnce_word source stA c n hs]
    by_cases hl : isIdentifierLetter (String.singleton c) = true
    · rw [consumeWord_letter stA c hl]
      dsimp only
      rw [if_pos rfl]
      rw [isIdentifierLetter_singleton] at hl
      refine stInv_build0 source _ c ?hb0 ?hb1 ?hw1 ?hw2 ?hn ?hh1 ?hh2 ?hk1 ?hk2
      case hb0 => dsimp only; omega
      case hb1 => dsimp only; omega
      case hw1 => dsimp only; intro hx; rw [hs] at hx; exact absurd hx (by decide)
      case hw2 => dsimp only; intro _; exact push_ne_empty stA.word c
      case hn =>
        dsimp only
        intro hc'
        exact absurd hc' (ne_newline_of_identifierLetter hl)
      case hh1 => dsimp only; intro hx; rw [hs] at hx; exact absurd hx (by decide)
      case hh2 => dsimp only; intro hx; rw [hs] at hx; exact absurd hx (by decide)
      case hk1 =>
        dsimp only
        intro _
        exact isWhitespace_push_false stA.word (not_ws_of_identifierLetter hl)
      case hk2 => dsimp only; intro hx; rw [hs] at hx; exact absurd hx (by decide)
    · rw [consumeWord_finalize stA c hl]
      dsimp only
      rw [if_neg (by decide)]
      exact stInv_second_dispatch source _ c n rfl hB1 hlt hnA
  case STATE_LINE_COMMENT =>
    rw [dispatchOnce_lineComment source stA c n hs]
    dsimp only
    rw [if_pos rfl]
    by_cases hnl : c = '\n'
    · rw [consumeLineComment_newline stA c hnl]
      refine stInv_build0 source _ c ?hb0 ?hb1 ?hw1 ?hw2 ?hn ?hh1 ?hh2 ?hk1 ?hk2
      case hb0 => dsimp only; omega
      case hb1 => dsimp only; omega
      case hw1 => dsimp only; intro _; rfl
      case hw2 => dsimp only; intro hx; exact absurd rfl hx
      case hn => dsimp only; intro _; exact Or.inl rfl
      case hh1 => dsimp only; intro hx; exact absurd hx (by decide)
      case hh2 => dsimp only; intro hx; exact absurd hx (by decide)
      case hk1 => dsimp only; intro hx; exact absurd hx (by decide)
      case hk2 => dsimp only; intro hx; exact absurd hx (by decide)
    · rw [consumeLineComment_accum stA c hnl]
      refine stInv_build0 source _ c ?hb0 ?hb1 ?hw1 ?hw2 ?hn ?hh1 ?hh2 ?hk1 ?hk2
      case hb0 => dsimp only; omega
      case hb1 => dsimp only; omega
      case hw1 => dsimp only; intro hx; rw [hs] at hx; exact absurd hx (by decide)
      case hw2 => dsimp only; intro _; exact push_ne_empty stA.word c
      case hn => dsimp only; intro hc'; exact absurd hc' hnl
      case hh1 => dsimp only; intro hx; rw [hs] at hx; exact absurd hx (by decide)
      case hh2 => dsimp only; intro hx; rw [hs] at hx; exact absurd hx (by decide)
      case hk1 => dsimp only; intro hx; rw [hs] at hx; exact absurd hx (by decide)
      case hk2 => dsimp only; intro hx; rw [hs] at hx; exact absurd hx (by decide)
  case STATE_BLOCK_COMMENT =>
    rw [dispatchOnce_blockComment source stA c n hs]
    dsimp only
    rw [if_pos rfl]
    by_cases hcl : stA.prevC = '*' ∧ c = '/'
    · rw [consumeBlockComment_close stA c stA.prevC hcl]
      refine stInv_build0 source _ c ?hb0 ?hb1 ?hw1 ?hw2 ?hn ?hh1 ?hh2 ?hk1 ?hk2
      case hb0 => dsimp only; omega
      case hb1 => dsimp only; omega
      case hw1 => dsimp only; intro _; rfl
      case hw2 => dsimp only; intro hx; exact absurd rfl hx
      case hn => dsimp only; intro _; exact Or.inl rfl
      case hh1 => dsimp only; intro hx; exact absurd hx (by decide)
      case hh2 => dsimp only; intro hx; exact absurd hx (by decide)
      case hk1 => dsimp only; intro hx; exact absurd hx (by decide)
      case hk2 => dsimp only; intro hx; exact absurd hx (by decide)
    · rw [consumeBlockComment_accum stA c stA.prevC hcl]
      refine stInv_build0 source _ c ?hb0 ?hb1 ?hw1 ?hw2 ?hn ?hh1 ?hh2 ?hk1 ?hk2
      case hb0 => dsimp only; omega
      case hb1 => dsimp only; omega
      case hw1 => dsimp only; intro hx; rw [hs] at hx; exact absurd hx (by decide)
      case hw2 => dsimp only; intro _; exact push_ne_empty stA.word c
      case hn => dsimp only; intro _; exact Or.inr hs
      case hh1 => dsimp only; intro hx; rw [hs] at hx; exact absurd hx (by decide)
      case hh2 => dsimp only; intro hx; rw [hs] at hx; exact absurd hx (by decide)
      case hk1 => dsimp only; intro hx; rw [hs] at hx; exact absurd hx (by decide)
      case hk2 => dsimp only; intro hx; rw [hs] at hx; exact absurd hx (by decide)
  case STATE_LITERAL_STRING =>
    rw [dispatchOnce_literalString source stA c n hs]
    dsimp only
    rw [if_pos rfl]
    by_cases hnl : c = '\n'
    · rw [consumeLiteralString_newline stA c stA.prevC hnl]
      refine stInv_build0 source _ c ?hb0 ?hb1 ?hw1 ?hw2 ?hn ?hh1 ?hh2 ?hk1 ?hk2
      case hb0 => dsimp only; omega
      case hb1 => dsimp only; omega
      case hw1 => dsimp only; intro _; rfl
      case hw2 => dsimp only; intro hx; exact absurd rfl hx
      case hn => dsimp only; intro _; exact Or.inl rfl
      case hh1 => dsimp only; intro hx; exact absurd hx (by decide)
      case hh2 => dsimp only; intro hx; exact absurd hx (by decide)
      case hk1 => dsimp only; intro hx; exact absurd hx (by decide)
      case hk2 => dsimp only; intro hx; exact absurd hx (by decide)
    · by_cases hq : stA.prevC ≠ '\\' ∧ c = '"'
      · rw [consumeLiteralString_close stA c stA.prevC hnl hq]
        refine stInv_build0 source _ c ?hb0 ?hb1 ?hw1 ?hw2 ?hn ?hh1 ?hh2 ?hk1 ?hk2
        case hb0 => dsimp only; omega
        case hb1 => dsimp only; omega
        case hw1 => dsimp only; intro _; rfl
        case hw2 => dsimp only; intro hx; exact absurd rfl hx
        case hn => dsimp only; intro _; exact Or.inl rfl
        case hh1 => dsimp only; intro hx; exact absurd hx (by decide)
        case hh2 => dsimp only; intro hx; exact absurd hx (by decide)
        case hk1 => dsimp only; intro hx; exact absurd hx (by decide)
        case hk2 => dsimp only; intro hx; exact absurd hx (by decide)
      · rw [consumeLiteralString_accum stA c stA.prevC hnl hq]
        refine stInv_build0 source _ c ?hb0 ?hb1 ?hw1 ?hw2 ?hn ?hh1 ?hh2 ?hk1 ?hk2
        case hb0 => dsimp only; omega
        case hb1 => dsimp only; omega
        case hw1 => dsimp only; intro hx; rw [hs] at hx; exact absurd hx (by decide)
        case hw2 => dsimp only; intro _; exact push_ne_empty stA.word c
        case hn => dsimp only; intro hc'; exact absurd hc' hnl
        case hh1 => dsimp only; intro hx; rw [hs] at hx; exact absurd hx (by decide)
        case hh2 => dsimp only; intro hx; rw [hs] at hx; exact absurd hx (by decide)
        case hk1 => dsimp only; intro hx; rw [hs] at hx; exact absurd hx (by decide)
        case hk2 => dsimp only; intro hx; rw [hs] at hx; exact absurd hx (by decide)
  case STATE_LITERAL_CHAR =>
    rw [dispatchOnce_literalChar source stA c n hs]
    dsimp only
    rw [if_pos rfl]
    by_cases hnl : c = '\n'
    · rw [consumeLiteralChar_newline stA c stA.prevC hnl]
      refine stInv_build0 source _ c ?hb0 ?hb1 ?hw1 ?hw2 ?hn ?hh1 ?hh2 ?hk1 ?hk2
      case hb0 => dsimp only; omega
      case hb1 => dsimp only; omega
      case hw1 => dsimp only; intro _; rfl
      case hw2 => dsimp only; intro hx; exact absurd rfl hx
      case hn => dsimp only; intro _; exact Or.inl rfl
      case hh1 => dsimp only; intro hx; exact absurd hx (by decide)
      case hh2 => dsimp only; intro hx; exact absurd hx (by decide)
      case hk1 => dsimp only; intro hx; exact absurd hx (by decide)
      case hk2 => dsimp only; intro hx; exact absurd hx (by decide)
    · by_cases hq : stA.prevC ≠ '\\' ∧ c = '\''
      · rw [consumeLiteralChar_close stA c stA.prevC hnl hq]
        refine stInv_build0 source _ c ?hb0 ?hb1 ?hw1 ?hw2 ?hn ?hh1 ?hh2 ?hk1 ?hk2
        case hb0 => dsimp only; omega
        case hb1 => dsimp only; omega
        case hw1 => dsimp only; intro _; rfl
        case hw2 => dsimp only; intro hx; exact absurd rfl hx
        case hn => dsimp only; intro _; exact Or.inl rfl
        case hh1 => dsimp only; intro hx; exact absurd hx (by decide)
        case hh2 => dsimp only; intro hx; exact absurd hx (by decide)
        case hk1 => dsimp only; intro hx; exact absurd hx (by decide)
        case hk2 => dsimp only; intro hx; exact absurd hx (by decide)
      · rw [consumeLiteralChar_accum stA c stA.prevC hnl hq]
        refine stInv_build0 source _ c ?hb0 ?hb1 ?hw1 ?hw2 ?hn ?hh1 ?hh2 ?hk1 ?hk2
        case hb0 => dsimp only; omega
        case hb1 => dsimp only; omega
        case hw1 => dsimp only; intro hx; rw [hs] at hx; exact absurd hx (by decide)
        case hw2 => dsimp only; intro _; exact push_ne_empty stA.word c
        case hn => dsimp only; intro hc'; exact absurd hc' hnl
        case hh1 => dsimp only; intro hx; rw [hs] at hx; exact absurd hx (by decide)
        case hh2 => dsimp only; intro hx; rw [hs] at hx; exact absurd hx (by decide)
        case hk1 => dsimp only; intro hx; rw [hs] at hx; exact absurd hx (by decide)
        case hk2 => dsimp only; intro hx; rw [hs] at hx; exact absurd hx (by decide)
  case STATE_OPERATORS =>
    rw [dispatchOnce_operators source stA c n hs]
    by_cases hop : isOperatorStart (String.singleton c) = true
    · rw [consumeOperator_start stA c hop]
      dsimp only
      rw [if_pos rfl]
      refine stInv_build0 source _ c ?hb0 ?hb1 ?hw1 ?hw2 ?hn ?hh1 ?hh2 ?hk1 ?hk2
      case hb0 => dsimp only; omega
      case hb1 => dsimp only; omega
      case hw1 => dsimp only; intro hx; rw [hs] at hx; exact absurd hx (by decide)
      case hw2 => dsimp only; intro _; exact push_ne_empty stA.word c
      case hn => dsimp only; intro hc'; exact absurd hc' (ne_newline_of_opStart hop)
      case hh1 => dsimp only; intro hx; rw [hs] at hx; exact absurd hx (by decide)
      case hh2 => dsimp only; intro hx; rw [hs] at hx; exact absurd hx (by decide)
      case hk1 => dsimp only; intro hx; rw [hs] at hx; exact absurd hx (by decide)
      case hk2 =>
        dsimp only
        intro _
        exact isWhitespace_push_false stA.word (not_ws_of_opStart hop)
    · rw [consumeOperator_finalize stA c hop]
      dsimp only
      rw [if_neg (by decide)]
      exact stInv_second_dispatch source _ c n rfl hB1 hlt hnA
  case STATE_NUMBERS =>
    rw [dispatchOnce_numbers source stA c n hs]
    by_cases hu : consumeUnderscoreInNumber source stA.pos.index false false ≠ ""
    · rw [consumeNumber_underscore source stA stA.prevC c n hu]
      dsimp only
      rw [if_pos rfl]
      obtain ⟨hc_, hslice, hbound⟩ :=
        consumeUnderscore_strong source stA.pos.index false false hu
      have hupos : 0 < (consumeUnderscoreInNumber source stA.pos.index false false).length :=
        length_pos_of_ne_empty hu
      have hlen : (consumeUnderscoreInNumber source stA.pos.index false false).length =
          (consumeUnderscoreInNumber source stA.pos.index false false).data.length := rfl
      have hslen : source.length = source.data.length := rfl
      refine stInv_build0 source _ c ?hb0 ?hb1 ?hw1 ?hw2 ?hn ?hh1 ?hh2 ?hk1 ?hk2
      case hb0 => dsimp only; omega
      case hb1 => dsimp only; omega
      case hw1 => dsimp only; intro hx; rw [hs] at hx; exact absurd hx (by decide)
      case hw2 =>
        dsimp only
        intro _
        exact append_ne_empty_right stA.word _ hu
      case hn =>
        dsimp only
        intro hc'
        rw [hcA] at hc'
        exact absurd (hc_.symm.trans hc') (by decide)
      case hh1 => dsimp only; intro hx; rw [hs] at hx; exact absurd hx (by decide)
      case hh2 => dsimp only; intro hx; rw [hs] at hx; exact absurd hx (by decide)
      case hk1 => dsimp only; intro hx; rw [hs] at hx; exact absurd hx (by decide)
      case hk2 => dsimp only; intro hx; rw [hs] at hx; exact absurd hx (by decide)
    · by_cases hd : isNumber c = true ∨ (stA.numberInfo.hasUsedE = true ∧
        (stA.prevC = 'e' ∨ stA.prevC = 'E') ∧ (c = '-' ∨ c = '+'))
      · rw [consumeNumber_digit source stA stA.prevC c n hu hd]
        dsimp only
        rw [if_pos rfl]
        refine stInv_build0 source _ c ?hb0 ?hb1 ?hw1 ?hw2 ?hn ?hh1 ?hh2 ?hk1 ?hk2
        case hb0 => dsimp only; omega
        case hb1 => dsimp only; omega
        case hw1 => dsimp only; intro hx; rw [hs] at hx; exact absurd hx (by decide)
        case hw2 => dsimp only; intro _; exact push_ne_empty stA.word c
        case hn =>
          dsimp only
          intro hc'
          rcases hd with hd | ⟨-, -, hd⟩
          · exact absurd hc' (ne_newline_of_isNumber hd)
          · rcases hd with rfl | rfl <;> exact absurd hc' (by decide)
        case hh1 => dsimp only; intro hx; rw [hs] at hx; exact absurd hx (by decide)
        case hh2 => dsimp only; intro hx; rw [hs] at hx; exact absurd hx (by decide)
        case hk1 => dsimp only; intro hx; rw [hs] at hx; exact absurd hx (by decide)
        case hk2 => dsimp only; intro hx; rw [hs] at hx; exact absurd hx (by decide)
      · by_cases hdot : ¬ stA.numberInfo.hasUsedDot = true ∧ c = '.'
        · rw [consumeNumber_dot source stA stA.prevC c n hu hd hdot]
          dsimp only
          rw [if_pos rfl]
          refine stInv_build0 source _ c ?hb0 ?hb1 ?hw1 ?hw2 ?hn ?hh1 ?hh2 ?hk1 ?hk2
          case hb0 => dsimp only; omega
          case hb1 => dsimp only; omega
          case hw1 => dsimp only; intro hx; rw [hs] at hx; exact absurd hx (by decide)
          case hw2 => dsimp only; intro _; exact push_ne_empty stA.word c
          case hn =>
            dsimp only
            intro hc'
            exact absurd (hdot.2.symm.trans hc') (by decide)
          case hh1 => dsimp only; intro hx; rw [hs] at hx; exact absurd hx (by decide)
          case hh2 => dsimp only; intro hx; rw [hs] at hx; exact absurd hx (by decide)
          case hk1 => dsimp only; intro hx; rw [hs] at hx; exact absurd hx (by decide)
          case hk2 => dsimp only; intro hx; rw [hs] at hx; exact absurd hx (by decide)
        · by_cases hexp : ¬ stA.numberInfo.hasUsedE = true ∧ (c = 'e' ∨ c = 'E') ∧
            (isNumber n = true ∨ n = '+' ∨ n = '-')
          · rw [consumeNumber_exponent source stA stA.prevC c n hu hd hdot hexp]
            dsimp only
            rw [if_pos rfl]
            refine stInv_build0 source _ c ?hb0 ?hb1 ?hw1 ?hw2 ?hn ?hh1 ?hh2 ?hk1 ?hk2
            case hb0 => dsimp only; omega
            case hb1 => dsimp only; omega
            case hw1 => dsimp only; intro hx; rw [hs] at hx; exact absurd hx (by decide)
            case hw2 => dsimp only; intro _; exact push_ne_empty stA.word c
            case hn =>
              dsimp only
              intro hc'
              rcases hexp.2.1 with rfl | rfl <;> exact absurd hc' (by decide)
            case hh1 => dsimp only; intro hx; rw [hs] at hx; exact absurd hx (by decide)
            case hh2 => dsimp only; intro hx; rw [hs] at hx; exact absurd hx (by decide)
            case hk1 => dsimp only; intro hx; rw [hs] at hx; exact absurd hx (by decide)
            case hk2 => dsimp only; intro hx; rw [hs] at hx; exact absurd hx (by decide)
          · by_cases hty : isNumberTypeIdentifier c
              (!stA.numberInfo.hasUsedE && !stA.numberInfo.hasUsedDot) = true
            · rw [consumeNumber_finalize_suffix source stA stA.prevC c n hu hd hdot hexp hty]
              dsimp only
              rw [if_pos rfl]
              refine stInv_build0 source _ c ?hb0 ?hb1 ?hw1 ?hw2 ?hn ?hh1 ?hh2 ?hk1 ?hk2
              case hb0 => dsimp only; omega
              case hb1 => dsimp only; omega
              case hw1 => dsimp only; intro _; rfl
              case hw2 => dsimp only; intro hx; exact absurd rfl hx
              case hn => dsimp only; intro _; exact Or.inl rfl
              case hh1 => dsimp only; intro hx; exact absurd hx (by decide)
              case hh2 => dsimp only; intro hx; exact absurd hx (by decide)
              case hk1 => dsimp only; intro hx; exact absurd hx (by decide)
              case hk2 => dsimp only; intro hx; exact absurd hx (by decide)
            · rw [consumeNumber_finalize source stA stA.prevC c n hu hd hdot hexp hty]
              dsimp only
              rw [if_neg (by decide)]
              exact stInv_second_dispatch source _ c n rfl hB1 hlt hnA
  case STATE_HEX =>
    rw [dispatchOnce_hex source stA c n hs]
    by_cases hu : consumeUnderscoreInNumber source stA.pos.index false (!false) ≠ ""
    · rw [consumeHexAndBinary_underscore source stA c false hu]
      dsimp only
      rw [if_pos rfl]
      obtain ⟨hc_, hslice, hbound⟩ :=
        consumeUnderscore_strong source stA.pos.index false (!false) hu
      have hupos : 0 < (consumeUnderscoreInNumber source stA.pos.index false (!false)).length :=
        length_pos_of_ne_empty hu
      have hlen : (consumeUnderscoreInNumber source stA.pos.index false (!false)).length =
          (consumeUnderscoreInNumber source stA.pos.index false (!false)).data.length := rfl
      have hslen : source.length = source.data.length := rfl
      have hwpos : 0 < stA.word.length :=
        length_pos_of_ne_empty (hW2 (by rw [hs]; exact fun hx => by cases hx))
      refine stInv_build0 source _ c ?hb0 ?hb1 ?hw1 ?hw2 ?hn ?hh1 ?hh2 ?hk1 ?hk2
      case hb0 => dsimp only; omega
      case hb1 => dsimp only; omega
      case hw1 => dsimp only; intro hx; rw [hs] at hx; exact absurd hx (by decide)
      case hw2 =>
        dsimp only
        intro _
        exact append_ne_empty_right stA.word _ hu
      case hn =>
        dsimp only
        intro hc'
        rw [hcA] at hc'
        exact absurd (hc_.symm.trans hc') (by decide)
      case hh1 =>
        dsimp only
        intro _ hlen1
        rw [length_append] at hlen1
        omega
      case hh2 => dsimp only; intro hx; rw [hs] at hx; exact absurd hx (by decide)
      case hk1 => dsimp only; intro hx; rw [hs] at hx; exact absurd hx (by decide)
      case hk2 => dsimp only; intro hx; rw [hs] at hx; exact absurd hx (by decide)
    · by_cases hacc : stA.word.length = 1 ∨ isHexOrBinaryNumber c false = true
      · rw [consumeHexAndBinary_accum source stA c false hu hacc]
        dsimp only
        rw [if_pos rfl]
        have hwpos : 0 < stA.word.length :=
          length_pos_of_ne_empty (hW2 (by rw [hs]; exact fun hx => by cases hx))
        refine stInv_build0 source _ c ?hb0 ?hb1 ?hw1 ?hw2 ?hn ?hh1 ?hh2 ?hk1 ?hk2
        case hb0 => dsimp only; omega
        case hb1 => dsimp only; omega
        case hw1 => dsimp only; intro hx; rw [hs] at hx; exact absurd hx (by decide)
        case hw2 => dsimp only; intro _; exact push_ne_empty stA.word c
        case hn =>
          dsimp only
          intro hc'
          rcases hacc with hacc | hacc
          · rcases hH1 hs hacc with ⟨-, hxx⟩
            rw [hcA] at hc'
            rcases hxx with hxx | hxx <;> exact absurd (hxx.symm.trans hc') (by decide)
          · exact absurd hc' (ne_newline_of_hexOrBinary hacc)
        case hh1 =>
          dsimp only
          intro _ hlen1
          rw [length_push] at hlen1
          omega
        case hh2 => dsimp only; intro hx; rw [hs] at hx; exact absurd hx (by decide)
        case hk1 => dsimp only; intro hx; rw [hs] at hx; exact absurd hx (by decide)
        case hk2 => dsimp only; intro hx; rw [hs] at hx; exact absurd hx (by decide)
      · by_cases hty : c = 'l' ∨ c = 'L'
        · rw [consumeHexAndBinary_finalize_suffix source stA c false hu hacc hty]
          dsimp only
          rw [if_pos rfl]
          refine stInv_build0 source _ c ?hb0 ?hb1 ?hw1 ?hw2 ?hn ?hh1 ?hh2 ?hk1 ?hk2
          case hb0 => dsimp only; omega
          case hb1 => dsimp only; omega
          case hw1 => dsimp only; intro _; rfl
          case hw2 => dsimp only; intro hx; exact absurd rfl hx
          case hn => dsimp only; intro _; exact Or.inl rfl
          case hh1 => dsimp only; intro hx; exact absurd hx (by decide)
          case hh2 => dsimp only; intro hx; exact absurd hx (by decide)
          case hk1 => dsimp only; intro hx; exact absurd hx (by decide)
          case hk2 => dsimp only; intro hx; exact absurd hx (by decide)
        · rw [consumeHexAndBinary_finalize source stA c false hu hacc hty]
          dsimp only
          rw [if_neg (by decide)]
          exact stInv_second_dispatch source _ c n rfl hB1 hlt hnA
  case STATE_BINARY =>
    rw [dispatchOnce_binary source stA c n hs]
    by_cases hu : consumeUnderscoreInNumber source stA.pos.index true (!true) ≠ ""
    · rw [consumeHexAndBinary_underscore source stA c true hu]
      dsimp only
      rw [if_pos rfl]
      obtain ⟨hc_, hslice, hbound⟩ :=
        consumeUnderscore_strong source stA.pos.index true (!true) hu
      have hupos : 0 < (consumeUnderscoreInNumber source stA.pos.index true (!true)).length :=
        length_pos_of_ne_empty hu
      have hlen : (consumeUnderscoreInNumber source stA.pos.index true (!true)).length =
          (consumeUnderscoreInNumber source stA.pos.index true (!true)).data.length := rfl
      have hslen : source.length = source.data.length := rfl
      have hwpos : 0 < stA.word.length :=
        length_pos_of_ne_empty (hW2 (by rw [hs]; exact fun hx => by cases hx))
      refine stInv_build0 source _ c ?hb0 ?hb1 ?hw1 ?hw2 ?hn ?hh1 ?hh2 ?hk1 ?hk2
      case hb0 => dsimp only; omega
      case hb1 => dsimp only; omega
      case hw1 => dsimp only; intro hx; rw [hs] at hx; exact absurd hx (by decide)
      case hw2 =>
        dsimp only
        intro _
        exact append_ne_empty_right stA.word _ hu
      case hn =>
        dsimp only
        intro hc'
        rw [hcA] at hc'
        exact absurd (hc_.symm.trans hc') (by decide)
      case hh1 => dsimp only; intro hx; rw [hs] at hx; exact absurd hx (by decide)
      case hh2 =>
        dsimp only
        intro _ hlen1
        rw [length_append] at hlen1
        omega
      case hk1 => dsimp only; intro hx; rw [hs] at hx; exact absurd hx (by decide)
      case hk2 => dsimp only; intro hx; rw [hs] at hx; exact absurd hx (by decide)
    · by_cases hacc : stA.word.length = 1 ∨ isHexOrBinaryNumber c true = true
      · rw [consumeHexAndBinary_accum source stA c true hu hacc]
        dsimp only
        rw [if_pos rfl]
        have hwpos : 0 < stA.word.length :=
          length_pos_of_ne_empty (hW2 (by rw [hs]; exact fun hx => by cases hx))
        refine stInv_build0 source _ c ?hb0 ?hb1 ?hw1 ?hw2 ?hn ?hh1 ?hh2 ?hk1 ?hk2
        case hb0 => dsimp only; omega
        case hb1 => dsimp only; omega
        case hw1 => dsimp only; intro hx; rw [hs] at hx; exact absurd hx (by decide)
        case hw2 => dsimp only; intro _; exact push_ne_empty stA.word c
        case hn =>
          dsimp only
          intro hc'
          rcases hacc with hacc | hacc
          · rcases hH2 hs hacc with ⟨-, hxx⟩
            rw [hcA] at hc'
            rcases hxx with hxx | hxx <;> exact absurd (hxx.symm.trans hc') (by decide)
          · exact absurd hc' (ne_newline_of_hexOrBinary hacc)
        case hh1 => dsimp only; intro hx; rw [hs] at hx; exact absurd hx (by decide)
        case hh2 =>
          dsimp only
          intro _ hlen1
          rw [length_push] at hlen1
          omega
        case hk1 => dsimp only; intro hx; rw [hs] at hx; exact absurd hx (by decide)
        case hk2 => dsimp only; intro hx; rw [hs] at hx; exact absurd hx (by decide)
      · by_cases hty : c = 'l' ∨ c = 'L'
        · rw [consumeHexAndBinary_finalize_suffix source stA c true hu hacc hty]
          dsimp only
          rw [if_pos rfl]
          refine stInv_build0 source _ c ?hb0 ?hb1 ?hw1 ?hw2 ?hn ?hh1 ?hh2 ?hk1 ?hk2
          case hb0 => dsimp only; omega
          case hb1 => dsimp only; omega
          case hw1 => dsimp only; intro _; rfl
          case hw2 => dsimp only; intro hx; exact absurd rfl hx
          case hn => dsimp only; intro _; exact Or.inl rfl
          case hh1 => dsimp only; intro hx; exact absurd hx (by decide)
          case hh2 => dsimp only; intro hx; exact absurd hx (by decide)
          case hk1 => dsimp only; intro hx; exact absurd hx (by decide)
          case hk2 => dsimp only; intro hx; exact absurd hx (by decide)
        · rw [consumeHexAndBinary_finalize source stA c true hu hacc hty]
          dsimp only
          rw [if_neg (by decide)]
          exact stInv_second_dispatch source _ c n rfl hB1 hlt hnA

/-- The structural invariant is preserved by one iteration of the main
loop while the cursor is inside the input. -/
theorem stInv_step (source : String) (st : LexState)
    (hlt : st.pos.index < (source.length : Int))
    (h : StInv source st) :
    StInv source (stepCore source st) :=
  stInv_run source
    { st with nextC := if (source.length : Int) > st.pos.index + 1 then
        charAt source.data (st.pos.index + 1).toNat else nulChar }
    (charAt source.data st.pos.index.toNat)
    (if (source.length : Int) > st.pos.index + 1 then
      charAt source.data (st.pos.index + 1).toNat else nulChar)
    hlt rfl rfl h

/-- Any predicate preserved by `stepCore` under the loop guard is carried
from the loop's entry state to its exit state. -/
theorem mainLoop_preserves (source : String) (P : LexState → Prop)
    (hstep : ∀ st, st.pos.index < (source.length : Int) → P st →
      P (stepCore source st)) :
    ∀ (fuel : Nat) (st stF : LexState), P st →
      mainLoop source fuel st = some stF → P stF := by
  intro fuel
  induction fuel with
  | zero =>
    intro st stF _ hm
    exact absurd hm (by rw [mainLoop]; exact fun hx => by cases hx)
  | succ f ih =>
    intro st stF hP hm
    rw [mainLoop] at hm
    by_cases hc : (source.length : Int) > st.pos.index
    · rw [if_pos hc] at hm
      exact ih _ _ (hstep st hc hP) hm
    · rw [if_neg hc] at hm
      cases hm
      exact hP
/-- The initial state satisfies the structural invariant. -/
theorem stInv_init (source : String) : StInv source initState := by
  have hlen : (0 : Int) ≤ (source.length : Int) := Int.natCast_nonneg _
  unfold StInv initState
  exact ⟨by decide, hlen, fun _ => rfl, fun hx => absurd rfl hx,
    fun _ => Or.inl rfl, fun hx => absurd hx (by decide),
    fun hx => absurd hx (by decide), fun hx => absurd hx (by decide),
    fun hx => absurd hx (by decide)⟩

/-- The state at the exit of the main loop satisfies the structural
invariant, and its cursor sits exactly at the end of the input. -/
theorem preFinal_inv (source : String) (st : LexState)
    (h : preFinal source = some st) :
    StInv source st ∧ ¬ (source.length : Int) > st.pos.index := by
  constructor
  · exact mainLoop_preserves source (StInv source) (stInv_step source)
      (source.length + 1) initState st (stInv_init source) h
  · have hstop : ∀ (fuel : Nat) (s0 s1 : LexState),
        mainLoop source fuel s0 = some s1 →
        ¬ (source.length : Int) > s1.pos.index := by
      intro fuel
      induction fuel with
      | zero =>
        intro s0 s1 hm
        exact absurd hm (by rw [mainLoop]; exact fun hx => by cases hx)
      | succ f ih =>
        intro s0 s1 hm
        rw [mainLoop] at hm
        by_cases hc : (source.length : Int) > s0.pos.index
        · rw [if_pos hc] at hm
          exact ih _ _ hm
        · rw [if_neg hc] at hm
          cases hm
          exact hc
    exact hstop (source.length + 1) initState st h

/-! ## Token-stream invariant: non-whitespace preservation, whitespace
collapsing, single-character whitespace lexemes -/

/-- Token-stream invariant of a running tokenizer: the non-whitespace
characters of the emitted lexemes followed by the pending buffer are
exactly the non-whitespace characters of the consumed prefix of the
source; no two adjacent tokens are both whitespace; and every whitespace
token's lexeme is a single character. -/
def TokInv (source : String) (st : LexState) : Prop :=
  nonWhitespaceChars (lexData st.tokens ++ st.word.data) =
    nonWhitespaceChars (source.data.take st.pos.index.toNat) ∧
  NoAdjacentWhitespace st.tokens ∧
  (∀ t ∈ st.tokens, t.type = WHITESPACE → t.lexeme.length = 1)

theorem toNat_add_one {i : Int} (h : 0 ≤ i) : (i + 1).toNat = i.toNat + 1 := by
  omega

theorem take_succ_charAt {l : List Char} {i : Nat} (h : i < l.length) :
    l.take (i + 1) = l.take i ++ [charAt l i] := by
  rw [List.take_succ, List.getElem?_eq_getElem h]
  have : charAt l i = l[i] := by
    simp [charAt, List.getD, List.getElem?_eq_getElem h]
  rw [this]
  rfl

theorem lexData_snoc (ts : List Token) (t : Token) :
    lexData (ts ++ [t]) = lexData ts ++ t.lexeme.data := by
  simp [lexData]

theorem nonWs_append (a b : List Char) :
    nonWhitespaceChars (a ++ b) = nonWhitespaceChars a ++ nonWhitespaceChars b :=
  List.filter_append a b

theorem nonWs_singleton_ws {c : Char} (h : isWhitespaceChar c = true) :
    nonWhitespaceChars [c] = [] := by
  simp [nonWhitespaceChars, h]

theorem nonWs_ext {a b : List Char} (d : List Char)
    (h : nonWhitespaceChars a = nonWhitespaceChars b) :
    nonWhitespaceChars (a ++ d) = nonWhitespaceChars (b ++ d) := by
  rw [nonWs_append, nonWs_append, h]

theorem nonWs_snoc_ws {a b : List Char} {c : Char}
    (hc : isWhitespaceChar c = true)
    (h : nonWhitespaceChars a = nonWhitespaceChars b) :
    nonWhitespaceChars (a ++ [c]) = nonWhitespaceChars b := by
  rw [nonWs_append, nonWs_singleton_ws hc, List.append_nil, h]

theorem backType_concat (ts : List Token) (t : Token) :
    backTypeNotWhitespace (ts ++ [t]) ↔ t.type ≠ WHITESPACE := by
  unfold backTypeNotWhitespace
  rw [List.getLast?_concat]

theorem backType_of_getLast {ts : List Token} {t : Token}
    (h : ts.getLast? = some t) (ht : t.type ≠ WHITESPACE) :
    backTypeNotWhitespace ts := by
  unfold backTypeNotWhitespace
  rw [h]
  exact ht

theorem noAdjWs_snoc {ts : List Token} (t : Token)
    (h : NoAdjacentWhitespace ts)
    (ht : t.type = WHITESPACE → backTypeNotWhitespace ts) :
    NoAdjacentWhitespace (ts ++ [t]) := by
  induction ts with
  | nil => exact trivial
  | cons a rest ih =>
    cases rest with
    | nil =>
      refine ⟨?_, trivial⟩
      rintro ⟨ha, htw⟩
      have := ht htw
      unfold backTypeNotWhitespace at this
      simp [List.getLast?] at this
      exact this ha
    | cons b rest' =>
      refine ⟨h.1, ih h.2 ?_⟩
      intro htw
      have := ht htw
      unfold backTypeNotWhitespace at this ⊢
      rwa [List.getLast?_cons_cons] at this

theorem wsLen_snoc {ts : List Token} (t : Token)
    (h : ∀ u ∈ ts, u.type = WHITESPACE → u.lexeme.length = 1)
    (ht : t.type = WHITESPACE → t.lexeme.length = 1) :
    ∀ u ∈ ts ++ [t], u.type = WHITESPACE → u.lexeme.length = 1 := by
  intro u hu
  rcases List.mem_append.mp hu with hu | hu
  · exact h u hu
  · rw [List.mem_singleton] at hu
    subst hu
    exact ht

theorem symbol_singleton_mem {c : Char}
    (h : isSymbol (String.singleton c) = true) :
    c ∈ [';', '{', '}', '[', ']', '(', ')', ',', '@', '.', '?', ':'] := by
  have h' : java_symbols.contains (String.singleton c) = true := h
  rw [List.contains_eq_any_beq] at h'
  simp only [java_symbols, List.any_cons, List.any_nil, Bool.or_eq_true,
    beq_iff_eq, Bool.false_eq_true, or_false] at h'
  rcases h' with h' | h' | h' | h' | h' | h' | h' | h' | h' | h' | h' | h' | h'
  · have h2 : [c] = (";" : String).data := by rw [← data_singleton c, h']
    injection h2 with h3 _
    subst h3
    decide
  · have h2 : [c] = ("->" : String).data := by rw [← data_singleton c, h']
    injection h2 with h3 h4
    exact absurd h4 (by decide)
  · have h2 : [c] = ("\x7b" : String).data := by rw [← data_singleton c, h']
    injection h2 with h3 _
    subst h3
    decide
  · have h2 : [c] = ("\x7d" : String).data := by rw [← data_singleton c, h']
    injection h2 with h3 _
    subst h3
    decide
  · have h2 : [c] = ("[" : String).data := by rw [← data_singleton c, h']
    injection h2 with h3 _
    subst h3
    decide
  · have h2 : [c] = ("]" : String).data := by rw [← data_singleton c, h']
    injection h2 with h3 _
    subst h3
    decide
  · have h2 : [c] = ("(" : String).data := by rw [← data_singleton c, h']
    injection h2 with h3 _
    subst h3
    decide
  · have h2 : [c] = (")" : String).data := by rw [← data_singleton c, h']
    injection h2 with h3 _
    subst h3
    decide
  · have h2 : [c] = ("," : String).data := by rw [← data_singleton c, h']
    injection h2 with h3 _
    subst h3
    decide
  · have h2 : [c] = ("@" : String).data := by rw [← data_singleton c, h']
    injection h2 with h3 _
    subst h3
    decide
  · have h2 : [c] = ("." : String).data := by rw [← data_singleton c, h']
    injection h2 with h3 _
    subst h3
    decide
  · have h2 : [c] = ("?" : String).data := by rw [← data_singleton c, h']
    injection h2 with h3 _
    subst h3
    decide
  · have h2 : [c] = (":" : String).data := by rw [← data_singleton c, h']
    injection h2 with h3 _
    subst h3
    decide

theorem not_ws_of_symbol {c : Char}
    (h : isSymbol (String.singleton c) = true) : isWhitespaceChar c = false := by
  have hm := symbol_singleton_mem h
  fin_cases hm <;> decide

theorem not_ws_of_numberStarter {c n : Char}
    (h : isNumberStarter c n = true) : isWhitespaceChar c = false := by
  unfold isNumberStarter at h
  rcases Bool.or_eq_true_iff.mp h with h | h
  · by_contra hw
    rw [Bool.not_eq_false] at hw
    rcases isWhitespaceChar_cases hw with rfl | rfl | rfl | rfl | rfl | rfl <;>
      exact absurd h (by decide)
  · have hc : c = '.' := of_decide_eq_true (Bool.and_elim_left h)
    subst hc
    decide

theorem mk4_lexeme (T : TokenType) (lex : String) (p : Position) (k : Int) :
    (Token.mk4 T lex p k).lexeme = lex := rfl

theorem mk4_type (T : TokenType) (lex : String) (p : Position) (k : Int) :
    (Token.mk4 T lex p k).type = T := rfl

theorem tokInv_build (source : String) (stR : LexState) (c : Char)
    (h1 : nonWhitespaceChars (lexData stR.tokens ++ stR.word.data) =
      nonWhitespaceChars (source.data.take (stR.pos.index + 1).toNat))
    (h2 : NoAdjacentWhitespace stR.tokens)
    (h3 : ∀ t ∈ stR.tokens, t.type = WHITESPACE → t.lexeme.length = 1) :
    TokInv source (advancePos stR c) := by
  unfold TokInv
  rw [advancePos_tokens, advancePos_word, advancePos_index]
  exact ⟨h1, h2, h3⟩

theorem tokInv_trans (source : String) (st0 : LexState) (c : Char)
    (S : TokenizerState)
    (hb : nonWhitespaceChars (lexData st0.tokens) =
      nonWhitespaceChars (source.data.take st0.pos.index.toNat))
    (hto : (st0.pos.index + 1).toNat = st0.pos.index.toNat + 1)
    (htake : source.data.take (st0.pos.index.toNat + 1) =
      source.data.take st0.pos.index.toNat ++ [c])
    (hI2 : NoAdjacentWhitespace st0.tokens)
    (hI3 : ∀ t ∈ st0.tokens, t.type = WHITESPACE → t.lexeme.length = 1) :
    TokInv source (advancePos
      (noneTransitionExtras { st0 with word := String.singleton c, state := S } c) c) := by
  refine tokInv_build source _ c ?_ ?_ ?_
  · rw [noneTransitionExtras_tokens, noneTransitionExtras_word,
      noneTransitionExtras_pos]
    dsimp only
    rw [data_singleton, hto, htake]
    exact nonWs_ext [c] hb
  · rw [noneTransitionExtras_tokens]
    exact hI2
  · rw [noneTransitionExtras_tokens]
    exact hI3

theorem tokInv_none_step (source : String) (st0 : LexState) (c n : Char)
    (hw : st0.word = "")
    (h0 : 0 ≤ st0.pos.index) (hlt : st0.pos.index < (source.length : Int))
    (hcA : c = charAt source.data st0.pos.index.toNat)
    (hnA : n = (if (source.length : Int) > st0.pos.index + 1 then
      charAt source.data (st0.pos.index + 1).toNat else nulChar))
    (hI : TokInv source st0) :
    TokInv source (advancePos (noneTransitionExtras (consume st0 c n) c) c) := by
  obtain ⟨hI1, hI2, hI3⟩ := hI
  have hdl : (source.length : Int) = (source.data.length : Int) := by
    rw [length_data]
  have hidx : st0.pos.index.toNat < source.data.length := by omega
  have htake : source.data.take (st0.pos.index.toNat + 1) =
      source.data.take st0.pos.index.toNat ++ [c] := by
    rw [hcA]; exact take_succ_charAt hidx
  have hto : (st0.pos.index + 1).toNat = st0.pos.index.toNat + 1 :=
    toNat_add_one h0
  have hbase : nonWhitespaceChars (lexData st0.tokens) =
      nonWhitespaceChars (source.data.take st0.pos.index.toNat) := by
    have h := hI1
    rw [hw] at h
    simpa using h
  refine consume_elim (motive := fun res =>
    TokInv source (advancePos (noneTransitionExtras res c) c)) st0 c n
    ?_ ?_ ?_ ?_ ?_ ?_ ?_ ?_ ?_ ?_ ?_ ?_ ?_ ?_ ?_
  · intro _
    exact tokInv_trans source st0 c _ hbase hto htake hI2 hI3
  · intro _ _
    exact tokInv_trans source st0 c _ hbase hto htake hI2 hI3
  · intro _ _ _
    exact tokInv_trans source st0 c _ hbase hto htake hI2 hI3
  · intro _ _ _ _
    exact tokInv_trans source st0 c _ hbase hto htake hI2 hI3
  · intro _ _ _ _ _
    exact tokInv_trans source st0 c _ hbase hto htake hI2 hI3
  · intro _ _ _ _ _ _
    exact tokInv_trans source st0 c _ hbase hto htake hI2 hI3
  · intro _ _ _ _ _ _ _
    exact tokInv_trans source st0 c _ hbase hto htake hI2 hI3
  · intro _ _ _ _ _ _ _ _
    exact tokInv_trans source st0 c _ hbase hto htake hI2 hI3
  · intro _ _ _ _ _ _ _ _ _
    exact tokInv_trans source st0 c _ hbase hto htake hI2 hI3
  · intro _ _ _ _ _ _ _ _ _ _ hdc
    have hlt2 : (source.length : Int) > st0.pos.index + 1 := by
      by_contra hx
      rw [if_neg hx] at hnA
      rw [hdc.2] at hnA
      exact absurd hnA (by decide)
    have hn2 : n = charAt source.data (st0.pos.index + 1).toNat := by
      rw [hnA, if_pos hlt2]
    have hidx2 : st0.pos.index.toNat + 1 < source.data.length := by omega
    have hto2 : (st0.pos.index + 1 + 1).toNat = st0.pos.index.toNat + 1 + 1 := by
      omega
    have htake2 : source.data.take (st0.pos.index.toNat + 1 + 1) =
        source.data.take st0.pos.index.toNat ++ [c] ++ [n] := by
      rw [take_succ_charAt hidx2, htake, hn2, hto]
    refine tokInv_build source _ c ?_ ?_ ?_
    · rw [noneTransitionExtras_tokens, noneTransitionExtras_word,
        noneTransitionExtras_pos]
      dsimp only
      rw [lexData_snoc, mk4_lexeme, data_push, data_singleton]
      rw [List.append_nil]
      rw [hto2, htake2]
      rw [← List.append_assoc]
      exact nonWs_ext [n] (nonWs_ext [c] hbase)
    · rw [noneTransitionExtras_tokens]
      dsimp only
      refine noAdjWs_snoc _ hI2 ?_
      intro habs
      rw [mk4_type] at habs
      exact absurd habs (by decide)
    · rw [noneTransitionExtras_tokens]
      dsimp only
      refine wsLen_snoc _ hI3 ?_
      intro habs
      rw [mk4_type] at habs
      exact absurd habs (by decide)
  · intro _ _ _ _ _ _ _ _ _ _ _
    refine tokInv_build source _ c ?_ ?_ ?_
    · rw [noneTransitionExtras_tokens, noneTransitionExtras_word,
        noneTransitionExtras_pos]
      dsimp only
      rw [lexData_snoc, mk4_lexeme, data_singleton]
      rw [List.append_nil]
      rw [hto, htake]
      exact nonWs_ext [c] hbase
    · rw [noneTransitionExtras_tokens]
      dsimp only
      refine noAdjWs_snoc _ hI2 ?_
      intro habs
      rw [mk4_type] at habs
      exact absurd habs (by decide)
    · rw [noneTransitionExtras_tokens]
      dsimp only
      refine wsLen_snoc _ hI3 ?_
      intro habs
      rw [mk4_type] at habs
      exact absurd habs (by decide)
  · intro _ _ _ _ _ _ _ _ _ _ hwsc hbt
    have hcw : isWhitespaceChar c = true := by
      rw [← isWhitespace_singleton]
      exact hwsc
    refine tokInv_build source _ c ?_ ?_ ?_
    · rw [noneTransitionExtras_tokens, noneTransitionExtras_word,
        noneTransitionExtras_pos]
      dsimp only
      rw [lexData_snoc, mk4_lexeme, data_singleton]
      rw [List.append_nil]
      rw [hto, htake]
      exact (nonWs_snoc_ws hcw hbase).trans (nonWs_snoc_ws hcw rfl).symm
    · rw [noneTransitionExtras_tokens]
      dsimp only
      exact noAdjWs_snoc _ hI2 (fun _ => hbt)
    · rw [noneTransitionExtras_tokens]
      dsimp only
      exact wsLen_snoc _ hI3 (fun _ => rfl)
  · intro _ _ _ _ _ _ _ _ _ _ hwsc _
    have hcw : isWhitespaceChar c = true := by
      rw [← isWhitespace_singleton]
      exact hwsc
    refine tokInv_build source _ c ?_ ?_ ?_
    · rw [noneTransitionExtras_tokens, noneTransitionExtras_word,
        noneTransitionExtras_pos]
      dsimp only
      rw [List.append_nil]
      rw [hto, htake]
      exact hbase.trans (nonWs_snoc_ws hcw rfl).symm
    · rw [noneTransitionExtras_tokens]
      exact hI2
    · rw [noneTransitionExtras_tokens]
      exact hI3
  · intro _ _ _ _ _ _ _ _ _ _ _ _
    exact tokInv_trans source st0 c _ hbase hto htake hI2 hI3
  · intro _ _ _ _ _ _ _ _ _ _ _ _
    refine tokInv_build source _ c ?_ ?_ ?_
    · rw [noneTransitionExtras_tokens, noneTransitionExtras_word,
        noneTransitionExtras_pos]
      dsimp only
      rw [lexData_snoc, mk4_lexeme, data_singleton]
      rw [List.append_nil]
      rw [hto, htake]
      exact nonWs_ext [c] hbase
    · rw [noneTransitionExtras_tokens]
      dsimp only
      refine noAdjWs_snoc _ hI2 ?_
      intro habs
      rw [mk4_type] at habs
      exact absurd habs (by decide)
    · rw [noneTransitionExtras_tokens]
      dsimp only
      refine wsLen_snoc _ hI3 ?_
      intro habs
      rw [mk4_type] at habs
      exact absurd habs (by decide)

theorem tokInv_second_dispatch (source : String) (stF : LexState) (c n : Char)
    (hst : stF.state = STATE_NONE) (hw : stF.word = "")
    (h0 : 0 ≤ stF.pos.index) (hlt : stF.pos.index < (source.length : Int))
    (hcA : c = charAt source.data stF.pos.index.toNat)
    (hnA : n = (if (source.length : Int) > stF.pos.index + 1 then
      charAt source.data (stF.pos.index + 1).toNat else nulChar))
    (hI : TokInv source stF) :
    TokInv source (advancePos (dispatchOnce source stF c n).1 c) := by
  rw [dispatchOnce_none source stF c n hst]
  exact tokInv_none_step source stF c n hw h0 hlt hcA hnA hI

/-- Preservation of the token-stream invariant by one full dispatch
(including re-dispatch) and the cursor bookkeeping, for the character and
lookahead that the driver computed at the current cursor position. -/
theorem tokInv_run (source : String) (stA : LexState) (c n : Char)
    (hlt : stA.pos.index < (source.length : Int))
    (hcA : c = charAt source.data stA.pos.index.toNat)
    (hnA : n = (if (source.length : Int) > stA.pos.index + 1 then
      charAt source.data (stA.pos.index + 1).toNat else nulChar))
    (hSt : StInv source stA) (hT : TokInv source stA) :
    TokInv source (advancePos (runConsumer source stA c n) c) := by
  obtain ⟨hB1, hB2, hW1, hW2, hN1, hH1, hH2, hK1, hK2⟩ := hSt
  obtain ⟨hI1, hI2, hI3⟩ := hT
  have hdl : (source.length : Int) = (source.data.length : Int) := by
    rw [length_data]
  have hidx : stA.pos.index.toNat < source.data.length := by omega
  have htake : source.data.take (stA.pos.index.toNat + 1) =
      source.data.take stA.pos.index.toNat ++ [c] := by
    rw [hcA]; exact take_succ_charAt hidx
  have hto : (stA.pos.index + 1).toNat = stA.pos.index.toNat + 1 :=
    toNat_add_one hB1
  rw [runConsumer_eq]
  cases hs : stA.state
  case STATE_NONE =>
    rw [dispatchOnce_none source stA c n hs]
    dsimp only
    rw [if_pos rfl]
    exact tokInv_none_step source stA c n (hW1 hs) hB1 hlt hcA hnA ⟨hI1, hI2, hI3⟩
  case STATE_WORD =>
    rw [dispatchOnce_word source stA c n hs]
    by_cases hl : isIdentifierLetter (String.singleton c) = true
    · rw [consumeWord_letter stA c hl]
      dsimp only
      rw [if_pos rfl]
      refine tokInv_build source _ c ?_ ?_ ?_
      · dsimp only
        rw [data_push, ← List.append_assoc, hto, htake]
        exact nonWs_ext [c] hI1
      · exact hI2
      · exact hI3
    · rw [consumeWord_finalize stA c hl]
      dsimp only
      rw [if_neg (by decide)]
      refine tokInv_second_dispatch source _ c n rfl rfl hB1 hlt hcA hnA ⟨?_, ?_, ?_⟩
      · dsimp only
        rw [List.append_nil, lexData_snoc, mk4_lexeme]
        exact hI1
      · dsimp only
        refine noAdjWs_snoc _ hI2 ?_
        intro habs
        rw [mk4_type] at habs
        exact absurd habs (getTokenType_ne_whitespace (hK1 hs))
      · dsimp only
        refine wsLen_snoc _ hI3 ?_
        intro habs
        rw [mk4_type] at habs
        exact absurd habs (getTokenType_ne_whitespace (hK1 hs))
  case STATE_LINE_COMMENT =>
    rw [dispatchOnce_lineComment source stA c n hs]
    dsimp only
    rw [if_pos rfl]
    by_cases hnl : c = '\n'
    · rw [consumeLineComment_newline stA c hnl]
      have hcw : isWhitespaceChar c = true := by rw [hnl]; decide
      refine tokInv_build source _ c ?_ ?_ ?_
      · dsimp only
        rw [List.append_nil, lexData_snoc, mk4_lexeme, hto, htake]
        exact hI1.trans (nonWs_snoc_ws hcw rfl).symm
      · dsimp only
        refine noAdjWs_snoc _ hI2 ?_
        intro habs
        rw [mk4_type] at habs
        exact absurd habs (by decide)
      · dsimp only
        refine wsLen_snoc _ hI3 ?_
        intro habs
        rw [mk4_type] at habs
        exact absurd habs (by decide)
    · rw [consumeLineComment_accum stA c hnl]
      refine tokInv_build source _ c ?_ ?_ ?_
      · dsimp only
        rw [data_push, ← List.append_assoc, hto, htake]
        exact nonWs_ext [c] hI1
      · exact hI2
      · exact hI3
  case STATE_BLOCK_COMMENT =>
    rw [dispatchOnce_blockComment source stA c n hs]
    dsimp only
    rw [if_pos rfl]
    by_cases hcl : stA.prevC = '*' ∧ c = '/'
    · rw [consumeBlockComment_close stA c stA.prevC hcl]
      refine tokInv_build source _ c ?_ ?_ ?_
      · dsimp only
        rw [List.append_nil, lexData_snoc, mk4_lexeme, data_push,
          ← List.append_assoc, hto, htake]
        exact nonWs_ext [c] hI1
      · dsimp only
        refine noAdjWs_snoc _ hI2 ?_
        intro habs
        rw [mk4_type] at habs
        exact absurd habs (by decide)
      · dsimp only
        refine wsLen_snoc _ hI3 ?_
        intro habs
        rw [mk4_type] at habs
        exact absurd habs (by decide)
    · rw [consumeBlockComment_accum stA c stA.prevC hcl]
      refine tokInv_build source _ c ?_ ?_ ?_
      · dsimp only
        rw [data_push, ← List.append_assoc, hto, htake]
        exact nonWs_ext [c] hI1
      · exact hI2
      · exact hI3
  case STATE_LITERAL_STRING =>
    rw [dispatchOnce_literalString source stA c n hs]
    dsimp only
    rw [if_pos rfl]
    by_cases hnl : c = '\n'
    · rw [consumeLiteralString_newline stA c stA.prevC hnl]
      have hcw : isWhitespaceChar c = true := by rw [hnl]; decide
      refine tokInv_build source _ c ?_ ?_ ?_
      · dsimp only
        rw [List.append_nil, lexData_snoc, mk4_lexeme, hto, htake]
        exact hI1.trans (nonWs_snoc_ws hcw rfl).symm
      · dsimp only
        refine noAdjWs_snoc _ hI2 ?_
        intro habs
        rw [mk4_type] at habs
        exact absurd habs (by decide)
      · dsimp only
        refine wsLen_snoc _ hI3 ?_
        intro habs
        rw [mk4_type] at habs
        exact absurd habs (by decide)
    · by_cases hq : stA.prevC ≠ '\\' ∧ c = '"'
      · rw [consumeLiteralString_close stA c stA.prevC hnl hq]
        refine tokInv_build source _ c ?_ ?_ ?_
        · dsimp only
          rw [List.append_nil, lexData_snoc, mk4_lexeme, data_push,
            ← List.append_assoc, hto, htake]
          exact nonWs_ext [c] hI1
        · dsimp only
          refine noAdjWs_snoc _ hI2 ?_
          intro habs
          rw [mk4_type] at habs
          exact absurd habs (by decide)
        · dsimp only
          refine wsLen_snoc _ hI3 ?_
          intro habs
          rw [mk4_type] at habs
          exact absurd habs (by decide)
      · rw [consumeLiteralString_accum stA c stA.prevC hnl hq]
        refine tokInv_build source _ c ?_ ?_ ?_
        · dsimp only
          rw [data_push, ← List.append_assoc, hto, htake]
          exact nonWs_ext [c] hI1
        · exact hI2
        · exact hI3
  case STATE_LITERAL_CHAR =>
    rw [dispatchOnce_literalChar source stA c n hs]
    dsimp only
    rw [if_pos rfl]
    by_cases hnl : c = '\n'
    · rw [consumeLiteralChar_newline stA c stA.prevC hnl]
      have hcw : isWhitespaceChar c = true := by rw [hnl]; decide
      refine tokInv_build source _ c ?_ ?_ ?_
      · dsimp only
        rw [List.append_nil, lexData_snoc, mk4_lexeme, hto, htake]
        exact hI1.trans (nonWs_snoc_ws hcw rfl).symm
      · dsimp only
        refine noAdjWs_snoc _ hI2 ?_
        intro habs
        rw [mk4_type] at habs
        exact absurd habs (by decide)
      · dsimp only
        refine wsLen_snoc _ hI3 ?_
        intro habs
        rw [mk4_type] at habs
        exact absurd habs (by decide)
    · by_cases hq : stA.prevC ≠ '\\' ∧ c = '\''
      · rw [consumeLiteralChar_close stA c stA.prevC hnl hq]
        refine tokInv_build source _ c ?_ ?_ ?_
        · dsimp only
          rw [List.append_nil, lexData_snoc, mk4_lexeme, data_push,
            ← List.append_assoc, hto, htake]
          exact nonWs_ext [c] hI1
        · dsimp only
          refine noAdjWs_snoc _ hI2 ?_
          intro habs
          rw [mk4_type] at habs
          exact absurd habs (by decide)
        · dsimp only
          refine wsLen_snoc _ hI3 ?_
          intro habs
          rw [mk4_type] at habs
          exact absurd habs (by decide)
      · rw [consumeLiteralChar_accum stA c stA.prevC hnl hq]
        refine tokInv_build source _ c ?_ ?_ ?_
        · dsimp only
          rw [data_push, ← List.append_assoc, hto, htake]
          exact nonWs_ext [c] hI1
        · exact hI2
        · exact hI3
  case STATE_OPERATORS =>
    rw [dispatchOnce_operators source stA c n hs]
    by_cases hop : isOperatorStart (String.singleton c) = true
    · rw [consumeOperator_start stA c hop]
      dsimp only
      rw [if_pos rfl]
      refine tokInv_build source _ c ?_ ?_ ?_
      · dsimp only
        rw [data_push, ← List.append_assoc, hto, htake]
        exact nonWs_ext [c] hI1
      · exact hI2
      · exact hI3
    · rw [consumeOperator_finalize stA c hop]
      dsimp only
      rw [if_neg (by decide)]
      refine tokInv_second_dispatch source _ c n rfl rfl hB1 hlt hcA hnA ⟨?_, ?_, ?_⟩
      · dsimp only
        rw [List.append_nil, lexData_snoc, mk4_lexeme]
        exact hI1
      · dsimp only
        refine noAdjWs_snoc _ hI2 ?_
        intro habs
        rw [mk4_type] at habs
        exact absurd habs (getTokenType_ne_whitespace (hK2 hs))
      · dsimp only
        refine wsLen_snoc _ hI3 ?_
        intro habs
        rw [mk4_type] at habs
        exact absurd habs (getTokenType_ne_whitespace (hK2 hs))
  case STATE_NUMBERS =>
    rw [dispatchOnce_numbers source stA c n hs]
    by_cases hu : consumeUnderscoreInNumber source stA.pos.index false false ≠ ""
    · rw [consumeNumber_underscore source stA stA.prevC c n hu]
      dsimp only
      rw [if_pos rfl]
      obtain ⟨hc_, hslice, hbound⟩ :=
        consumeUnderscore_strong source stA.pos.index false false hu
      have hupos : 0 < (consumeUnderscoreInNumber source stA.pos.index false false).length :=
        length_pos_of_ne_empty hu
      have hlenU : (consumeUnderscoreInNumber source stA.pos.index false false).length =
          (consumeUnderscoreInNumber source stA.pos.index false false).data.length :=
        length_data _
      have idxa : (stA.pos.index +
          (((consumeUnderscoreInNumber source stA.pos.index false false).length : Int) - 1)
            + 1).toNat =
          stA.pos.index.toNat +
            (consumeUnderscoreInNumber source stA.pos.index false false).data.length := by
        omega
      have htakeU : source.data.take (stA.pos.index.toNat +
          (consumeUnderscoreInNumber source stA.pos.index false false).data.length) =
          source.data.take stA.pos.index.toNat ++
            (consumeUnderscoreInNumber source stA.pos.index false false).data := by
        rw [List.take_add]
        congr 1
        exact hslice.symm
      refine tokInv_build source _ c ?_ ?_ ?_
      · dsimp only
        rw [data_append, ← List.append_assoc, idxa, htakeU]
        exact nonWs_ext _ hI1
      · exact hI2
      · exact hI3
    · by_cases hd : isNumber c = true ∨ (stA.numberInfo.hasUsedE = true ∧
        (stA.prevC = 'e' ∨ stA.prevC = 'E') ∧ (c = '-' ∨ c = '+'))
      · rw [consumeNumber_digit source stA stA.prevC c n hu hd]
        dsimp only
        rw [if_pos rfl]
        refine tokInv_build source _ c ?_ ?_ ?_
        · dsimp only
          rw [data_push, ← List.append_assoc, hto, htake]
          exact nonWs_ext [c] hI1
        · exact hI2
        · exact hI3
      · by_cases hdot : ¬ stA.numberInfo.hasUsedDot = true ∧ c = '.'
        · rw [consumeNumber_dot source stA stA.prevC c n hu hd hdot]
          dsimp only
          rw [if_pos rfl]
          refine tokInv_build source _ c ?_ ?_ ?_
          · dsimp only
            rw [data_push, ← List.append_assoc, hto, htake]
            exact nonWs_ext [c] hI1
          · exact hI2
          · exact hI3
        · by_cases hexp : ¬ stA.numberInfo.hasUsedE = true ∧ (c = 'e' ∨ c = 'E') ∧
            (isNumber n = true ∨ n = '+' ∨ n = '-')
          · rw [consumeNumber_exponent source stA stA.prevC c n hu hd hdot hexp]
            dsimp only
            rw [if_pos rfl]
            refine tokInv_build source _ c ?_ ?_ ?_
            · dsimp only
              rw [data_push, ← List.append_assoc, hto, htake]
              exact nonWs_ext [c] hI1
            · exact hI2
            · exact hI3
          · by_cases hty : isNumberTypeIdentifier c
              (!stA.numberInfo.hasUsedE && !stA.numberInfo.hasUsedDot) = true
            · rw [consumeNumber_finalize_suffix source stA stA.prevC c n hu hd hdot hexp hty]
              dsimp only
              rw [if_pos rfl]
              refine tokInv_build source _ c ?_ ?_ ?_
              · dsimp only
                rw [List.append_nil, lexData_snoc, mk4_lexeme, data_push,
                  ← List.append_assoc, hto, htake]
                exact nonWs_ext [c] hI1
              · dsimp only
                refine noAdjWs_snoc _ hI2 ?_
                intro habs
                rw [mk4_type] at habs
                exact absurd habs (by decide)
              · dsimp only
                refine wsLen_snoc _ hI3 ?_
                intro habs
                rw [mk4_type] at habs
                exact absurd habs (by decide)
            · rw [consumeNumber_finalize source stA stA.prevC c n hu hd hdot hexp hty]
              dsimp only
              rw [if_neg (by decide)]
              refine tokInv_second_dispatch source _ c n rfl rfl hB1 hlt hcA hnA ⟨?_, ?_, ?_⟩
              · dsimp only
                rw [List.append_nil, lexData_snoc, mk4_lexeme]
                exact hI1
              · dsimp only
                refine noAdjWs_snoc _ hI2 ?_
                intro habs
                rw [mk4_type] at habs
                exact absurd habs (by decide)
              · dsimp only
                refine wsLen_snoc _ hI3 ?_
                intro habs
                rw [mk4_type] at habs
                exact absurd habs (by decide)
  case STATE_HEX =>
    rw [dispatchOnce_hex source stA c n hs]
    by_cases hu : consumeUnderscoreInNumber source stA.pos.index false (!false) ≠ ""
    · rw [consumeHexAndBinary_underscore source stA c false hu]
      dsimp only
      rw [if_pos rfl]
      obtain ⟨hc_, hslice, hbound⟩ :=
        consumeUnderscore_strong source stA.pos.index false (!false) hu
      have hupos : 0 < (consumeUnderscoreInNumber source stA.pos.index false (!false)).length :=
        length_pos_of_ne_empty hu
      have hlenU : (consumeUnderscoreInNumber source stA.pos.index false (!false)).length =
          (consumeUnderscoreInNumber source stA.pos.index false (!false)).data.length :=
        length_data _
      have idxa : (stA.pos.index +
          (((consumeUnderscoreInNumber source stA.pos.index false (!false)).length : Int) - 1)
            + 1).toNat =
          stA.pos.index.toNat +
            (consumeUnderscoreInNumber source stA.pos.index false (!false)).data.length := by
        omega
      have htakeU : source.data.take (stA.pos.index.toNat +
          (consumeUnderscoreInNumber source stA.pos.index false (!false)).data.length) =
          source.data.take stA.pos.index.toNat ++
            (consumeUnderscoreInNumber source stA.pos.index false (!false)).data := by
        rw [List.take_add]
        congr 1
        exact hslice.symm
      refine tokInv_build source _ c ?_ ?_ ?_
      · dsimp only
        rw [data_append, ← List.append_assoc, idxa, htakeU]
        exact nonWs_ext _ hI1
      · exact hI2
      · exact hI3
    · by_cases hacc : stA.word.length = 1 ∨ isHexOrBinaryNumber c false = true
      · rw [consumeHexAndBinary_accum source stA c false hu hacc]
        dsimp only
        rw [if_pos rfl]
        refine tokInv_build source _ c ?_ ?_ ?_
        · dsimp only
          rw [data_push, ← List.append_assoc, hto, htake]
          exact nonWs_ext [c] hI1
        · exact hI2
        · exact hI3
      · by_cases hty : c = 'l' ∨ c = 'L'
        · rw [consumeHexAndBinary_finalize_suffix source stA c false hu hacc hty]
          dsimp only
          rw [if_pos rfl]
          refine tokInv_build source _ c ?_ ?_ ?_
          · dsimp only
            rw [List.append_nil, lexData_snoc, mk4_lexeme, data_push,
              ← List.append_assoc, hto, htake]
            exact nonWs_ext [c] hI1
          · dsimp only
            refine noAdjWs_snoc _ hI2 ?_
            intro habs
            rw [mk4_type] at habs
            split at habs
            · exact absurd habs (by decide)
            · exact absurd habs (by decide)
          · dsimp only
            refine wsLen_snoc _ hI3 ?_
            intro habs
            rw [mk4_type] at habs
            split at habs
            · exact absurd habs (by decide)
            · exact absurd habs (by decide)
        · rw [consumeHexAndBinary_finalize source stA c false hu hacc hty]
          dsimp only
          rw [if_neg (by decide)]
          refine tokInv_second_dispatch source _ c n rfl rfl hB1 hlt hcA hnA ⟨?_, ?_, ?_⟩
          · dsimp only
            rw [List.append_nil, lexData_snoc, mk4_lexeme]
            exact hI1
          · dsimp only
            refine noAdjWs_snoc _ hI2 ?_
            intro habs
            rw [mk4_type] at habs
            split at habs
            · exact absurd habs (by decide)
            · exact absurd habs (by decide)
          · dsimp only
            refine wsLen_snoc _ hI3 ?_
            intro habs
            rw [mk4_type] at habs
            split at habs
            · exact absurd habs (by decide)
            · exact absurd habs (by decide)
  case STATE_BINARY =>
    rw [dispatchOnce_binary source stA c n hs]
    by_cases hu : consumeUnderscoreInNumber source stA.pos.index true (!true) ≠ ""
    · rw [consumeHexAndBinary_underscore source stA c true hu]
      dsimp only
      rw [if_pos rfl]
      obtain ⟨hc_, hslice, hbound⟩ :=
        consumeUnderscore_strong source stA.pos.index true (!true) hu
      have hupos : 0 < (consumeUnderscoreInNumber source stA.pos.index true (!true)).length :=
        length_pos_of_ne_empty hu
      have hlenU : (consumeUnderscoreInNumber source stA.pos.index true (!true)).length =
          (consumeUnderscoreInNumber source stA.pos.index true (!true)).data.length :=
        length_data _
      have idxa : (stA.pos.index +
          (((consumeUnderscoreInNumber source stA.pos.index true (!true)).length : Int) - 1)
            + 1).toNat =
          stA.pos.index.toNat +
            (consumeUnderscoreInNumber source stA.pos.index true (!true)).data.length := by
        omega
      have htakeU : source.data.take (stA.pos.index.toNat +
          (consumeUnderscoreInNumber source stA.pos.index true (!true)).data.length) =
          source.data.take stA.pos.index.toNat ++
            (consumeUnderscoreInNumber source stA.pos.index true (!true)).data := by
        rw [List.take_add]
        congr 1
        exact hslice.symm
      refine tokInv_build source _ c ?_ ?_ ?_
      · dsimp only
        rw [data_append, ← List.append_assoc, idxa, htakeU]
        exact nonWs_ext _ hI1
      · exact hI2
      · exact hI3
    · by_cases hacc : stA.word.length = 1 ∨ isHexOrBinaryNumber c true = true
      · rw [consumeHexAndBinary_accum source stA c true hu hacc]
        dsimp only
        rw [if_pos rfl]
        refine tokInv_build source _ c ?_ ?_ ?_
        · dsimp only
          rw [data_push, ← List.append_assoc, hto, htake]
          exact nonWs_ext [c] hI1
        · exact hI2
        · exact hI3
      · by_cases hty : c = 'l' ∨ c = 'L'
        · rw [consumeHexAndBinary_finalize_suffix source stA c true hu hacc hty]
          dsimp only
          rw [if_pos rfl]
          refine tokInv_build source _ c ?_ ?_ ?_
          · dsimp only
            rw [List.append_nil, lexData_snoc, mk4_lexeme, data_push,
              ← List.append_assoc, hto, htake]
            exact nonWs_ext [c] hI1
          · dsimp only
            refine noAdjWs_snoc _ hI2 ?_
            intro habs
            rw [mk4_type] at habs
            split at habs
            · exact absurd habs (by decide)
            · exact absurd habs (by decide)
          · dsimp only
            refine wsLen_snoc _ hI3 ?_
            intro habs
            rw [mk4_type] at habs
            split at habs
            · exact absurd habs (by decide)
            · exact absurd habs (by decide)
        · rw [consumeHexAndBinary_finalize source stA c true hu hacc hty]
          dsimp only
          rw [if_neg (by decide)]
          refine tokInv_second_dispatch source _ c n rfl rfl hB1 hlt hcA hnA ⟨?_, ?_, ?_⟩
          · dsimp only
            rw [List.append_nil, lexData_snoc, mk4_lexeme]
            exact hI1
          · dsimp only
            refine noAdjWs_snoc _ hI2 ?_
            intro habs
            rw [mk4_type] at habs
            split at habs
            · exact absurd habs (by decide)
            · exact absurd habs (by decide)
          · dsimp only
            refine wsLen_snoc _ hI3 ?_
            intro habs
            rw [mk4_type] at habs
            split at habs
            · exact absurd habs (by decide)
            · exact absurd habs (by decide)

/-- The token-stream invariant is preserved by one iteration of the main
loop while the cursor is inside the input. -/
theorem tokInv_step (source : String) (st : LexState)
    (hlt : st.pos.index < (source.length : Int))
    (hS : StInv source st) (hT : TokInv source st) :
    TokInv source (stepCore source st) :=
  tokInv_run source
    { st with nextC := if (source.length : Int) > st.pos.index + 1 then
        charAt source.data (st.pos.index + 1).toNat else nulChar }
    (charAt source.data st.pos.index.toNat)
    (if (source.length : Int) > st.pos.index + 1 then
      charAt source.data (st.pos.index + 1).toNat else nulChar)
    hlt rfl rfl hS hT

/-- The initial state satisfies the token-stream invariant. -/
theorem tokInv_init (source : String) : TokInv source initState :=
  ⟨rfl, trivial, fun t ht => absurd ht (List.not_mem_nil t)⟩

/-- At the exit of the main loop both invariants hold, and the emitted
lexemes together with the pending buffer carry exactly the non-whitespace
characters of the whole input. -/
theorem preFinal_tokInv (source : String) (st : LexState)
    (h : preFinal source = some st) :
    TokInv source st ∧
      nonWhitespaceChars (lexData st.tokens ++ st.word.data) =
        nonWhitespaceChars source.data := by
  have hboth : StInv source st ∧ TokInv source st := by
    refine mainLoop_preserves source (fun s => StInv source s ∧ TokInv source s)
      ?_ (source.length + 1) initState st ⟨stInv_init source, tokInv_init source⟩ h
    intro s hltx ⟨hS, hT⟩
    exact ⟨stInv_step source s hltx hS, tokInv_step source s hltx hS hT⟩
  obtain ⟨hSt, hTk⟩ := hboth
  refine ⟨hTk, ?_⟩
  have hstop := (preFinal_inv source st h).2
  have hidx : st.pos.index.toNat = source.data.length := by
    have h1 := hSt.1
    have h2 := hSt.2.1
    have := length_data source
    omega
  have h1 := hTk.1
  rw [hidx, List.take_length] at h1
  exact h1

/-! ## The end-of-input replay, state by state -/

theorem isNumberStarter_newline (n : Char) : isNumberStarter '\n' n = false := by
  unfold isNumberStarter
  rw [show isNumber '\n' = false from rfl, show decide ('\n' = '.') = false from rfl]
  simp

/-- `consume` on a newline: every branch before the whitespace test is
ruled out, so the handler collapses a run (or appends a single-newline
whitespace token when the previous token is not whitespace). -/
theorem consume_newline (st : LexState) (n : Char) :
    consume st '\n' n =
      (if backTypeNotWhitespace st.tokens then
        { st with
          tokens := st.tokens ++ [Token.mk4 WHITESPACE (String.singleton '\n') st.pos 0],
          pos := { st.pos with
            column := st.pos.column + (String.singleton '\n').length },
          word := "" }
      else
        { st with
          pos := { st.pos with
            column := st.pos.column + (String.singleton '\n').length },
          word := "" }) := by
  delta consume
  rw [if_neg (fun h => absurd h.1 (by decide))]
  rw [if_neg (fun h => absurd h.1 (by decide))]
  rw [if_neg (by decide)]
  rw [if_neg (by decide)]
  rw [if_neg (fun h => absurd h.1 (by decide))]
  rw [if_neg (fun h => absurd h.1 (by decide))]
  rw [if_neg (fun h => absurd h.1 (by decide))]
  rw [if_neg (fun h => absurd ((isNumberStarter_newline n).symm.trans h) (by decide))]
  rw [if_neg (by decide)]
  rw [if_neg (by decide)]
  rw [if_pos (by decide)]

theorem underscore_at_end (source : String) (index : Int) (b x : Bool)
    (h : source.data.length ≤ index.toNat) :
    consumeUnderscoreInNumber source index b x = "" := by
  rw [consumeUnderscoreInNumber, if_pos]
  right
  rw [charAt_of_le h]
  decide

theorem isNumberTypeIdentifier_newline (b : Bool) :
    isNumberTypeIdentifier '\n' b = false := by
  cases b <;> decide

theorem isHexOrBinary_newline (b : Bool) : isHexOrBinaryNumber '\n' b = false := by
  cases b <;> decide

theorem second_none_tokens_eq (source : String) (stF : LexState) (n : Char)
    (hst : stF.state = STATE_NONE) (hbt : backTypeNotWhitespace stF.tokens) :
    (advancePos (dispatchOnce source stF '\n' n).1 '\n').tokens =
      stF.tokens ++ [Token.mk4 WHITESPACE (String.singleton '\n') stF.pos 0] := by
  rw [dispatchOnce_none source stF '\n' n hst]
  dsimp only
  rw [advancePos_tokens, noneTransitionExtras_tokens, consume_newline, if_pos hbt]

theorem second_none_word_eq (source : String) (stF : LexState) (n : Char)
    (hst : stF.state = STATE_NONE) (hbt : backTypeNotWhitespace stF.tokens) :
    (advancePos (dispatchOnce source stF '\n' n).1 '\n').word = "" := by
  rw [dispatchOnce_none source stF '\n' n hst]
  dsimp only
  rw [advancePos_word, noneTransitionExtras_word, consume_newline, if_pos hbt]

theorem second_none_state_eq (source : String) (stF : LexState) (n : Char)
    (hst : stF.state = STATE_NONE) (hbt : backTypeNotWhitespace stF.tokens) :
    (advancePos (dispatchOnce source stF '\n' n).1 '\n').state = STATE_NONE := by
  rw [dispatchOnce_none source stF '\n' n hst]
  dsimp only
  rw [advancePos_state, noneTransitionExtras_state, consume_newline, if_pos hbt]
  exact hst

/-- The end-of-input replay through a handler that does not consume the
synthesized newline: the handler's result re-dispatches into the neutral
handler, which appends a single-newline whitespace token. -/
theorem finish_via_finalize (source : String) (st stF : LexState)
    (hdisp : dispatchOnce source st '\n' st.nextC = (stF, false))
    (hst : stF.state = STATE_NONE)
    (hbt : backTypeNotWhitespace stF.tokens)
    (hfire : st.pos.index ≥ (source.length : Int) ∧ st.state ≠ STATE_NONE ∧
      st.word ≠ "" ∧ st.prevC ≠ '\n') :
    (finish source st).tokens =
      stF.tokens ++ [Token.mk4 WHITESPACE (String.singleton '\n') stF.pos 0] ∧
    (finish source st).word = "" ∧ (finish source st).state = STATE_NONE := by
  rw [finish, if_pos hfire, runConsumer_eq, hdisp]
  dsimp only
  rw [if_neg (by decide)]
  exact ⟨second_none_tokens_eq source stF st.nextC hst hbt,
    second_none_word_eq source stF st.nextC hst hbt,
    second_none_state_eq source stF st.nextC hst hbt⟩

/-- The end-of-input replay through a handler that consumes the
synthesized newline: the replay is that handler followed by the cursor
bookkeeping. -/
theorem finish_via_consumed (source : String) (st stF : LexState)
    (hdisp : dispatchOnce source st '\n' st.nextC = (stF, true))
    (hfire : st.pos.index ≥ (source.length : Int) ∧ st.state ≠ STATE_NONE ∧
      st.word ≠ "" ∧ st.prevC ≠ '\n') :
    finish source st = advancePos stF '\n' := by
  rw [finish, if_pos hfire, runConsumer_eq, hdisp]
  dsimp only
  rw [if_pos rfl]

theorem getLast_kinds (l : List Token) (t : Token) :
    (tokenKinds (l ++ [t])).getLast? = some (t.type, t.lexeme) := by
  simp [tokenKinds]

/-- Complete description of the end-of-input replay at the exit of the
main loop: the replay leaves the block-comment state (and only it) in
place, otherwise it empties the buffer; it preserves the non-whitespace
characters, the no-adjacent-whitespace shape and the single-character
whitespace lexemes; outside the neutral and block-comment states it emits
a token holding exactly the pending buffer; and in the five accumulation
states it additionally appends a single-newline whitespace token at the
very end of the stream. -/
theorem finish_all (source : String) (st : LexState)
    (hge : ¬ (source.length : Int) > st.pos.index)
    (hS : StInv source st) (hT : TokInv source st) :
    ((finish source st).state = STATE_BLOCK_COMMENT ↔
      st.state = STATE_BLOCK_COMMENT) ∧
    (st.state ≠ STATE_BLOCK_COMMENT → (finish source st).word = "") ∧
    (st.state ≠ STATE_BLOCK_COMMENT →
      nonWhitespaceChars (lexData (finish source st).tokens) =
        nonWhitespaceChars (lexData st.tokens ++ st.word.data)) ∧
    NoAdjacentWhitespace (finish source st).tokens ∧
    (∀ t ∈ (finish source st).tokens, t.type = WHITESPACE → t.lexeme.length = 1) ∧
    (st.state ≠ STATE_NONE → st.state ≠ STATE_BLOCK_COMMENT →
      ∃ t rest, (finish source st).tokens = st.tokens ++ t :: rest ∧
        t.lexeme = st.word) ∧
    ((st.state = STATE_WORD ∨ st.state = STATE_OPERATORS ∨
        st.state = STATE_NUMBERS ∨ st.state = STATE_HEX ∨ st.state = STATE_BINARY) →
      ∃ t q, (finish source st).tokens = st.tokens ++
        [t, ⟨WHITESPACE, String.singleton '\n', q⟩]) := by
  obtain ⟨hB1, hB2, hW1, hW2, hN1, hH1, hH2, hK1, hK2⟩ := hS
  obtain ⟨hI1, hI2, hI3⟩ := hT
  have hule : source.data.length ≤ st.pos.index.toNat := by
    have := length_data source
    omega
  cases hs : st.state
  case STATE_NONE =>
    have hnoop : finish source st = st := by
      rw [finish, if_neg]
      rintro ⟨-, h2, -, -⟩
      exact h2 hs
    rw [hnoop]
    refine ⟨by rw [hs], fun _ => hW1 hs, fun _ => ?_, hI2, hI3,
      fun hne _ => absurd rfl hne, ?_⟩
    · rw [hW1 hs]
      rw [show ("" : String).data = ([] : List Char) from rfl, List.append_nil]
    · intro hd
      rcases hd with h | h | h | h | h <;> exact absurd h (by decide)
  case STATE_BLOCK_COMMENT =>
    by_cases hpc : st.prevC = '\n'
    · have hnoop : finish source st = st := by
        rw [finish, if_neg]
        rintro ⟨-, -, -, h4⟩
        exact h4 hpc
      rw [hnoop]
      refine ⟨by rw [hs], fun hbc => absurd rfl hbc, fun hbc => absurd rfl hbc,
        hI2, hI3, fun _ hbc => absurd rfl hbc, ?_⟩
      intro hd
      rcases hd with h | h | h | h | h <;> exact absurd h (by decide)
    · have hwne : st.word ≠ "" := hW2 (by rw [hs]; exact fun hx => absurd hx (by decide))
      have hfire : st.pos.index ≥ (source.length : Int) ∧ st.state ≠ STATE_NONE ∧
          st.word ≠ "" ∧ st.prevC ≠ '\n' :=
        ⟨by omega, by rw [hs]; exact fun hx => absurd hx (by decide), hwne, hpc⟩
      have hdisp := (dispatchOnce_blockComment source st '\n' st.nextC hs).trans
        (congrArg (fun x => (x, true))
          (consumeBlockComment_accum st '\n' st.prevC (fun h => absurd h.2 (by decide))))
      have hfin := finish_via_consumed source st _ hdisp hfire
      rw [hfin]
      refine ⟨?_, fun hbc => absurd rfl hbc, fun hbc => absurd rfl hbc, ?_, ?_,
        fun _ hbc => absurd rfl hbc, ?_⟩
      · rw [advancePos_state]
        dsimp only
        rw [hs]
      · rw [advancePos_tokens]
        dsimp only
        exact hI2
      · rw [advancePos_tokens]
        dsimp only
        exact hI3
      · intro hd
        rcases hd with h | h | h | h | h <;> exact absurd h (by decide)
  case STATE_LINE_COMMENT =>
    have hpc : st.prevC ≠ '\n' := fun he => by
      rcases hN1 he with h | h <;> (rw [hs] at h; exact absurd h (by decide))
    have hwne : st.word ≠ "" := hW2 (by rw [hs]; exact fun hx => absurd hx (by decide))
    have hfire : st.pos.index ≥ (source.length : Int) ∧ st.state ≠ STATE_NONE ∧
        st.word ≠ "" ∧ st.prevC ≠ '\n' :=
      ⟨by omega, by rw [hs]; exact fun hx => absurd hx (by decide), hwne, hpc⟩
    have hdisp := (dispatchOnce_lineComment source st '\n' st.nextC hs).trans
      (congrArg (fun x => (x, true)) (consumeLineComment_newline st '\n' rfl))
    have hfin := finish_via_consumed source st _ hdisp hfire
    rw [hfin]
    refine ⟨?_, fun _ => ?_, fun _ => ?_, ?_, ?_, fun _ _ => ?_, ?_⟩
    · rw [advancePos_state]
      dsimp only
      decide
    · rw [advancePos_word]
    · rw [advancePos_tokens]
      dsimp only
      rw [lexData_snoc, mk4_lexeme]
    · rw [advancePos_tokens]
      dsimp only
      refine noAdjWs_snoc _ hI2 ?_
      intro habs
      rw [mk4_type] at habs
      exact absurd habs (by decide)
    · rw [advancePos_tokens]
      dsimp only
      refine wsLen_snoc _ hI3 ?_
      intro habs
      rw [mk4_type] at habs
      exact absurd habs (by decide)
    · refine ⟨Token.mk4 LINE_COMMENT st.word st.pos st.word.length, [], ?_,
        mk4_lexeme _ _ _ _⟩
      rw [advancePos_tokens]
    · intro hd
      rcases hd with h | h | h | h | h <;> exact absurd h (by decide)
  case STATE_LITERAL_STRING =>
    have hpc : st.prevC ≠ '\n' := fun he => by
      rcases hN1 he with h | h <;> (rw [hs] at h; exact absurd h (by decide))
    have hwne : st.word ≠ "" := hW2 (by rw [hs]; exact fun hx => absurd hx (by decide))
    have hfire : st.pos.index ≥ (source.length : Int) ∧ st.state ≠ STATE_NONE ∧
        st.word ≠ "" ∧ st.prevC ≠ '\n' :=
      ⟨by omega, by rw [hs]; exact fun hx => absurd hx (by decide), hwne, hpc⟩
    have hdisp := (dispatchOnce_literalString source st '\n' st.nextC hs).trans
      (congrArg (fun x => (x, true)) (consumeLiteralString_newline st '\n' st.prevC rfl))
    have hfin := finish_via_consumed source st _ hdisp hfire
    rw [hfin]
    refine ⟨?_, fun _ => ?_, fun _ => ?_, ?_, ?_, fun _ _ => ?_, ?_⟩
    · rw [advancePos_state]
      dsimp only
      decide
    · rw [advancePos_word]
    · rw [advancePos_tokens]
      dsimp only
      rw [lexData_snoc, mk4_lexeme]
    · rw [advancePos_tokens]
      dsimp only
      refine noAdjWs_snoc _ hI2 ?_
      intro habs
      rw [mk4_type] at habs
      exact absurd habs (by decide)
    · rw [advancePos_tokens]
      dsimp only
      refine wsLen_snoc _ hI3 ?_
      intro habs
      rw [mk4_type] at habs
      exact absurd habs (by decide)
    · refine ⟨Token.mk4 UNKNOWN st.word st.pos st.word.length, [], ?_,
        mk4_lexeme _ _ _ _⟩
      rw [advancePos_tokens]
    · intro hd
      rcases hd with h | h | h | h | h <;> exact absurd h (by decide)
  case STATE_LITERAL_CHAR =>
    have hpc : st.prevC ≠ '\n' := fun he => by
      rcases hN1 he with h | h <;> (rw [hs] at h; exact absurd h (by decide))
    have hwne : st.word ≠ "" := hW2 (by rw [hs]; exact fun hx => absurd hx (by decide))
    have hfire : st.pos.index ≥ (source.length : Int) ∧ st.state ≠ STATE_NONE ∧
        st.word ≠ "" ∧ st.prevC ≠ '\n' :=
      ⟨by omega, by rw [hs]; exact fun hx => absurd hx (by decide), hwne, hpc⟩
    have hdisp := (dispatchOnce_literalChar source st '\n' st.nextC hs).trans
      (congrArg (fun x => (x, true)) (consumeLiteralChar_newline st '\n' st.prevC rfl))
    have hfin := finish_via_consumed source st _ hdisp hfire
    rw [hfin]
    refine ⟨?_, fun _ => ?_, fun _ => ?_, ?_, ?_, fun _ _ => ?_, ?_⟩
    · rw [advancePos_state]
      dsimp only
      decide
    · rw [advancePos_word]
    · rw [advancePos_tokens]
      dsimp only
      rw [lexData_snoc, mk4_lexeme]
    · rw [advancePos_tokens]
      dsimp only
      refine noAdjWs_snoc _ hI2 ?_
      intro habs
      rw [mk4_type] at habs
      exact absurd habs (by decide)
    · rw [advancePos_tokens]
      dsimp only
      refine wsLen_snoc _ hI3 ?_
      intro habs
      rw [mk4_type] at habs
      exact absurd habs (by decide)
    · refine ⟨Token.mk4 UNKNOWN st.word st.pos st.word.length, [], ?_,
        mk4_lexeme _ _ _ _⟩
      rw [advancePos_tokens]
    · intro hd
      rcases hd with h | h | h | h | h <;> exact absurd h (by decide)
  case STATE_WORD =>
    have hpc : st.prevC ≠ '\n' := fun he => by
      rcases hN1 he with h | h <;> (rw [hs] at h; exact absurd h (by decide))
    have hwne : st.word ≠ "" := hW2 (by rw [hs]; exact fun hx => absurd hx (by decide))
    have hfire : st.pos.index ≥ (source.length : Int) ∧ st.state ≠ STATE_NONE ∧
        st.word ≠ "" ∧ st.prevC ≠ '\n' :=
      ⟨by omega, by rw [hs]; exact fun hx => absurd hx (by decide), hwne, hpc⟩
    have hdisp := (dispatchOnce_word source st '\n' st.nextC hs).trans
      (consumeWord_finalize st '\n' (by decide))
    have hbt : backTypeNotWhitespace (st.tokens ++
        [Token.mk4 (getTokenType st.word) st.word st.pos st.word.length]) := by
      rw [backType_concat, mk4_type]
      exact getTokenType_ne_whitespace (hK1 hs)
    obtain ⟨htoks, hwrd, hstt⟩ := finish_via_finalize source st _ hdisp rfl hbt hfire
    dsimp only at htoks
    refine ⟨?_, fun _ => hwrd, fun _ => ?_, ?_, ?_, fun _ _ => ?_, fun _ => ?_⟩
    · rw [hstt]
      decide
    · rw [htoks, lexData_snoc, lexData_snoc, mk4_lexeme, mk4_lexeme, data_singleton]
      exact nonWs_snoc_ws (by decide) rfl
    · rw [htoks]
      refine noAdjWs_snoc _ (noAdjWs_snoc _ hI2 ?_) ?_
      · intro habs
        rw [mk4_type] at habs
        exact absurd habs (getTokenType_ne_whitespace (hK1 hs))
      · intro _
        exact hbt
    · rw [htoks]
      refine wsLen_snoc _ (wsLen_snoc _ hI3 ?_) ?_
      · intro habs
        rw [mk4_type] at habs
        exact absurd habs (getTokenType_ne_whitespace (hK1 hs))
      · intro _
        rfl
    · refine ⟨Token.mk4 (getTokenType st.word) st.word st.pos st.word.length,
        [Token.mk4 WHITESPACE (String.singleton '\n')
          { st.pos with column := st.pos.column + st.word.length } 0], ?_,
        mk4_lexeme _ _ _ _⟩
      rw [htoks, List.append_assoc]
      rfl
    · refine ⟨Token.mk4 (getTokenType st.word) st.word st.pos st.word.length,
        { { st.pos with column := st.pos.column + st.word.length } with
          index := { st.pos with column := st.pos.column + st.word.length }.index - 0 },
        ?_⟩
      rw [htoks, List.append_assoc]
      rfl
  case STATE_OPERATORS =>
    have hpc : st.prevC ≠ '\n' := fun he => by
      rcases hN1 he with h | h <;> (rw [hs] at h; exact absurd h (by decide))
    have hwne : st.word ≠ "" := hW2 (by rw [hs]; exact fun hx => absurd hx (by decide))
    have hfire : st.pos.index ≥ (source.length : Int) ∧ st.state ≠ STATE_NONE ∧
        st.word ≠ "" ∧ st.prevC ≠ '\n' :=
      ⟨by omega, by rw [hs]; exact fun hx => absurd hx (by decide), hwne, hpc⟩
    have hdisp := (dispatchOnce_operators source st '\n' st.nextC hs).trans
      (consumeOperator_finalize st '\n' (by decide))
    have hbt : backTypeNotWhitespace (st.tokens ++
        [Token.mk4 (getTokenType st.word) st.word st.pos st.word.length]) := by
      rw [backType_concat, mk4_type]
      exact getTokenType_ne_whitespace (hK2 hs)
    obtain ⟨htoks, hwrd, hstt⟩ := finish_via_finalize source st _ hdisp rfl hbt hfire
    dsimp only at htoks
    refine ⟨?_, fun _ => hwrd, fun _ => ?_, ?_, ?_, fun _ _ => ?_, fun _ => ?_⟩
    · rw [hstt]
      decide
    · rw [htoks, lexData_snoc, lexData_snoc, mk4_lexeme, mk4_lexeme, data_singleton]
      exact nonWs_snoc_ws (by decide) rfl
    · rw [htoks]
      refine noAdjWs_snoc _ (noAdjWs_snoc _ hI2 ?_) ?_
      · intro habs
        rw [mk4_type] at habs
        exact absurd habs (getTokenType_ne_whitespace (hK2 hs))
      · intro _
        exact hbt
    · rw [htoks]
      refine wsLen_snoc _ (wsLen_snoc _ hI3 ?_) ?_
      · intro habs
        rw [mk4_type] at habs
        exact absurd habs (getTokenType_ne_whitespace (hK2 hs))
      · intro _
        rfl
    · refine ⟨Token.mk4 (getTokenType st.word) st.word st.pos st.word.length,
        [Token.mk4 WHITESPACE (String.singleton '\n')
          { st.pos with column := st.pos.column + st.word.length } 0], ?_,
        mk4_lexeme _ _ _ _⟩
      rw [htoks, List.append_assoc]
      rfl
    · refine ⟨Token.mk4 (getTokenType st.word) st.word st.pos st.word.length,
        { { st.pos with column := st.pos.column + st.word.length } with
          index := { st.pos with column := st.pos.column + st.word.length }.index - 0 },
        ?_⟩
      rw [htoks, List.append_assoc]
      rfl
  case STATE_NUMBERS =>
    have hpc : st.prevC ≠ '\n' := fun he => by
      rcases hN1 he with h | h <;> (rw [hs] at h; exact absurd h (by decide))
    have hwne : st.word ≠ "" := hW2 (by rw [hs]; exact fun hx => absurd hx (by decide))
    have hfire : st.pos.index ≥ (source.length : Int) ∧ st.state ≠ STATE_NONE ∧
        st.word ≠ "" ∧ st.prevC ≠ '\n' :=
      ⟨by omega, by rw [hs]; exact fun hx => absurd hx (by decide), hwne, hpc⟩
    have hu : ¬ consumeUnderscoreInNumber source st.pos.index false false ≠ "" :=
      fun hx => hx (underscore_at_end source st.pos.index false false hule)
    have hd : ¬ (isNumber '\n' = true ∨ (st.numberInfo.hasUsedE = true ∧
        (st.prevC = 'e' ∨ st.prevC = 'E') ∧ ('\n' = '-' ∨ '\n' = '+'))) := by
      rintro (h | ⟨-, -, h⟩)
      · exact absurd h (by decide)
      · rcases h with h | h <;> exact absurd h (by decide)
    have hdot : ¬ (¬ st.numberInfo.hasUsedDot = true ∧ '\n' = '.') := by
      rintro ⟨-, h⟩
      exact absurd h (by decide)
    have hexp : ¬ (¬ st.numberInfo.hasUsedE = true ∧ ('\n' = 'e' ∨ '\n' = 'E') ∧
        (isNumber st.nextC = true ∨ st.nextC = '+' ∨ st.nextC = '-')) := by
      rintro ⟨-, h, -⟩
      rcases h with h | h <;> exact absurd h (by decide)
    have hty : ¬ isNumberTypeIdentifier '\n'
        (!st.numberInfo.hasUsedE && !st.numberInfo.hasUsedDot) = true := by
      intro hx
      rw [isNumberTypeIdentifier_newline] at hx
      exact absurd hx (by decide)
    have hdisp := (dispatchOnce_numbers source st '\n' st.nextC hs).trans
      (consumeNumber_finalize source st st.prevC '\n' st.nextC hu hd hdot hexp hty)
    have hbt : backTypeNotWhitespace (st.tokens ++
        [Token.mk4 NUMBER st.word st.pos (st.word.length : Int)]) := by
      rw [backType_concat, mk4_type]
      decide
    obtain ⟨htoks, hwrd, hstt⟩ := finish_via_finalize source st _ hdisp rfl hbt hfire
    dsimp only at htoks
    refine ⟨?_, fun _ => hwrd, fun _ => ?_, ?_, ?_, fun _ _ => ?_, fun _ => ?_⟩
    · rw [hstt]
      decide
    · rw [htoks, lexData_snoc, lexData_snoc, mk4_lexeme, mk4_lexeme, data_singleton]
      exact nonWs_snoc_ws (by decide) rfl
    · rw [htoks]
      refine noAdjWs_snoc _ (noAdjWs_snoc _ hI2 ?_) ?_
      · intro habs
        rw [mk4_type] at habs
        exact absurd habs (by decide)
      · intro _
        exact hbt
    · rw [htoks]
      refine wsLen_snoc _ (wsLen_snoc _ hI3 ?_) ?_
      · intro habs
        rw [mk4_type] at habs
        exact absurd habs (by decide)
      · intro _
        rfl
    · refine ⟨Token.mk4 NUMBER st.word st.pos (st.word.length : Int),
        [Token.mk4 WHITESPACE (String.singleton '\n')
          { st.pos with column := st.pos.column + st.word.length } 0], ?_,
        mk4_lexeme _ _ _ _⟩
      rw [htoks, List.append_assoc]
      rfl
    · refine ⟨Token.mk4 NUMBER st.word st.pos (st.word.length : Int),
        { { st.pos with column := st.pos.column + st.word.length } with
          index := { st.pos with column := st.pos.column + st.word.length }.index - 0 },
        ?_⟩
      rw [htoks, List.append_assoc]
      rfl
  case STATE_HEX =>
    have hpc : st.prevC ≠ '\n' := fun he => by
      rcases hN1 he with h | h <;> (rw [hs] at h; exact absurd h (by decide))
    have hwne : st.word ≠ "" := hW2 (by rw [hs]; exact fun hx => absurd hx (by decide))
    have hfire : st.pos.index ≥ (source.length : Int) ∧ st.state ≠ STATE_NONE ∧
        st.word ≠ "" ∧ st.prevC ≠ '\n' :=
      ⟨by omega, by rw [hs]; exact fun hx => absurd hx (by decide), hwne, hpc⟩
    have hu : ¬ consumeUnderscoreInNumber source st.pos.index false (!false) ≠ "" :=
      fun hx => hx (underscore_at_end source st.pos.index false (!false) hule)
    have hacc : ¬ (st.word.length = 1 ∨ isHexOrBinaryNumber '\n' false = true) := by
      rintro (h1 | h2)
      · exact absurd (hH1 hs h1).1 (by omega)
      · rw [isHexOrBinary_newline] at h2
        exact absurd h2 (by decide)
    have hty : ¬ ('\n' = 'l' ∨ '\n' = 'L') := by
      rintro (h | h) <;> exact absurd h (by decide)
    have hdisp := (dispatchOnce_hex source st '\n' st.nextC hs).trans
      (consumeHexAndBinary_finalize source st '\n' false hu hacc hty)
    have hbt : backTypeNotWhitespace (st.tokens ++
        [Token.mk4
          (if st.word.length ≥ 3 then
            (if false then BINARY_NUMBER else HEX_NUMBER) else UNKNOWN)
          st.word st.pos (st.word.length : Int)]) := by
      rw [backType_concat, mk4_type]
      intro habs
      split at habs
      · exact absurd habs (by decide)
      · exact absurd habs (by decide)
    obtain ⟨htoks, hwrd, hstt⟩ := finish_via_finalize source st _ hdisp rfl hbt hfire
    dsimp only at htoks
    refine ⟨?_, fun _ => hwrd, fun _ => ?_, ?_, ?_, fun _ _ => ?_, fun _ => ?_⟩
    · rw [hstt]
      decide
    · rw [htoks, lexData_snoc, lexData_snoc, mk4_lexeme, mk4_lexeme, data_singleton]
      exact nonWs_snoc_ws (by decide) rfl
    · rw [htoks]
      refine noAdjWs_snoc _ (noAdjWs_snoc _ hI2 ?_) ?_
      · intro habs
        rw [mk4_type] at habs
        split at habs
        · exact absurd habs (by decide)
        · exact absurd habs (by decide)
      · intro _
        exact hbt
    · rw [htoks]
      refine wsLen_snoc _ (wsLen_snoc _ hI3 ?_) ?_
      · intro habs
        rw [mk4_type] at habs
        split at habs
        · exact absurd habs (by decide)
        · exact absurd habs (by decide)
      · intro _
        rfl
    · refine ⟨Token.mk4
        (if st.word.length ≥ 3 then
          (if false then BINARY_NUMBER else HEX_NUMBER) else UNKNOWN)
        st.word st.pos (st.word.length : Int),
        [Token.mk4 WHITESPACE (String.singleton '\n')
          { st.pos with column := st.pos.column + st.word.length } 0], ?_,
        mk4_lexeme _ _ _ _⟩
      rw [htoks, List.append_assoc]
      rfl
    · refine ⟨Token.mk4
        (if st.word.length ≥ 3 then
          (if false then BINARY_NUMBER else HEX_NUMBER) else UNKNOWN)
        st.word st.pos (st.word.length : Int),
        { { st.pos with column := st.pos.column + st.word.length } with
          index := { st.pos with column := st.pos.column + st.word.length }.index - 0 },
        ?_⟩
      rw [htoks, List.append_assoc]
      rfl
  case STATE_BINARY =>
    have hpc : st.prevC ≠ '\n' := fun he => by
      rcases hN1 he with h | h <;> (rw [hs] at h; exact absurd h (by decide))
    have hwne : st.word ≠ "" := hW2 (by rw [hs]; exact fun hx => absurd hx (by decide))
    have hfire : st.pos.index ≥ (source.length : Int) ∧ st.state ≠ STATE_NONE ∧
        st.word ≠ "" ∧ st.prevC ≠ '\n' :=
      ⟨by omega, by rw [hs]; exact fun hx => absurd hx (by decide), hwne, hpc⟩
    have hu : ¬ consumeUnderscoreInNumber source st.pos.index true (!true) ≠ "" :=
      fun hx => hx (underscore_at_end source st.pos.index true (!true) hule)
    have hacc : ¬ (st.word.length = 1 ∨ isHexOrBinaryNumber '\n' true = true) := by
      rintro (h1 | h2)
      · exact absurd (hH2 hs h1).1 (by omega)
      · rw [isHexOrBinary_newline] at h2
        exact absurd h2 (by decide)
    have hty : ¬ ('\n' = 'l' ∨ '\n' = 'L') := by
      rintro (h | h) <;> exact absurd h (by decide)
    have hdisp := (dispatchOnce_binary source st '\n' st.nextC hs).trans
      (consumeHexAndBinary_finalize source st '\n' true hu hacc hty)
    have hbt : backTypeNotWhitespace (st.tokens ++
        [Token.mk4
          (if st.word.length ≥ 3 then
            (if true then BINARY_NUMBER else HEX_NUMBER) else UNKNOWN)
          st.word st.pos (st.word.length : Int)]) := by
      rw [backType_concat, mk4_type]
      intro habs
      split at habs
      · exact absurd habs (by decide)
      · exact absurd habs (by decide)
    obtain ⟨htoks, hwrd, hstt⟩ := finish_via_finalize source st _ hdisp rfl hbt hfire
    dsimp only at htoks
    refine ⟨?_, fun _ => hwrd, fun _ => ?_, ?_, ?_, fun _ _ => ?_, fun _ => ?_⟩
    · rw [hstt]
      decide
    · rw [htoks, lexData_snoc, lexData_snoc, mk4_lexeme, mk4_lexeme, data_singleton]
      exact nonWs_snoc_ws (by decide) rfl
    · rw [htoks]
      refine noAdjWs_snoc _ (noAdjWs_snoc _ hI2 ?_) ?_
      · intro habs
        rw [mk4_type] at habs
        split at habs
        · exact absurd habs (by decide)
        · exact absurd habs (by decide)
      · intro _
        exact hbt
    · rw [htoks]
      refine wsLen_snoc _ (wsLen_snoc _ hI3 ?_) ?_
      · intro habs
        rw [mk4_type] at habs
        split at habs
        · exact absurd habs (by decide)
        · exact absurd habs (by decide)
      · intro _
        rfl
    · refine ⟨Token.mk4
        (if st.word.length ≥ 3 then
          (if true then BINARY_NUMBER else HEX_NUMBER) else UNKNOWN)
        st.word st.pos (st.word.length : Int),
        [Token.mk4 WHITESPACE (String.singleton '\n')
          { st.pos with column := st.pos.column + st.word.length } 0], ?_,
        mk4_lexeme _ _ _ _⟩
      rw [htoks, List.append_assoc]
      rfl
    · refine ⟨Token.mk4
        (if st.word.length ≥ 3 then
          (if true then BINARY_NUMBER else HEX_NUMBER) else UNKNOWN)
        st.word st.pos (st.word.length : Int),
        { { st.pos with column := st.pos.column + st.word.length } with
          index := { st.pos with column := st.pos.column + st.word.length }.index - 0 },
        ?_⟩
      rw [htoks, List.append_assoc]
      rfl

/-! ## Claims about the full run -/

theorem tokenizeOpt_decomp (source : String) (st : LexState)
    (h : tokenizeOpt source = some st) :
    ∃ stP, preFinal source = some stP ∧ st = finish source stP := by
  unfold tokenizeOpt at h
  cases hp : preFinal source with
  | none => rw [hp] at h; cases h
  | some stP =>
    rw [hp] at h
    exact ⟨stP, rfl, (Option.some.inj h).symm⟩

/-- Claim C5 (amended): when the input is exhausted in a non-neutral
state — which then always holds a non-empty buffer — and that state is
not the block-comment state, the driver's synthesized trailing newline
force-finalizes the pending buffer: the returned stream extends the
loop-exit stream with a token whose lexeme is exactly the pending buffer,
and the buffer ends empty.  In the block-comment state the pending text
is instead discarded without emitting a token (see the counterexample). -/
theorem tokenize_forced_finalization (source : String) (stP : LexState)
    (hpre : preFinal source = some stP)
    (hs1 : stP.state ≠ STATE_NONE) (hs2 : stP.state ≠ STATE_BLOCK_COMMENT) :
    stP.word ≠ "" ∧
    (∃ t rest, tokenize source = stP.tokens ++ t :: rest ∧ t.lexeme = stP.word) ∧
    ((tokenizeOpt source).getD initState).word = "" := by
  obtain ⟨hSt, hstop⟩ := preFinal_inv source stP hpre
  obtain ⟨hTk, -⟩ := preFinal_tokInv source stP hpre
  have hfa := finish_all source stP hstop hSt hTk
  have htok : tokenize source = (finish source stP).tokens := by
    unfold tokenize tokenizeOpt
    rw [hpre]
    rfl
  have hopt : (tokenizeOpt source).getD initState = finish source stP := by
    unfold tokenizeOpt
    rw [hpre]
    rfl
  refine ⟨hSt.2.2.2.1 hs1, ?_, ?_⟩
  · rw [htok]
    exact hfa.2.2.2.2.2.1 hs1 hs2
  · rw [hopt]
    exact hfa.2.1 hs2

theorem tokenize_forced_finalization_witness :
    ((preFinal "a").getD initState).word ≠ "" ∧
    (∃ t rest, tokenize "a" = ((preFinal "a").getD initState).tokens ++ t :: rest ∧
      t.lexeme = ((preFinal "a").getD initState).word) ∧
    ((tokenizeOpt "a").getD initState).word = "" :=
  tokenize_forced_finalization "a" ((preFinal "a").getD initState)
    (by decide) (by decide) (by decide)

/-- Claim C10: when a non-empty input ends, without a trailing newline of
its own, while the tokenizer is still accumulating a word, operator run,
decimal number, hex literal or binary literal, the final token of the
returned stream is a whitespace token whose lexeme is the single
synthesized character '\n' — a character the input does not contain at
that position. -/
theorem tokenize_trailing_newline_token (source : String) (stP : LexState)
    (hpre : preFinal source = some stP)
    (hacc : stP.state = STATE_WORD ∨ stP.state = STATE_OPERATORS ∨
      stP.state = STATE_NUMBERS ∨ stP.state = STATE_HEX ∨
      stP.state = STATE_BINARY) :
    (tokenKinds (tokenize source)).getLast? = some (WHITESPACE, "\n") := by
  obtain ⟨hSt, hstop⟩ := preFinal_inv source stP hpre
  obtain ⟨hTk, -⟩ := preFinal_tokInv source stP hpre
  have hfa := finish_all source stP hstop hSt hTk
  obtain ⟨t, q, hq⟩ := hfa.2.2.2.2.2.2 hacc
  have htok : tokenize source = (finish source stP).tokens := by
    unfold tokenize tokenizeOpt
    rw [hpre]
    rfl
  rw [htok, hq]
  have hassoc : stP.tokens ++ [t, (⟨WHITESPACE, String.singleton '\n', q⟩ : Token)] =
      (stP.tokens ++ [t]) ++ [(⟨WHITESPACE, String.singleton '\n', q⟩ : Token)] := by
    rw [List.append_assoc]
    rfl
  rw [hassoc, getLast_kinds]
  rfl

theorem tokenize_trailing_newline_token_witness :
    (tokenKinds (tokenize "a+b")).getLast? = some (WHITESPACE, "\n") :=
  tokenize_trailing_newline_token "a+b" ((preFinal "a+b").getD initState)
    (by decide) (by decide)

/-- Claim C9: in every returned stream no two adjacent tokens are both
whitespace (a contiguous whitespace run collapses to at most one token,
appended only when the most recent token is not itself whitespace), every
whitespace token's lexeme is a single character, and every character of a
run still advances the position tracker by one. -/
theorem tokenize_whitespace_collapsed (source : String) :
    NoAdjacentWhitespace (tokenize source) ∧
    (∀ t ∈ tokenize source, t.type = WHITESPACE → t.lexeme.length = 1) ∧
    (∀ st : LexState, st.pos.index < (stepCore source st).pos.index) := by
  obtain ⟨stP, hpre⟩ := mainLoop_total source (source.length + 1) initState
    (by show ((source.length : Int) - 0).toNat < source.length + 1; omega)
  have hpre' : preFinal source = some stP := hpre
  obtain ⟨hSt, hstop⟩ := preFinal_inv source stP hpre'
  obtain ⟨hTk, -⟩ := preFinal_tokInv source stP hpre'
  have hfa := finish_all source stP hstop hSt hTk
  have htok : tokenize source = (finish source stP).tokens := by
    unfold tokenize tokenizeOpt
    rw [hpre']
    rfl
  rw [htok]
  refine ⟨hfa.2.2.2.1, hfa.2.2.2.2.1, ?_⟩
  intro st
  have := stepCore_index_lt source st
  omega

theorem tokenize_whitespace_collapsed_witness :
    NoAdjacentWhitespace (tokenize "a  \t b") ∧
      (∀ t ∈ tokenize "a  \t b", t.type = WHITESPACE → t.lexeme.length = 1) :=
  ⟨(tokenize_whitespace_collapsed "a  \t b").1,
    (tokenize_whitespace_collapsed "a  \t b").2.1⟩

/-- The claimed reconstruction fails already on a whitespace-free input:
"a" contains no whitespace characters, so no whitespace run was
suppressed and the claimed reconstruction is the plain concatenation of
the lexemes; but the concatenated lexemes are "a\n", not "a", because the
end-of-input replay appends a synthesized-newline whitespace token. -/
theorem tokenize_roundtrip_counterexample :
    "a".data.filter isWhitespaceChar = [] ∧ lexData (tokenize "a") ≠ "a".data := by
  decide

/-- Claim C3 (amended): unless the scan ends inside an unterminated block
comment, the concatenation of the lexemes of the returned stream carries
exactly the non-whitespace characters of the source, in order; only
whitespace differs (runs are collapsed to one character and a trailing
newline may be synthesized). -/
theorem tokenize_preserves_nonWhitespace (source : String) (st : LexState)
    (h : tokenizeOpt source = some st) (hbc : st.state ≠ STATE_BLOCK_COMMENT) :
    nonWhitespaceChars (lexData (tokenize source)) =
      nonWhitespaceChars source.data := by
  obtain ⟨stP, hpre, hfin⟩ := tokenizeOpt_decomp source st h
  obtain ⟨hSt, hstop⟩ := preFinal_inv source stP hpre
  obtain ⟨hTk, hall⟩ := preFinal_tokInv source stP hpre
  have hfa := finish_all source stP hstop hSt hTk
  have hsbc : stP.state ≠ STATE_BLOCK_COMMENT := by
    intro hx
    exact hbc (by rw [hfin]; exact (hfa.1).mpr hx)
  have htok : tokenize source = (finish source stP).tokens := by
    unfold tokenize tokenizeOpt
    rw [hpre]
    rfl
  rw [htok, hfa.2.2.1 hsbc]
  exact hall

theorem tokenize_preserves_nonWhitespace_witness :
    nonWhitespaceChars (lexData (tokenize "a")) = nonWhitespaceChars "a".data :=
  tokenize_preserves_nonWhitespace "a" ((tokenizeOpt "a").getD initState)
    (by decide) (by decide)

/-! ## Claim C8: unterminated string and char literals -/

theorem append_empty_str (s : String) : s ++ (⟨[]⟩ : String) = s := by
  obtain ⟨w⟩ := s
  show (⟨w ++ []⟩ : String) = ⟨w⟩
  rw [List.append_nil]

theorem push_append_cons (s : String) (r : Char) (l : List Char) :
    s.push r ++ (⟨l⟩ : String) = s ++ (⟨r :: l⟩ : String) := by
  obtain ⟨w⟩ := s
  show (⟨(w ++ [r]) ++ l⟩ : String) = (⟨w ++ r :: l⟩ : String)
  rw [List.append_assoc]
  rfl

theorem getLastD_ne_newline {l : List Char} {d : Char}
    (hl : '\n' ∉ l) (hd : d ≠ '\n') : l.getLastD d ≠ '\n' := by
  induction l generalizing d with
  | nil => exact hd
  | cons a l' ih =>
    rw [List.getLastD_cons]
    exact ih (fun hm => hl (List.mem_cons_of_mem _ hm))
      (fun ha => hl (by rw [← ha]; exact List.mem_cons_self a l'))

theorem consume_quote (st : LexState) (n : Char) :
    consume st '"' n =
      { st with word := String.singleton '"', state := STATE_LITERAL_STRING } := by
  delta consume
  rw [if_neg (fun h => absurd h.1 (by decide))]
  rw [if_neg (fun h => absurd h.1 (by decide))]
  rw [if_pos rfl]

theorem consume_squote (st : LexState) (n : Char) :
    consume st '\'' n =
      { st with word := String.singleton '\'', state := STATE_LITERAL_CHAR } := by
  delta consume
  rw [if_neg (fun h => absurd h.1 (by decide))]
  rw [if_neg (fun h => absurd h.1 (by decide))]
  rw [if_neg (by decide)]
  rw [if_pos rfl]

theorem stepCore_string_accum (source : String) (st : LexState) (r : Char)
    (hs : st.state = STATE_LITERAL_STRING)
    (hcr : charAt source.data st.pos.index.toNat = r)
    (hnl : r ≠ '\n') (hqr : r ≠ '"') :
    (stepCore source st).tokens = st.tokens ∧
    (stepCore source st).word = st.word.push r ∧
    (stepCore source st).state = STATE_LITERAL_STRING ∧
    (stepCore source st).pos.index = st.pos.index + 1 ∧
    (stepCore source st).prevC = r := by
  have h : ∀ (stM : LexState) (c n : Char), stM.tokens = st.tokens →
      stM.word = st.word → stM.state = STATE_LITERAL_STRING →
      stM.prevC = st.prevC → stM.pos.index = st.pos.index → c = r →
      (advancePos (runConsumer source stM c n) c).tokens = st.tokens ∧
      (advancePos (runConsumer source stM c n) c).word = st.word.push r ∧
      (advancePos (runConsumer source stM c n) c).state = STATE_LITERAL_STRING ∧
      (advancePos (runConsumer source stM c n) c).pos.index = st.pos.index + 1 ∧
      (advancePos (runConsumer source stM c n) c).prevC = r := by
    intro stM c n htk hwd hst hpc hix hc
    subst hc
    rw [runConsumer_eq, dispatchOnce_literalString source stM c n hst]
    rw [consumeLiteralString_accum stM c stM.prevC hnl (fun hx => hqr hx.2)]
    dsimp only
    rw [if_pos rfl]
    refine ⟨?_, ?_, ?_, ?_, ?_⟩
    · rw [advancePos_tokens]
      exact htk
    · rw [advancePos_word]
      dsimp only
      rw [hwd]
    · rw [advancePos_state]
      dsimp only
      exact hst
    · rw [advancePos_index]
      dsimp only
      omega
    · rw [advancePos_prevC]
  exact h _ _ _ rfl rfl hs rfl rfl hcr

theorem stepCore_char_accum (source : String) (st : LexState) (r : Char)
    (hs : st.state = STATE_LITERAL_CHAR)
    (hcr : charAt source.data st.pos.index.toNat = r)
    (hnl : r ≠ '\n') (hqr : r ≠ '\'') :
    (stepCore source st).tokens = st.tokens ∧
    (stepCore source st).word = st.word.push r ∧
    (stepCore source st).state = STATE_LITERAL_CHAR ∧
    (stepCore source st).pos.index = st.pos.index + 1 ∧
    (stepCore source st).prevC = r := by
  have h : ∀ (stM : LexState) (c n : Char), stM.tokens = st.tokens →
      stM.word = st.word → stM.state = STATE_LITERAL_CHAR →
      stM.prevC = st.prevC → stM.pos.index = st.pos.index → c = r →
      (advancePos (runConsumer source stM c n) c).tokens = st.tokens ∧
      (advancePos (runConsumer source stM c n) c).word = st.word.push r ∧
      (advancePos (runConsumer source stM c n) c).state = STATE_LITERAL_CHAR ∧
      (advancePos (runConsumer source stM c n) c).pos.index = st.pos.index + 1 ∧
      (advancePos (runConsumer source stM c n) c).prevC = r := by
    intro stM c n htk hwd hst hpc hix hc
    subst hc
    rw [runConsumer_eq, dispatchOnce_literalChar source stM c n hst]
    rw [consumeLiteralChar_accum stM c stM.prevC hnl (fun hx => hqr hx.2)]
    dsimp only
    rw [if_pos rfl]
    refine ⟨?_, ?_, ?_, ?_, ?_⟩
    · rw [advancePos_tokens]
      exact htk
    · rw [advancePos_word]
      dsimp only
      rw [hwd]
    · rw [advancePos_state]
      dsimp only
      exact hst
    · rw [advancePos_index]
      dsimp only
      omega
    · rw [advancePos_prevC]
  exact h _ _ _ rfl rfl hs rfl rfl hcr

theorem stepCore_init_quote (source : String)
    (hc : charAt source.data 0 = '"') :
    (stepCore source initState).tokens = [] ∧
    (stepCore source initState).word = String.singleton '"' ∧
    (stepCore source initState).state = STATE_LITERAL_STRING ∧
    (stepCore source initState).pos.index = 1 ∧
    (stepCore source initState).prevC = '"' := by
  have h : ∀ (stM : LexState) (c n : Char), stM.tokens = [] →
      stM.state = STATE_NONE → stM.pos.index = 0 → c = '"' →
      (advancePos (runConsumer source stM c n) c).tokens = [] ∧
      (advancePos (runConsumer source stM c n) c).word = String.singleton '"' ∧
      (advancePos (runConsumer source stM c n) c).state = STATE_LITERAL_STRING ∧
      (advancePos (runConsumer source stM c n) c).pos.index = 1 ∧
      (advancePos (runConsumer source stM c n) c).prevC = '"' := by
    intro stM c n htk hst hix hcq
    subst hcq
    rw [runConsumer_eq, dispatchOnce_none source stM '"' n hst]
    dsimp only
    rw [if_pos rfl, consume_quote]
    refine ⟨?_, ?_, ?_, ?_, ?_⟩
    · rw [advancePos_tokens, noneTransitionExtras_tokens]
      exact htk
    · rw [advancePos_word, noneTransitionExtras_word]
    · rw [advancePos_state, noneTransitionExtras_state]
    · rw [advancePos_index, noneTransitionExtras_pos]
      dsimp only
      omega
    · rw [advancePos_prevC]
  exact h _ _ _ rfl rfl rfl hc

theorem stepCore_init_squote (source : String)
    (hc : charAt source.data 0 = '\'') :
    (stepCore source initState).tokens = [] ∧
    (stepCore source initState).word = String.singleton '\'' ∧
    (stepCore source initState).state = STATE_LITERAL_CHAR ∧
    (stepCore source initState).pos.index = 1 ∧
    (stepCore source initState).prevC = '\'' := by
  have h : ∀ (stM : LexState) (c n : Char), stM.tokens = [] →
      stM.state = STATE_NONE → stM.pos.index = 0 → c = '\'' →
      (advancePos (runConsumer source stM c n) c).tokens = [] ∧
      (advancePos (runConsumer source stM c n) c).word = String.singleton '\'' ∧
      (advancePos (runConsumer source stM c n) c).state = STATE_LITERAL_CHAR ∧
      (advancePos (runConsumer source stM c n) c).pos.index = 1 ∧
      (advancePos (runConsumer source stM c n) c).prevC = '\'' := by
    intro stM c n htk hst hix hcq
    subst hcq
    rw [runConsumer_eq, dispatchOnce_none source stM '\'' n hst]
    dsimp only
    rw [if_pos rfl, consume_squote]
    refine ⟨?_, ?_, ?_, ?_, ?_⟩
    · rw [advancePos_tokens, noneTransitionExtras_tokens]
      exact htk
    · rw [advancePos_word, noneTransitionExtras_word]
    · rw [advancePos_state, noneTransitionExtras_state]
    · rw [advancePos_index, noneTransitionExtras_pos]
      dsimp only
      omega
    · rw [advancePos_prevC]
  exact h _ _ _ rfl rfl rfl hc

/-- Run of the main loop over the remainder of an unterminated string
literal: every remaining character is accumulated, the state stays in the
string-literal state and the cursor reaches the end of the input. -/
theorem stringLoop (source : String) :
    ∀ (rest : List Char) (st : LexState),
      st.state = STATE_LITERAL_STRING →
      0 ≤ st.pos.index →
      st.pos.index.toNat ≤ source.data.length →
      source.data.drop st.pos.index.toNat = rest →
      '"' ∉ rest → '\n' ∉ rest →
      ∃ stF, mainLoop source (rest.length + 1) st = some stF ∧
        stF.tokens = st.tokens ∧ stF.word = st.word ++ (⟨rest⟩ : String) ∧
        stF.state = STATE_LITERAL_STRING ∧
        stF.pos.index = (source.length : Int) ∧
        stF.prevC = rest.getLastD st.prevC := by
  intro rest
  induction rest with
  | nil =>
    intro st hs h0 hle hdrop hq hn
    have hlen0 : st.pos.index.toNat = source.data.length := by
      have hl := congrArg List.length hdrop
      rw [List.length_drop] at hl
      have hz : (([] : List Char)).length = 0 := rfl
      rw [hz] at hl
      omega
    have hdl := length_data source
    have hidx : st.pos.index = (source.length : Int) := by omega
    refine ⟨st, ?_, rfl, (append_empty_str st.word).symm, hs, hidx, rfl⟩
    rw [mainLoop, if_neg (by omega)]
  | cons r rest' ih =>
    intro st hs h0 hle hdrop hq hn
    have hdl := length_data source
    have hlt : st.pos.index.toNat < source.data.length := by
      by_contra hx
      rw [List.drop_eq_nil_of_le (by omega)] at hdrop
      cases hdrop
    rw [drop_eq_charAt_cons hlt] at hdrop
    have hcr : charAt source.data st.pos.index.toNat = r := by
      injection hdrop with h1 _
    have hrest : source.data.drop (st.pos.index.toNat + 1) = rest' := by
      injection hdrop with _ h2
    have hrq : r ≠ '"' := fun he => hq (by rw [← he]; exact List.mem_cons_self r rest')
    have hrn : r ≠ '\n' := fun he => hn (by rw [← he]; exact List.mem_cons_self r rest')
    obtain ⟨hsc1, hsc2, hsc3, hsc4, hsc5⟩ :=
      stepCore_string_accum source st r hs hcr hrn hrq
    have hto2 : (stepCore source st).pos.index.toNat = st.pos.index.toNat + 1 := by
      omega
    obtain ⟨stF, hml, htks, hwrd, hstf, hidxf, hpcf⟩ := ih (stepCore source st)
      hsc3 (by omega) (by omega) (by rw [hto2]; exact hrest)
      (fun hm => hq (List.mem_cons_of_mem _ hm))
      (fun hm => hn (List.mem_cons_of_mem _ hm))
    have hguard : (source.length : Int) > st.pos.index := by omega
    refine ⟨stF, ?_, ?_, ?_, hstf, hidxf, ?_⟩
    · rw [mainLoop, if_pos hguard]
      exact hml
    · rw [htks, hsc1]
    · rw [hwrd, hsc2, push_append_cons]
    · rw [hpcf, hsc5, List.getLastD_cons]

/-- Run of the main loop over the remainder of an unterminated char
literal. -/
theorem charLoop (source : String) :
    ∀ (rest : List Char) (st : LexState),
      st.state = STATE_LITERAL_CHAR →
      0 ≤ st.pos.index →
      st.pos.index.toNat ≤ source.data.length →
      source.data.drop st.pos.index.toNat = rest →
      '\'' ∉ rest → '\n' ∉ rest →
      ∃ stF, mainLoop source (rest.length + 1) st = some stF ∧
        stF.tokens = st.tokens ∧ stF.word = st.word ++ (⟨rest⟩ : String) ∧
        stF.state = STATE_LITERAL_CHAR ∧
        stF.pos.index = (source.length : Int) ∧
        stF.prevC = rest.getLastD st.prevC := by
  intro rest
  induction rest with
  | nil =>
    intro st hs h0 hle hdrop hq hn
    have hlen0 : st.pos.index.toNat = source.data.length := by
      have hl := congrArg List.length hdrop
      rw [List.length_drop] at hl
      have hz : (([] : List Char)).length = 0 := rfl
      rw [hz] at hl
      omega
    have hdl := length_data source
    have hidx : st.pos.index = (source.length : Int) := by omega
    refine ⟨st, ?_, rfl, (append_empty_str st.word).symm, hs, hidx, rfl⟩
    rw [mainLoop, if_neg (by omega)]
  | cons r rest' ih =>
    intro st hs h0 hle hdrop hq hn
    have hdl := length_data source
    have hlt : st.pos.index.toNat < source.data.length := by
      by_contra hx
      rw [List.drop_eq_nil_of_le (by omega)] at hdrop
      cases hdrop
    rw [drop_eq_charAt_cons hlt] at hdrop
    have hcr : charAt source.data st.pos.index.toNat = r := by
      injection hdrop with h1 _
    have hrest : source.data.drop (st.pos.index.toNat + 1) = rest' := by
      injection hdrop with _ h2
    have hrq : r ≠ '\'' := fun he => hq (by rw [← he]; exact List.mem_cons_self r rest')
    have hrn : r ≠ '\n' := fun he => hn (by rw [← he]; exact List.mem_cons_self r rest')
    obtain ⟨hsc1, hsc2, hsc3, hsc4, hsc5⟩ :=
      stepCore_char_accum source st r hs hcr hrn hrq
    have hto2 : (stepCore source st).pos.index.toNat = st.pos.index.toNat + 1 := by
      omega
    obtain ⟨stF, hml, htks, hwrd, hstf, hidxf, hpcf⟩ := ih (stepCore source st)
      hsc3 (by omega) (by omega) (by rw [hto2]; exact hrest)
      (fun hm => hq (List.mem_cons_of_mem _ hm))
      (fun hm => hn (List.mem_cons_of_mem _ hm))
    have hguard : (source.length : Int) > st.pos.index := by omega
    refine ⟨stF, ?_, ?_, ?_, hstf, hidxf, ?_⟩
    · rw [mainLoop, if_pos hguard]
      exact hml
    · rw [htks, hsc1]
    · rw [hwrd, hsc2, push_append_cons]
    · rw [hpcf, hsc5, List.getLastD_cons]

/-- A double quote followed by any text free of quotes and newlines lexes
to the single Unknown token holding the whole text, opening quote
included. -/
theorem unterminated_string_run (body : List Char)
    (hq : '"' ∉ body) (hn : '\n' ∉ body) :
    tokenKinds (tokenize ⟨'"' :: body⟩) = [(UNKNOWN, ⟨'"' :: body⟩)] := by
  set source : String := ⟨'"' :: body⟩ with hsrc
  have hdl : source.data.length = body.length + 1 := rfl
  have hlen : source.length = body.length + 1 := rfl
  obtain ⟨h1t, h1w, h1s, h1i, h1p⟩ := stepCore_init_quote source rfl
  obtain ⟨stF, hml, htks, hwrd, hstf, hidxf, hpcf⟩ := stringLoop source body
    (stepCore source initState) h1s (by omega) (by omega)
    (by rw [h1i]; exact rfl) hq hn
  have hguard : (source.length : Int) > initState.pos.index := by
    show (source.length : Int) > (0 : Int)
    omega
  have hpre : preFinal source = some stF := by
    unfold preFinal
    rw [mainLoop, if_pos hguard]
    exact hml
  have hword : stF.word = (⟨'"' :: body⟩ : String) := by
    rw [hwrd, h1w]
    rfl
  have hwne : stF.word ≠ "" := by
    rw [hword, ne_empty_iff_data]
    exact fun hx => by cases hx
  have hpcne : stF.prevC ≠ '\n' := by
    rw [hpcf, h1p]
    exact getLastD_ne_newline hn (by decide)
  have hfire : stF.pos.index ≥ (source.length : Int) ∧ stF.state ≠ STATE_NONE ∧
      stF.word ≠ "" ∧ stF.prevC ≠ '\n' :=
    ⟨by omega, by rw [hstf]; exact fun hx => absurd hx (by decide), hwne, hpcne⟩
  have hdisp := (dispatchOnce_literalString source stF '\n' stF.nextC hstf).trans
    (congrArg (fun x => (x, true))
      (consumeLiteralString_newline stF '\n' stF.prevC rfl))
  have hfin := finish_via_consumed source stF _ hdisp hfire
  have htok : tokenize source = (finish source stF).tokens := by
    unfold tokenize tokenizeOpt
    rw [hpre]
    rfl
  rw [htok, hfin, advancePos_tokens]
  dsimp only
  rw [htks, h1t, hword]
  rfl

/-- A single quote followed by any text free of single quotes and
newlines lexes to the single Unknown token holding the whole text,
opening quote included. -/
theorem unterminated_char_run (body : List Char)
    (hq : '\'' ∉ body) (hn : '\n' ∉ body) :
    tokenKinds (tokenize ⟨'\'' :: body⟩) = [(UNKNOWN, ⟨'\'' :: body⟩)] := by
  set source : String := ⟨'\'' :: body⟩ with hsrc
  have hdl : source.data.length = body.length + 1 := rfl
  have hlen : source.length = body.length + 1 := rfl
  obtain ⟨h1t, h1w, h1s, h1i, h1p⟩ := stepCore_init_squote source rfl
  obtain ⟨stF, hml, htks, hwrd, hstf, hidxf, hpcf⟩ := charLoop source body
    (stepCore source initState) h1s (by omega) (by omega)
    (by rw [h1i]; exact rfl) hq hn
  have hguard : (source.length : Int) > initState.pos.index := by
    show (source.length : Int) > (0 : Int)
    omega
  have hpre : preFinal source = some stF := by
    unfold preFinal
    rw [mainLoop, if_pos hguard]
    exact hml
  have hword : stF.word = (⟨'\'' :: body⟩ : String) := by
    rw [hwrd, h1w]
    rfl
  have hwne : stF.word ≠ "" := by
    rw [hword, ne_empty_iff_data]
    exact fun hx => by cases hx
  have hpcne : stF.prevC ≠ '\n' := by
    rw [hpcf, h1p]
    exact getLastD_ne_newline hn (by decide)
  have hfire : stF.pos.index ≥ (source.length : Int) ∧ stF.state ≠ STATE_NONE ∧
      stF.word ≠ "" ∧ stF.prevC ≠ '\n' :=
    ⟨by omega, by rw [hstf]; exact fun hx => absurd hx (by decide), hwne, hpcne⟩
  have hdisp := (dispatchOnce_literalChar source stF '\n' stF.nextC hstf).trans
    (congrArg (fun x => (x, true))
      (consumeLiteralChar_newline stF '\n' stF.prevC rfl))
  have hfin := finish_via_consumed source stF _ hdisp hfire
  have htok : tokenize source = (finish source stF).tokens := by
    unfold tokenize tokenizeOpt
    rw [hpre]
    rfl
  rw [htok, hfin, advancePos_tokens]
  dsimp only
  rw [htks, h1t, hword]
  rfl

/-- Claim C8: an unterminated string or char literal becomes a single
Unknown token holding the partial accumulated text, opening delimiter
included.  The first two conjuncts cover reaching the end of the input
(for any literal body free of the closing delimiter and of newlines); the
last two cover reaching a newline: the active literal handler then
finalizes exactly the accumulated text as Unknown.  In particular
tokenize "\"Hello" yields the single token Unknown "\"Hello". -/
theorem tokenize_unterminated_literal :
    (∀ body : List Char, '"' ∉ body → '\n' ∉ body →
      tokenKinds (tokenize ⟨'"' :: body⟩) = [(UNKNOWN, ⟨'"' :: body⟩)]) ∧
    (∀ body : List Char, '\'' ∉ body → '\n' ∉ body →
      tokenKinds (tokenize ⟨'\'' :: body⟩) = [(UNKNOWN, ⟨'\'' :: body⟩)]) ∧
    (∀ (st : LexState) (p : Char), (consumeLiteralString st '\n' p).tokens =
      st.tokens ++ [Token.mk4 UNKNOWN st.word st.pos st.word.length]) ∧
    (∀ (st : LexState) (p : Char), (consumeLiteralChar st '\n' p).tokens =
      st.tokens ++ [Token.mk4 UNKNOWN st.word st.pos st.word.length]) := by
  refine ⟨unterminated_string_run, unterminated_char_run, ?_, ?_⟩
  · intro st p
    rw [consumeLiteralString_newline st '\n' p rfl]
  · intro st p
    rw [consumeLiteralChar_newline st '\n' p rfl]

theorem tokenize_unterminated_literal_witness :
    tokenKinds (tokenize ⟨'"' :: "Hello".data⟩) =
      [(UNKNOWN, ⟨'"' :: "Hello".data⟩)] :=
  tokenize_unterminated_literal.1 "Hello".data (by decide) (by decide)
